import Mathlib

/-!
# conv2d_n16cx_direct_fp32_fma: scheduling, tiling and weight conversion

A shallow embedding of `conv2d_n16cx_direct_fp32_fma.cpp`.

Conventions of the embedding:

* `int64_t` values are mathematical integers (`Int`); `/` and `%` are the
  truncating C++ operators and are *checked*: a division by zero, a null
  dereference or a loop that does not terminate makes a function return
  `none`.
* `float` arithmetic is kept abstract (`float_arith`): the code is embedded
  for every interpretation of the binary32 operations, and `exact_arith` is the
  executable real-number reading.
* Calls into the microkernel and the AVX copy helpers are recorded, in program
  order, as a list of `event`s; the OpenMP loop nest is embedded in its
  sequential order.
-/

namespace Conv2dDirect

/-! ## Integer helpers -/

/-- The C++ `a / b` on `int64_t`: truncation towards zero, no result for `b = 0`. -/
def cdiv (a b : Int) : Option Int :=
  if b = 0 then none else some (Int.tdiv a b)

/-- The C++ `a % b` on `int64_t`: sign of the dividend, no result for `b = 0`. -/
def cmod (a b : Int) : Option Int :=
  if b = 0 then none else some (Int.tmod a b)

/-- Modelled from the spec: the helper `div_up` is declared in a header that
is not part of the sources at hand; it is the rounded-up quotient
`(a + b - 1) / b`. -/
def div_up (a b : Int) : Option Int :=
  cdiv (a + b - 1) b

/-- Modelled from the spec: the helper `round` (header not at hand) rounds `a`
down to a multiple of `b`: `a / b * b`. -/
def round (a b : Int) : Option Int :=
  (cdiv a b).map (fun q => q * b)

/-- Modelled from the spec: the helper `round_up` (header not at hand) pads `a`
to the block width `b`: `(a + b - 1) / b * b`. -/
def round_up (a b : Int) : Option Int :=
  (cdiv (a + b - 1) b).map (fun q => q * b)

/-- Modelled from the spec: the helper `mod_up` (header not at hand) is the size
of the final partial block: `a % b`, or `b` when that is zero. -/
def mod_up (a b : Int) : Option Int :=
  (cmod a b).map (fun r => if r = 0 then b else r)

/-! ## Floating point -/

/-- An interpretation of the `float` operations the scheduling code uses. -/
structure float_arith where
  /-- The carrier of `float` values. -/
  F : Type
  /-- Conversion of an integer to `float`. -/
  ofInt : Int → F
  /-- The literal written as the decimal fraction `n / d`. -/
  ofDec : Int → Int → F
  /-- The product `x * y`. -/
  mul : F → F → F
  /-- The quotient `x / y`. -/
  div : F → F → F
  /-- The difference `x - y`. -/
  sub : F → F → F
  /-- The comparison `x < y`. -/
  lt : F → F → Bool

/-- Exact arithmetic on fractions `(numerator, denominator)` with a positive
denominator: the real-number reading of the `float` operations. -/
def exact_arith : float_arith where
  F := Int × Int
  ofInt := fun n => (n, 1)
  ofDec := fun n d => (n, d)
  mul := fun x y => (x.1 * y.1, x.2 * y.2)
  div := fun x y => if 0 ≤ y.1 then (x.1 * y.2, x.2 * y.1) else (-(x.1 * y.2), -(x.2 * y.1))
  sub := fun x y => (x.1 * y.2 - y.1 * x.2, x.2 * y.2)
  lt := fun x y => decide (x.1 * y.2 < y.1 * x.2)

/-! ## Constants -/

/-- Modelled from the spec: `config::IC_DATA_BLK` of the microkernel header,
the fixed input-channel block width, 16. -/
def IC_DATA_BLK : Int := 16

/-- Modelled from the spec: `config::OC_DATA_BLK` of the microkernel header,
the fixed output-channel block width, 16. -/
def OC_DATA_BLK : Int := 16

/-- Modelled from the spec: `config::OC_REG_ELTS` of the microkernel header,
the number of output channels one vector register holds, 8. -/
def OC_REG_ELTS : Int := 8

def ASSUME_L3_BYTES : Int := 2048 * 1024

def L3_RATIO (fa : float_arith) : fa.F := fa.ofDec 501 1000

def IC_L2_BLK_MAX : Int := 16 * IC_DATA_BLK

def IC_L2_BLK_TAIL_RATIO (fa : float_arith) : fa.F := fa.ofDec 334 1000

def OC_L2_BLK_MAX : Int := 4 * OC_DATA_BLK

/-- The constant `OW_L2_BLK_MAX = 16 * ker_cfg::MAX_W_BLK`; the microkernel's
maximum register-tile width `MAX_W_BLK` is a parameter. -/
def OW_L2_BLK_MAX (MAX_W_BLK : Int) : Int := 16 * MAX_W_BLK

def PADDING_POLICY_NOPAD : Int := 0

def PADDING_POLICY_PREPAD : Int := 1

/-! ## Data model -/

/-- The bit set `conv_fuse_flag`: one boolean per bit the code tests. -/
structure conv_fuse_flag where
  SUM : Bool
  RELU : Bool
  RELU6 : Bool
deriving DecidableEq, Repr

/-- The fields of `conv2d_param` the code reads. -/
structure conv2d_param where
  kernel_h : Int
  kernel_w : Int
  stride_h : Int
  stride_w : Int
  pad_h : Int
  pad_w : Int
  dilation_h : Int
  dilation_w : Int
  group : Int
  channels : Int
  num_output : Int
  fuse_flag : conv_fuse_flag
deriving DecidableEq, Repr

/-- A tensor shape, read through `GetDim(0..3)`: batch, channels, height, width. -/
structure TensorShape where
  dim0 : Int
  dim1 : Int
  dim2 : Int
  dim3 : Int
deriving DecidableEq, Repr

/-- The method `TensorShape::GetDim` for the four indices the code uses. -/
def TensorShape.GetDim (s : TensorShape) (i : Nat) : Int :=
  match i with
  | 0 => s.dim0
  | 1 => s.dim1
  | 2 => s.dim2
  | _ => s.dim3

/-- The record `kernel_schedule_param`. -/
structure kernel_schedule_param where
  ic_per_gp : Int
  oc_per_gp : Int
  padded_ic : Int
  padded_oc : Int
  ic_l2_blk : Int
  ic_l2_cnt : Int
  gp_l3_blk : Int
  mb_l3_blk : Int
  padding_policy : Int
  unroll_ow_start : Int
  unroll_ow_end : Int
  ow_kr_blk : Int
  oc_l2_blk : Int
  ow_l2_blk : Int
  use_nt_store : Int
deriving DecidableEq, Repr

/-! ## Feasibility predicate -/

/-- The method `conv2d_n16cx_direct_fp32_fma_manager::is_supported`. The method
`conv2d_param::is_pointwise` belongs to a header that is not at hand and is a
parameter. -/
def is_supported (is_pointwise : conv2d_param → Bool) (param_ : conv2d_param) : Option Bool :=
  if is_pointwise param_ then
    some false
  else do
    let c ← cdiv param_.channels param_.group
    let aligned_channels ← (cmod c IC_DATA_BLK).map (fun r => decide (r = 0))
    let o ← cdiv param_.num_output param_.group
    let aligned_num_output ← (cmod o OC_DATA_BLK).map (fun r => decide (r = 0))
    pure (decide (param_.group = 1) || (aligned_channels && aligned_num_output))

/-! ## Input-channel block size -/

/-- The static method `conv2d_n16cx_direct_fp32_fma_executor::cal_ic_l2_blk`. -/
def cal_ic_l2_blk (fa : float_arith) (param : conv2d_param) : Option Int := do
  let ic_per_gp ← cdiv param.channels param.group
  let padded_ic ← round_up ic_per_gp IC_DATA_BLK
  let ic_l2_blk ←
    (if padded_ic ≥ IC_L2_BLK_MAX then
      (div_up (4 * IC_L2_BLK_MAX) (param.kernel_h * param.kernel_w * IC_DATA_BLK)).map
        (fun d => min (d * OC_DATA_BLK) padded_ic)
    else
      (div_up IC_L2_BLK_MAX (param.kernel_h * param.kernel_w * IC_DATA_BLK)).map
        (fun d => min (d * OC_DATA_BLK) padded_ic))
  let tail ← mod_up padded_ic ic_l2_blk
  if fa.lt (fa.ofInt tail) (fa.mul ( IC_L2_BLK_TAIL_RATIO fa) (fa.ofInt ic_l2_blk)) then do
    let cnt ← cdiv padded_ic ic_l2_blk
    let even ← cdiv padded_ic cnt
    round_up even IC_DATA_BLK
  else
    pure ic_l2_blk

/-! ## Schedule tuning -/

/-- The facts of the platform the scheduling code reads. -/
structure machine where
  /-- The `float` arithmetic of the platform. -/
  fa : float_arith
  /-- The value of `PPL_OMP_MAX_THREADS()`. -/
  num_thread : Int
  /-- The value of `ppl::common::GetCpuCacheL3()`. -/
  cpu_cache_l3 : Int
  /-- The microkernel's maximum register-tile width `ker_cfg::MAX_W_BLK`. -/
  MAX_W_BLK : Int

/-- The method `conv2d_n16cx_direct_fp32_fma_executor::init_preproc_param`. -/
def init_preproc_param (cp : conv2d_param) (sp : kernel_schedule_param) :
    Option kernel_schedule_param := do
  let ic_per_gp ← cdiv cp.channels cp.group
  let oc_per_gp ← cdiv cp.num_output cp.group
  let padded_ic ← round_up ic_per_gp IC_DATA_BLK
  let padded_oc ← round_up oc_per_gp OC_DATA_BLK
  pure { sp with ic_per_gp := ic_per_gp, oc_per_gp := oc_per_gp,
                 padded_ic := padded_ic, padded_oc := padded_oc }

/-- The value `l3_cap_all_core`: the L3 budget in `float` elements. -/
def l3_cap_all_core (m : machine) : m.fa.F :=
  m.fa.div
    (m.fa.mul
      (m.fa.ofInt (if m.cpu_cache_l3 = 0 then ASSUME_L3_BYTES * m.num_thread else m.cpu_cache_l3))
      ( L3_RATIO m.fa))
    (m.fa.ofInt 4)

/-- The choice of the padding policy (the `if` over `dst_h`, `dst_w`, `stride_w`,
`pad_w`, `dilation_w` and the group count); `&&` evaluates left to right. -/
def cal_padding_policy (m : machine) (cp : conv2d_param) (channels dst_h dst_w : Int) :
    Option Int :=
  if dst_h ≤ 112 ∧ dst_w ≤ 112 ∧ cp.stride_w < dst_w ∧ cp.pad_w ≠ 0 ∧ cp.dilation_w < dst_w then do
    let c ← cdiv channels cp.group
    if ¬ (c ≤ IC_DATA_BLK ∧ cp.group ≥ m.num_thread) then
      pure PADDING_POLICY_PREPAD
    else
      pure PADDING_POLICY_NOPAD
  else
    pure PADDING_POLICY_NOPAD

/-- The loop `while (blk > 1 && blk * other * ic_l2_blk * padded_src_hw >
l3_cap_all_core) --blk;`, used for the group block (`other = mb_l3_blk`) and
for the batch block (`other = gp_l3_blk`). No result when the fuel runs out
before the loop ends. -/
def shrink_l3_blk (fa : float_arith) (cap : fa.F) (work : Int → Int) : Nat → Int → Option Int
  | 0, blk =>
    if blk > 1 ∧ fa.lt cap (fa.ofInt (work blk)) = true then none else some blk
  | fuel + 1, blk =>
    if blk > 1 ∧ fa.lt cap (fa.ofInt (work blk)) = true then
      shrink_l3_blk fa cap work fuel (blk - 1)
    else some blk

/-- The loop `for (ow = 0; ow < dst_w; ++ow) if (ow * stride_w - pad_w >= 0)
{ unroll_ow_start = ow; break; }`, started at `ow` with the current value
`cur` of `unroll_ow_start`. -/
def scan_unroll_ow_start (cp : conv2d_param) (dst_w : Int) : Nat → Int → Int → Option Int
  | 0, ow, cur => if ow < dst_w then none else some cur
  | fuel + 1, ow, cur =>
    if ow < dst_w then
      if ow * cp.stride_w - cp.pad_w ≥ 0 then some ow
      else scan_unroll_ow_start cp dst_w fuel (ow + 1) cur
    else some cur

/-- The loop `for (ow = dst_w - 1; ow >= 0; --ow) if (ow * stride_w - pad_w +
ext_kernel_w <= src_w) { unroll_ow_end = ow + 1; break; }`, started at `ow` with
the current value `cur` of `unroll_ow_end`. -/
def scan_unroll_ow_end (cp : conv2d_param) (src_w ext_kernel_w : Int) : Nat → Int → Int → Option Int
  | 0, ow, cur => if ow ≥ 0 then none else some cur
  | fuel + 1, ow, cur =>
    if ow ≥ 0 then
      if ow * cp.stride_w - cp.pad_w + ext_kernel_w ≤ src_w then some (ow + 1)
      else scan_unroll_ow_end cp src_w ext_kernel_w fuel (ow - 1) cur
    else some cur

/-- The macro `REDUN_W(W, W_BLK) = float(round_up(W, W_BLK)) / (W) - 1.0f`. -/
def REDUN_W (fa : float_arith) (W W_BLK : Int) : Option fa.F :=
  (round_up W W_BLK).map (fun r => fa.sub (fa.div (fa.ofInt r) (fa.ofInt W)) (fa.ofInt 1))

/-- The loop `for (ow_blk = MAX_W_BLK; ow_blk >= MAX_W_BLK - 2; --ow_blk)
if (REDUN_W(dst_w, ow_blk) < REDUN_W(dst_w, ow_kr_blk)) ow_kr_blk = ow_blk;`,
started at `ow_blk` with the current `ow_kr_blk`. -/
def redun_loop (m : machine) (dst_w : Int) : Nat → Int → Int → Option Int
  | 0, ow_blk, ow_kr_blk => if ow_blk ≥ m.MAX_W_BLK - 2 then none else some ow_kr_blk
  | fuel + 1, ow_blk, ow_kr_blk =>
    if ow_blk ≥ m.MAX_W_BLK - 2 then do
      let r_new ← REDUN_W m.fa dst_w ow_blk
      let r_cur ← REDUN_W m.fa dst_w ow_kr_blk
      redun_loop m dst_w fuel (ow_blk - 1) (if m.fa.lt r_new r_cur then ow_blk else ow_kr_blk)
    else some ow_kr_blk

/-- The choice of the register-tile width `ow_kr_blk` from the unroll region. -/
def cal_ow_kr_blk (m : machine) (dst_w unroll_ow_start unroll_ow_end : Int) : Option Int :=
  if unroll_ow_start < unroll_ow_end then do
    let ow_kr_blk := min (unroll_ow_end - unroll_ow_start) m.MAX_W_BLK
    let r ← REDUN_W m.fa dst_w ow_kr_blk
    if m.fa.lt (m.fa.ofDec 201 1000) r then
      redun_loop m dst_w 3 m.MAX_W_BLK ow_kr_blk
    else
      pure ow_kr_blk
  else
    pure m.MAX_W_BLK

/-- The group and batch blocks under the pre-pad policy: the two shrinking
loops around `mb_l3_blk = min(batch, div_up(num_thread, gp_l3_blk))`. Returns
`(gp_l3_blk, mb_l3_blk)`. -/
def cal_l3_blk (m : machine) (cp : conv2d_param) (batch src_h src_w ic_l2_blk : Int) :
    Option (Int × Int) := do
  let padded_src_hw := src_h * (src_w + 2 * cp.pad_w)
  let gp_l3_blk ← shrink_l3_blk m.fa (l3_cap_all_core m)
    (fun gp => gp * batch * ic_l2_blk * padded_src_hw) (cp.group - 1).toNat cp.group
  let threads_per_gp ← div_up m.num_thread gp_l3_blk
  let mb_l3_blk ← shrink_l3_blk m.fa (l3_cap_all_core m)
    (fun mb => gp_l3_blk * mb * ic_l2_blk * padded_src_hw)
    (min batch threads_per_gp - 1).toNat (min batch threads_per_gp)
  pure (gp_l3_blk, mb_l3_blk)

/-- The unroll region `(unroll_ow_start, unroll_ow_end)`. -/
def cal_unroll_ow (cp : conv2d_param) (padding_policy src_w dst_w ext_kernel_w : Int) :
    Option (Int × Int) :=
  if padding_policy = PADDING_POLICY_NOPAD then do
    let unroll_ow_start ← scan_unroll_ow_start cp dst_w dst_w.toNat 0 (-1)
    let unroll_ow_end ← scan_unroll_ow_end cp src_w ext_kernel_w dst_w.toNat (dst_w - 1) (-1)
    if unroll_ow_start ≥ unroll_ow_end ∨ unroll_ow_start < 0 ∨ unroll_ow_end < 0 then
      pure (dst_w, dst_w)
    else
      pure (unroll_ow_start, unroll_ow_end)
  else
    pure (0, dst_w)

/-- The output-width outer block `ow_l2_blk`. The comparison with
`1.5 * OW_L2_BLK_MAX` is made in `double`, where both sides are exact. -/
def cal_ow_l2_blk (m : machine) (dst_w ow_kr_blk : Int) : Option Int :=
  if dst_w ≥ 2 * OW_L2_BLK_MAX m.MAX_W_BLK then
    round_up (OW_L2_BLK_MAX m.MAX_W_BLK) ow_kr_blk
  else if 2 * dst_w > 3 * OW_L2_BLK_MAX m.MAX_W_BLK then do
    let half ← div_up dst_w 2
    round_up half ow_kr_blk
  else
    pure dst_w

/-- The method `conv2d_n16cx_direct_fp32_fma_executor::cal_kernel_tunning_param`. -/
def cal_kernel_tunning_param (m : machine) (cp : conv2d_param)
    (src_shape_ dst_shape_ : TensorShape) (sp : kernel_schedule_param) :
    Option kernel_schedule_param := do
  let batch := src_shape_.GetDim 0
  let channels := src_shape_.GetDim 1
  let src_h := src_shape_.GetDim 2
  let src_w := src_shape_.GetDim 3
  let dst_h := dst_shape_.GetDim 2
  let dst_w := dst_shape_.GetDim 3
  let ext_kernel_w := (cp.kernel_w - 1) * cp.dilation_w + 1
  let ic_l2_blk ← cal_ic_l2_blk m.fa cp
  let ic_l2_cnt ← div_up sp.padded_ic ic_l2_blk
  let padding_policy ← cal_padding_policy m cp channels dst_h dst_w
  let l3 ←
    (if padding_policy = PADDING_POLICY_PREPAD then
      cal_l3_blk m cp batch src_h src_w ic_l2_blk
    else
      pure (cp.group, batch))
  let unroll ← cal_unroll_ow cp padding_policy src_w dst_w ext_kernel_w
  let ow_kr_blk ← cal_ow_kr_blk m dst_w unroll.1 unroll.2
  let oc_l2_blk := min OC_L2_BLK_MAX sp.padded_oc
  let ow_l2_blk ← cal_ow_l2_blk m dst_w ow_kr_blk
  let use_nt_store :=
    if m.fa.lt (m.fa.mul (l3_cap_all_core m) (m.fa.ofInt 2))
        (m.fa.ofInt (batch * cp.group * sp.padded_oc * dst_h * dst_w)) then 1 else 0
  pure { sp with
    ic_l2_blk := ic_l2_blk, ic_l2_cnt := ic_l2_cnt,
    gp_l3_blk := l3.1, mb_l3_blk := l3.2,
    padding_policy := padding_policy,
    unroll_ow_start := unroll.1, unroll_ow_end := unroll.2,
    ow_kr_blk := ow_kr_blk, oc_l2_blk := oc_l2_blk, ow_l2_blk := ow_l2_blk,
    use_nt_store := use_nt_store }

/-! ## Executor -/

/-- The status codes `ppl::common::RetCode` the code returns. -/
inductive RetCode where
  | RC_SUCCESS
  | RC_INVALID_VALUE
  | RC_OUT_OF_MEMORY
  | RC_PERMISSION_DENIED
  | RC_OTHER_ERROR
deriving DecidableEq, Repr

/-- The memory objects the executor is handed. -/
inductive buffer where
  | src
  | dst
  | sum_src
  | cvt_filter
  | cvt_bias
  | temp_buffer
deriving DecidableEq, Repr

/-- A `float *`: a memory object and an offset in elements. -/
structure pointer where
  buf : buffer
  off : Int
deriving DecidableEq, Repr

/-- Pointer arithmetic `p + k`. -/
def pointer.add (p : pointer) (k : Int) : pointer :=
  { p with off := p.off + k }

/-- The state of a `conv2d_n16cx_direct_fp32_fma_executor`; a null pointer is
`none`. -/
structure executor where
  conv_param_ : Option conv2d_param
  src_shape_ : Option TensorShape
  dst_shape_ : Option TensorShape
  sum_src_shape_ : Option TensorShape
  cvt_filter_ : Option pointer
  cvt_bias_ : Option pointer
  src_ : Option pointer
  dst_ : Option pointer
  sum_src_ : Option pointer
  temp_buffer_ : Option pointer
  schedule_param_ : kernel_schedule_param
deriving DecidableEq, Repr

/-- Conversion of an `int64_t` to `uint64_t`. -/
def to_uint64 (x : Int) : Int := x % 2 ^ 64

/-- The method `conv2d_n16cx_direct_fp32_fma_executor::cal_temp_buffer_size`;
the arithmetic is that of `uint64_t`. -/
def cal_temp_buffer_size (e : executor) : Option Int :=
  if e.schedule_param_.padding_policy = PADDING_POLICY_PREPAD then do
    let src_shape_ ← e.src_shape_
    let conv_param_ ← e.conv_param_
    let src_h := src_shape_.GetDim 2
    let src_w := src_shape_.GetDim 3
    let padded_src_hw := to_uint64 (to_uint64 src_h * to_uint64 (src_w + 2 * conv_param_.pad_w))
    pure (to_uint64 (to_uint64 (to_uint64 (to_uint64
      (padded_src_hw * to_uint64 e.schedule_param_.mb_l3_blk)
        * to_uint64 e.schedule_param_.gp_l3_blk)
        * to_uint64 e.schedule_param_.ic_l2_blk) * 4))
  else
    pure 0

/-- The method `conv2d_n16cx_direct_fp32_fma_executor::prepare`. -/
def prepare (m : machine) (e : executor) : Option (RetCode × executor) :=
  match e.conv_param_, e.src_shape_, e.dst_shape_ with
  | some cp, some src_shape_, some dst_shape_ =>
    if cp.fuse_flag.SUM = true ∧ e.sum_src_shape_ = none then
      some (RetCode.RC_INVALID_VALUE, e)
    else do
      let sp ← init_preproc_param cp e.schedule_param_
      let sp ← cal_kernel_tunning_param m cp src_shape_ dst_shape_ sp
      pure (RetCode.RC_SUCCESS, { e with schedule_param_ := sp })
  | _, _, _ => some (RetCode.RC_INVALID_VALUE, e)

/-- Well-formed convolution parameters and platform facts: the conditions under
which the scheduling code performs no division by zero. -/
structure well_formed (m : machine) (cp : conv2d_param) : Prop where
  group_pos : 1 ≤ cp.group
  ic_per_gp_pos : 1 ≤ Int.tdiv cp.channels cp.group
  kernel_pos : 1 ≤ cp.kernel_h * cp.kernel_w
  max_w_blk : 3 ≤ m.MAX_W_BLK

/-- What the tuning guarantees about the schedule it stores, for the parameters
`cp`, the source shape `src_shape_` and the destination shape `dst_shape_`. -/
structure schedule_bounds (m : machine) (cp : conv2d_param) (src_shape_ dst_shape_ : TensorShape)
    (sp : kernel_schedule_param) : Prop where
  ic_l2_blk_pos : 0 < sp.ic_l2_blk
  ic_l2_blk_dvd : IC_DATA_BLK ∣ sp.ic_l2_blk
  ic_l2_blk_le : sp.ic_l2_blk ≤ (Int.tdiv cp.channels cp.group + 16 - 1) / 16 * 16
  policy : sp.padding_policy = PADDING_POLICY_NOPAD ∨ sp.padding_policy = PADDING_POLICY_PREPAD
  gp_l3_blk_pos : 1 ≤ sp.gp_l3_blk
  gp_l3_blk_le : sp.gp_l3_blk ≤ cp.group
  mb_l3_blk_le : sp.mb_l3_blk ≤ src_shape_.GetDim 0
  mb_l3_blk_pos : 1 ≤ src_shape_.GetDim 0 → 1 ≤ m.num_thread → 1 ≤ sp.mb_l3_blk
  nopad_blk : sp.padding_policy = PADDING_POLICY_NOPAD →
    sp.gp_l3_blk = cp.group ∧ sp.mb_l3_blk = src_shape_.GetDim 0
  unroll : 0 ≤ dst_shape_.GetDim 3 →
    0 ≤ sp.unroll_ow_start ∧ sp.unroll_ow_start ≤ sp.unroll_ow_end ∧
      sp.unroll_ow_end ≤ dst_shape_.GetDim 3
  ow_kr_blk_pos : 1 ≤ sp.ow_kr_blk
  ow_kr_blk_le : sp.ow_kr_blk ≤ m.MAX_W_BLK
  oc_l2_blk_eq : sp.oc_l2_blk = min OC_L2_BLK_MAX sp.padded_oc
  ow_l2_blk_pos : 1 ≤ dst_shape_.GetDim 3 → 1 ≤ sp.ow_l2_blk

/-- The failure condition of `prepare`: the convolution parameters, the source
shape or the destination shape is absent, or the SUM fusion flag is set while
the residual-source shape is absent. -/
def prepare_invalid (e : executor) : Prop :=
  e.conv_param_ = none ∨ e.src_shape_ = none ∨ e.dst_shape_ = none ∨
    (∃ cp, e.conv_param_ = some cp ∧ cp.fuse_flag.SUM = true ∧ e.sum_src_shape_ = none)

/-! ## A concrete configuration

The scenario of the specification: kernel 3×3, stride 1, padding 1, dilation 1,
16 input channels, one group, 32 output channels, input shape `[1, 16, 32, 32]`,
on a platform with four threads, no detected L3 size and `MAX_W_BLK = 6`. -/

def example_machine : machine :=
  { fa := exact_arith, num_thread := 4, cpu_cache_l3 := 0, MAX_W_BLK := 6 }

def example_param : conv2d_param :=
  { kernel_h := 3, kernel_w := 3, stride_h := 1, stride_w := 1, pad_h := 1, pad_w := 1,
    dilation_h := 1, dilation_w := 1, group := 1, channels := 16, num_output := 32,
    fuse_flag := { SUM := false, RELU := false, RELU6 := false } }

def example_src_shape : TensorShape := { dim0 := 1, dim1 := 16, dim2 := 32, dim3 := 32 }

def example_dst_shape : TensorShape := { dim0 := 1, dim1 := 32, dim2 := 32, dim3 := 32 }

/-- A schedule that has not been computed yet. -/
def blank_schedule : kernel_schedule_param :=
  { ic_per_gp := 0, oc_per_gp := 0, padded_ic := 0, padded_oc := 0, ic_l2_blk := 0,
    ic_l2_cnt := 0, gp_l3_blk := 0, mb_l3_blk := 0, padding_policy := 0,
    unroll_ow_start := 0, unroll_ow_end := 0, ow_kr_blk := 0, oc_l2_blk := 0,
    ow_l2_blk := 0, use_nt_store := 0 }

/-- An executor with parameters, shapes and all buffers set, before `prepare`. -/
def example_executor : executor :=
  { conv_param_ := some example_param,
    src_shape_ := some example_src_shape,
    dst_shape_ := some example_dst_shape,
    sum_src_shape_ := none,
    cvt_filter_ := some { buf := buffer.cvt_filter, off := 0 },
    cvt_bias_ := some { buf := buffer.cvt_bias, off := 0 },
    src_ := some { buf := buffer.src, off := 0 },
    dst_ := some { buf := buffer.dst, off := 0 },
    sum_src_ := none,
    temp_buffer_ := some { buf := buffer.temp_buffer, off := 0 },
    schedule_param_ := blank_schedule }

/-- The schedule `prepare` computes for the example. -/
def example_schedule : kernel_schedule_param :=
  { ic_per_gp := 16, oc_per_gp := 32, padded_ic := 16, padded_oc := 32, ic_l2_blk := 16,
    ic_l2_cnt := 1, gp_l3_blk := 1, mb_l3_blk := 1, padding_policy := 1,
    unroll_ow_start := 0, unroll_ow_end := 32, ow_kr_blk := 6, oc_l2_blk := 32,
    ow_l2_blk := 32, use_nt_store := 0 }

/-! ## Weight conversion -/

/-- Write `n` elements into the block `dst`, starting at element `off`; the
element stored at index `i` is `f i`. No result when the range leaves the block
or the length is negative. -/
def write_range {α : Type} (dst : List α) (off n : Int) (f : Int → α) : Option (List α) :=
  if 0 ≤ off ∧ 0 ≤ n ∧ off + n ≤ dst.length then
    some (List.ofFn (fun i : Fin dst.length =>
      if off ≤ (i.val : Int) ∧ (i.val : Int) < off + n then f i.val else dst.get i))
  else
    none

/-- The call `memcpy(dst + off, src + soff, n * sizeof(float))`. -/
def memcpy_f32 {α : Type} (dst : List α) (off : Int) (src : Int → α) (soff n : Int) :
    Option (List α) :=
  write_range dst off n (fun i => src (soff + (i - off)))

/-- The call `memset(dst + off, 0, n * sizeof(float))`: all-zero bytes are the
`float` zero. -/
def memset_f32 {α : Type} [Zero α] (dst : List α) (off n : Int) : Option (List α) :=
  write_range dst off n (fun _ => 0)

/-- The allocator `allocator_`: the sizes it was asked for so far, and how it
answers request number `k` for `bytes` bytes: with a null pointer, or with the
initial contents of a fresh block. -/
structure allocator (α : Type) where
  requests : List Int
  answer : Nat → Int → Option (Nat → α)

/-- The call `allocator_->Alloc(bytes)`, for a block of `float`s. -/
def allocator.Alloc {α : Type} (a : allocator α) (bytes : Int) :
    Option (List α) × allocator α :=
  ((a.answer a.requests.length bytes).map
      (fun init => (List.range (Int.tdiv bytes 4).toNat).map init),
    { a with requests := a.requests ++ [bytes] })

/-- The filter reordering routines of `reorder.h`, which is not at hand:
`reorder_goidhw_gIOBidhw16i16o_fp32_get_dst_size` (a size in bytes) and
`reorder_goidhw_gIOBidhw16i16o_fp32` (a status and the contents it leaves in the
destination block). Both are parameters. -/
structure reorder_lib (α : Type) where
  get_dst_size : Int → Int → Int → Int → Int → Int → Int → Int
  reorder : (Int → α) → Int → Int → Int → Int → Int → Int → Int → List α → RetCode × List α

/-- The state of a `conv2d_n16cx_direct_fp32_fma_manager`; a null buffer pointer
is `none`, a buffer is the list of its elements. -/
structure manager (α : Type) where
  param_ : conv2d_param
  allocator_ : allocator α
  cvt_filter_ : Option (List α)
  cvt_bias_ : Option (List α)
  cvt_filter_size_ : Int
  cvt_bias_size_ : Int

/-- The loop `for (g = 0; g < group; ++g) { memcpy(...); memset(...); }` of
`gen_cvt_weights`, started at `g` on the block `cvt_bias_`. -/
def cvt_bias_loop {α : Type} [Zero α] (bias : Int → α) (group oc_per_gp padded_oc : Int) :
    Nat → Int → List α → Option (List α)
  | 0, g, cvt_bias_ => if g < group then none else some cvt_bias_
  | fuel + 1, g, cvt_bias_ =>
    if g < group then do
      let copied ← memcpy_f32 cvt_bias_ (g * padded_oc) bias (g * oc_per_gp) oc_per_gp
      let padded ← memset_f32 copied (g * padded_oc + oc_per_gp) (padded_oc - oc_per_gp)
      cvt_bias_loop bias group oc_per_gp padded_oc fuel (g + 1) padded
    else some cvt_bias_

/-- The tail of `gen_cvt_weights` from the filter allocation on. -/
def cvt_filter_stage {α : Type} (lib : reorder_lib α) (mgr : manager α) (filter : Int → α)
    (ic_l2_blk : Int) : RetCode × manager α :=
  let cvt_filter_size_ := Int.tdiv
    (lib.get_dst_size mgr.param_.group mgr.param_.num_output mgr.param_.channels 1
      mgr.param_.kernel_h mgr.param_.kernel_w ic_l2_blk) 4
  let r := mgr.allocator_.Alloc (cvt_filter_size_ * 4)
  let mgr := { mgr with cvt_filter_size_ := cvt_filter_size_, cvt_filter_ := r.1,
                        allocator_ := r.2 }
  match r.1 with
  | none => (RetCode.RC_OUT_OF_MEMORY, mgr)
  | some blk =>
    let out := lib.reorder filter mgr.param_.group mgr.param_.num_output mgr.param_.channels 1
      mgr.param_.kernel_h mgr.param_.kernel_w ic_l2_blk blk
    (out.1, { mgr with cvt_filter_ := some out.2 })

/-- The method `conv2d_n16cx_direct_fp32_fma_manager::gen_cvt_weights`. -/
def gen_cvt_weights {α : Type} [Zero α] (fa : float_arith) (lib : reorder_lib α)
    (mgr : manager α) (filter bias : Int → α) : Option (RetCode × manager α) :=
  if mgr.cvt_bias_.isSome ∨ mgr.cvt_filter_.isSome then
    some (RetCode.RC_PERMISSION_DENIED, mgr)
  else do
    let oc_per_gp ← cdiv mgr.param_.num_output mgr.param_.group
    let padded_oc ← round_up oc_per_gp OC_DATA_BLK
    let ic_l2_blk ← cal_ic_l2_blk fa mgr.param_
    let cvt_bias_size_ := mgr.param_.group * padded_oc
    let r := mgr.allocator_.Alloc (cvt_bias_size_ * 4)
    let mgr := { mgr with cvt_bias_size_ := cvt_bias_size_, cvt_bias_ := r.1, allocator_ := r.2 }
    match r.1 with
    | none => pure (RetCode.RC_OUT_OF_MEMORY, mgr)
    | some blk => do
      let blk ← cvt_bias_loop bias mgr.param_.group oc_per_gp padded_oc
        mgr.param_.group.toNat 0 blk
      pure (cvt_filter_stage lib { mgr with cvt_bias_ := some blk } filter ic_l2_blk)

/-- A manager that has not converted its weights, for two groups of 3 output
channels and 16 input channels each, with an allocator that answers every
request with a block of zeros. -/
def example_manager : manager Int :=
  { param_ := { example_param with group := 2, channels := 32, num_output := 6 },
    allocator_ := { requests := [], answer := fun _ _ => some (fun _ => 0) },
    cvt_filter_ := none,
    cvt_bias_ := none,
    cvt_filter_size_ := 0,
    cvt_bias_size_ := 0 }

/-- A stand-in for the reordering routines: the destination holds
`group * num_output * channels` floats and is left as it is. -/
def example_reorder_lib : reorder_lib Int :=
  { get_dst_size := fun group num_output channels _ _ _ _ => group * num_output * channels * 4,
    reorder := fun _ _ _ _ _ _ _ _ blk => (RetCode.RC_SUCCESS, blk) }

/-! ## Execution: events -/

/-- The slots of the microkernel parameter array, `ker_p_def`, that `execute`
writes. -/
inductive ker_p_def where
  | KH_IDX
  | KW_IDX
  | SRC_DW_STRIDE_IDX
  | SRC_SW_STRIDE_IDX
  | SRC_ICB_STRIDE_IDX
  | SRC_DH_STRIDE_IDX
  | CHANNELS_IDX
  | FLAGS_IDX
  | KH_START_IDX
  | KH_END_IDX
  | KW_START_IDX
  | KW_END_IDX
  | SRC_PTR_IDX
  | HIS_PTR_IDX
  | FLT_PTR_IDX
  | BIAS_PTR_IDX
  | DST_PTR_IDX
  | DST_WIDTH_IDX
deriving DecidableEq, Repr

/-- The bit set `ker_flag` held in `kernel_flags`: one boolean per bit. -/
structure ker_flag where
  LOAD_BIAS : Bool
  ADD_BIAS : Bool
  RELU : Bool
  RELU6 : Bool
deriving DecidableEq, Repr

/-- A value stored into a slot of the parameter array. -/
inductive ker_value where
  | int (v : Int)
  | flags (f : ker_flag)
  | ptr (p : pointer)
deriving DecidableEq, Repr

/-- What `execute` does to the outside, in program order. -/
inductive event where
  /-- The store `ker_p.pick<T>(idx) = v`. -/
  | pick (idx : ker_p_def) (v : ker_value)
  /-- The call `ker.execute(nt_store, stride_w, oc_reg, w_blk)`. -/
  | execute (nt_store stride_w oc_reg w_blk : Int)
  /-- The call `ker.execute_border(nt_store, oc_reg)`. -/
  | execute_border (nt_store oc_reg : Int)
  /-- The call `memset32_avx(dst, 0, n)`. -/
  | memset32_avx (dst : pointer) (n : Int)
  /-- The call `memcpy32_avx(dst, src, n)`. -/
  | memcpy32_avx (dst src : pointer) (n : Int)
  /-- The call `_mm_sfence()`. -/
  | sfence
deriving DecidableEq, Repr

/-- The loop `for (i = lo; i < hi; i += step) body(i)`, from `i` on; the events
of the iterations are concatenated. No result when the fuel runs out before
the loop ends (a step that does not advance) or when an iteration has none. -/
def for_loop (body : Int → Option (List event)) (hi step : Int) :
    Nat → Int → Option (List event)
  | 0, i => if i < hi then none else some []
  | fuel + 1, i =>
    if i < hi then do
      let head ← body i
      let rest ← for_loop body hi step fuel (i + step)
      pure (head ++ rest)
    else some []

/-- The loop `for (i = lo; i < hi; i += step) body(i)`. -/
def for_range (lo hi step : Int) (body : Int → Option (List event)) : Option (List event) :=
  for_loop body hi step (hi - lo).toNat lo

/-! ## Execution: the locals of `execute` -/

/-- The `const` locals at the top of `execute`. -/
structure exec_consts where
  batch : Int
  src_h : Int
  src_w : Int
  dst_h : Int
  dst_w : Int
  ext_kernel_h : Int
  ext_kernel_w : Int
  padded_reg_oc : Int
  src_b_stride : Int
  src_g_stride : Int
  src_icb_stride : Int
  src_h_stride : Int
  src_sw_stride : Int
  src_dh_stride : Int
  src_dw_stride : Int
  dst_b_stride : Int
  dst_g_stride : Int
  dst_h_stride : Int
  flt_g_stride : Int
  with_sum : Bool
  with_relu : Bool
  with_relu6 : Bool
  sum_src_b_stride : Int
  spec_stride_w : Int

/-- The computation of the `const` locals of `execute`. -/
def mk_exec_consts (cp : conv2d_param) (sp : kernel_schedule_param)
    (src_shape_ dst_shape_ : TensorShape) (sum_src_shape_ : Option TensorShape) :
    Option exec_consts := do
  let batch := src_shape_.GetDim 0
  let src_h := src_shape_.GetDim 2
  let src_w := src_shape_.GetDim 3
  let dst_h := dst_shape_.GetDim 2
  let dst_w := dst_shape_.GetDim 3
  let padded_reg_oc ← round_up sp.oc_per_gp OC_REG_ELTS
  let src_c ← round_up (src_shape_.GetDim 1) IC_DATA_BLK
  let dst_c ← round_up (dst_shape_.GetDim 1) OC_DATA_BLK
  let with_sum := cp.fuse_flag.SUM
  let sum_src_b_stride ←
    (if with_sum then do
      let s ← sum_src_shape_
      let sum_c ← round_up (s.GetDim 1) OC_DATA_BLK
      pure (sum_c * dst_h * dst_w)
    else pure 0)
  pure {
    batch := batch, src_h := src_h, src_w := src_w, dst_h := dst_h, dst_w := dst_w,
    ext_kernel_h := (cp.kernel_h - 1) * cp.dilation_h + 1,
    ext_kernel_w := (cp.kernel_w - 1) * cp.dilation_w + 1,
    padded_reg_oc := padded_reg_oc,
    src_b_stride := src_c * src_h * src_w,
    src_g_stride := sp.padded_ic * src_h * src_w,
    src_icb_stride := src_h * src_w * IC_DATA_BLK,
    src_h_stride := src_w * IC_DATA_BLK,
    src_sw_stride := cp.stride_w * IC_DATA_BLK,
    src_dh_stride := cp.dilation_h * src_w * IC_DATA_BLK,
    src_dw_stride := cp.dilation_w * IC_DATA_BLK,
    dst_b_stride := dst_c * dst_h * dst_w,
    dst_g_stride := sp.padded_oc * dst_h * dst_w,
    dst_h_stride := dst_w * OC_DATA_BLK,
    flt_g_stride := sp.ic_l2_cnt * sp.padded_oc * cp.kernel_h * cp.kernel_w * sp.ic_l2_blk,
    with_sum := with_sum,
    with_relu := cp.fuse_flag.RELU,
    with_relu6 := cp.fuse_flag.RELU6,
    sum_src_b_stride := sum_src_b_stride,
    spec_stride_w := if cp.stride_w > 2 then 0 else cp.stride_w }

/-- The locals of one input-channel outer block, as they stand when the compute
loops start. -/
structure ic_block where
  icl2_eff : Int
  base_src : pointer
  base_his : pointer
  base_flt : pointer
  base_dst : pointer
  base_src_b_stride : Int
  base_src_g_stride : Int
  base_src_icb_stride : Int
  base_src_h_stride : Int
  base_src_dh_stride : Int
  his_b_stride : Int
  kernel_flags : ker_flag

/-- The value of `kernel_flags` for an input-channel outer block. -/
def cal_kernel_flags (c : exec_consts) (is_first_ic is_last_ic : Bool) : ker_flag :=
  let f0 : ker_flag := { LOAD_BIAS := false, ADD_BIAS := false, RELU := false, RELU6 := false }
  let f1 :=
    if is_first_ic then
      (if c.with_sum then { f0 with ADD_BIAS := true } else { f0 with LOAD_BIAS := true })
    else f0
  if is_last_ic then
    (if c.with_relu then { f1 with RELU := true }
     else if c.with_relu6 then { f1 with RELU6 := true }
     else f1)
  else f1

/-! ## Execution: the loop nest -/

/-- The value stored at `KH_START_IDX` for the input row `ih` of the first
kernel row (and, with the width quantities, at `KW_START_IDX` when
`dilation_w != 1`): `div_up(min(max(0 - i, 0), ext_kernel), dilation)`. -/
def cal_k_start (i ext_kernel dilation : Int) : Option Int :=
  div_up (min (max (0 - i) 0) ext_kernel) dilation

/-- The value stored at `KH_END_IDX` (and at `KW_END_IDX` when
`dilation_w != 1`): `div_up(max(min(src - i, ext_kernel), 0), dilation)`. -/
def cal_k_end (i src ext_kernel dilation : Int) : Option Int :=
  div_up (max (min (src - i) ext_kernel) 0) dilation

/-- The value stored at `KW_START_IDX` for the border column whose first tap
reads the input column `iw`, in both branches of `dilation_w == 1`. -/
def cal_kw_start (cp : conv2d_param) (c : exec_consts) (iw : Int) : Option Int :=
  if cp.dilation_w = 1 then
    pure (min (max (0 - iw) 0) c.ext_kernel_w)
  else
    cal_k_start iw c.ext_kernel_w cp.dilation_w

/-- The value stored at `KW_END_IDX` for the border column whose first tap
reads the input column `iw`, in both branches of `dilation_w == 1`. -/
def cal_kw_end (cp : conv2d_param) (c : exec_consts) (iw : Int) : Option Int :=
  if cp.dilation_w = 1 then
    pure (max (min (c.src_w - iw) c.ext_kernel_w) 0)
  else
    cal_k_end iw c.src_w c.ext_kernel_w cp.dilation_w

/-- The lambda `border_loop(ow_start, ow_end)`: one `execute_border` call per
output column, after the clipped kernel-column window is stored. -/
def border_loop (cp : conv2d_param) (sp : kernel_schedule_param) (c : exec_consts)
    (oc_reg ow_start ow_end : Int) : Option (List event) :=
  for_range ow_start ow_end 1 (fun ow => do
    let iw := ow * cp.stride_w - cp.pad_w
    let kw_start ← cal_kw_start cp c iw
    let kw_end ← cal_kw_end cp c iw
    pure [event.pick ker_p_def.KW_START_IDX (ker_value.int kw_start),
          event.pick ker_p_def.KW_END_IDX (ker_value.int kw_end),
          event.execute_border sp.use_nt_store oc_reg])

/-- The pointers the output-channel loop advances: `l_his`, `l_flt`, `l_bias`
and `l_dst`. -/
structure oc_ptrs where
  l_his : pointer
  l_flt : pointer
  l_bias : pointer
  l_dst : pointer
deriving DecidableEq, Repr

/-- How one output-width outer block `[owl2, owl2 + owl2_eff)` is split: the
bulk region `[unroll_owl2_start, unroll_owl2_end)` and the widths of the bulk
call and of the bulk tail call. -/
structure ow_split where
  unroll_owl2_start : Int
  unroll_owl2_end : Int
  owl2_unroll_body : Int
  owl2_unroll_tail : Int
deriving DecidableEq, Repr

/-- The split of the output-width outer block `[owl2, owl2 + owl2_eff)`: the
unroll region clipped to the block (the whole block is border when the clipped
region is empty), and `round(len, ow_kr_blk)` columns of it for the bulk call. -/
def cal_ow_split (sp : kernel_schedule_param) (owl2 owl2_eff : Int) : Option ow_split := do
  let s0 := max sp.unroll_ow_start owl2
  let e0 := min sp.unroll_ow_end (owl2 + owl2_eff)
  let clipped : Bool := decide (s0 ≥ e0 ∨ s0 < 0 ∨ e0 < 0)
  let unroll_owl2_start := if clipped then owl2 + owl2_eff else s0
  let unroll_owl2_end := if clipped then owl2 + owl2_eff else e0
  let owl2_unroll_len := unroll_owl2_end - unroll_owl2_start
  let owl2_unroll_body ← round owl2_unroll_len sp.ow_kr_blk
  pure { unroll_owl2_start := unroll_owl2_start, unroll_owl2_end := unroll_owl2_end,
         owl2_unroll_body := owl2_unroll_body,
         owl2_unroll_tail := owl2_unroll_len - owl2_unroll_body }

/-- The four dispatches of one 16-channel output block inside one output-width
outer block: the pointers are stored, then the first border loop, the bulk
call, the bulk tail call and the second border loop run. -/
def oc_dispatch (cp : conv2d_param) (sp : kernel_schedule_param) (c : exec_consts)
    (owl2 owl2_eff : Int) (w : ow_split) (l_src : pointer) (oc_end oc : Int) (p : oc_ptrs) :
    Option (List event) := do
  let oc_eff := min (oc_end - oc) OC_DATA_BLK
  let oc_reg ← div_up oc_eff OC_REG_ELTS
  let first ← border_loop cp sp c oc_reg owl2 w.unroll_owl2_start
  let last ← border_loop cp sp c oc_reg w.unroll_owl2_end (owl2 + owl2_eff)
  pure ([event.pick ker_p_def.SRC_PTR_IDX (ker_value.ptr l_src),
         event.pick ker_p_def.HIS_PTR_IDX (ker_value.ptr p.l_his),
         event.pick ker_p_def.FLT_PTR_IDX (ker_value.ptr p.l_flt),
         event.pick ker_p_def.BIAS_PTR_IDX (ker_value.ptr p.l_bias),
         event.pick ker_p_def.DST_PTR_IDX (ker_value.ptr p.l_dst)]
    ++ first
    ++ (if w.owl2_unroll_body ≠ 0 then
          [event.pick ker_p_def.DST_WIDTH_IDX (ker_value.int w.owl2_unroll_body),
           event.execute sp.use_nt_store c.spec_stride_w oc_reg sp.ow_kr_blk]
        else [])
    ++ (if w.owl2_unroll_tail ≠ 0 then
          [event.pick ker_p_def.DST_WIDTH_IDX (ker_value.int w.owl2_unroll_tail),
           event.execute sp.use_nt_store c.spec_stride_w oc_reg w.owl2_unroll_tail]
        else [])
    ++ last)

/-- The loop `for (oc = ocl2; oc < ocl2 + ocl2_eff; oc += OC_DATA_BLK)`, from
`oc` on, with the pointers it advances at the end of each iteration. -/
def oc_loop (cp : conv2d_param) (sp : kernel_schedule_param) (c : exec_consts)
    (body : Int → oc_ptrs → Option (List event)) (oc_end : Int) :
    Nat → Int → oc_ptrs → Option (List event)
  | 0, oc, _ => if oc < oc_end then none else some []
  | fuel + 1, oc, p =>
    if oc < oc_end then do
      let head ← body oc p
      let rest ← oc_loop cp sp c body oc_end fuel (oc + OC_DATA_BLK)
        { l_his := p.l_his.add (OC_DATA_BLK * c.dst_h * c.dst_w),
          l_flt := p.l_flt.add (OC_DATA_BLK * sp.ic_l2_blk * cp.kernel_h * cp.kernel_w),
          l_bias := p.l_bias.add OC_DATA_BLK,
          l_dst := p.l_dst.add (OC_DATA_BLK * c.dst_h * c.dst_w) }
      pure (head ++ rest)
    else some []

/-- The body of the loop over `owl2`: one output-width outer block of one
output row, for the output channels `[ocl2, ocl2 + ocl2_eff)` of group `g` and
batch element `b` of the current tile. -/
def ow_block (cp : conv2d_param) (sp : kernel_schedule_param) (c : exec_consts)
    (blk : ic_block) (cvt_bias_ : pointer) (gpl3 g b ocl2 oh owl2 : Int) :
    Option (List event) := do
  let ocl2_eff := min (c.padded_reg_oc - ocl2) sp.oc_l2_blk
  let owl2_eff := min (c.dst_w - owl2) sp.ow_l2_blk
  let ih := oh * cp.stride_h - cp.pad_h
  let iwl2 := owl2 * cp.stride_w - cp.pad_w
  let kh_start ← cal_k_start ih c.ext_kernel_h cp.dilation_h
  let kh_end ← cal_k_end ih c.src_h c.ext_kernel_h cp.dilation_h
  let w ← cal_ow_split sp owl2 owl2_eff
  let l_src := blk.base_src.add (b * blk.base_src_b_stride + g * blk.base_src_g_stride
    + ih * blk.base_src_h_stride + iwl2 * IC_DATA_BLK)
  let l_his := blk.base_his.add (b * blk.his_b_stride + g * c.dst_g_stride
    + ocl2 * c.dst_h * c.dst_w + oh * c.dst_h_stride + owl2 * OC_DATA_BLK)
  let l_dst := blk.base_dst.add (b * c.dst_b_stride + g * c.dst_g_stride
    + ocl2 * c.dst_h * c.dst_w + oh * c.dst_h_stride + owl2 * OC_DATA_BLK)
  let l_flt := blk.base_flt.add (g * c.flt_g_stride
    + ocl2 * sp.ic_l2_blk * cp.kernel_h * cp.kernel_w)
  let l_bias := cvt_bias_.add ((g + gpl3) * sp.padded_oc + ocl2)
  let calls ← oc_loop cp sp c
    (oc_dispatch cp sp c owl2 owl2_eff w l_src (ocl2 + ocl2_eff))
    (ocl2 + ocl2_eff) ocl2_eff.toNat ocl2
    { l_his := l_his, l_flt := l_flt, l_bias := l_bias, l_dst := l_dst }
  pure ([event.pick ker_p_def.KH_START_IDX (ker_value.int kh_start),
         event.pick ker_p_def.KH_END_IDX (ker_value.int kh_end)] ++ calls)

/-- The compute loops of one input-channel outer block: `g`, `b`, `ocl2`, `oh`
and `owl2`, in the sequential order of the loop nest. -/
def compute_tile (cp : conv2d_param) (sp : kernel_schedule_param) (c : exec_consts)
    (blk : ic_block) (cvt_bias_ : pointer) (gpl3 gpl3_eff mbl3_eff : Int) :
    Option (List event) :=
  for_range 0 gpl3_eff 1 (fun g =>
    for_range 0 mbl3_eff 1 (fun b =>
      for_range 0 c.padded_reg_oc sp.oc_l2_blk (fun ocl2 =>
        for_range 0 c.dst_h 1 (fun oh =>
          for_range 0 c.dst_w sp.ow_l2_blk (fun owl2 =>
            ow_block cp sp c blk cvt_bias_ gpl3 g b ocl2 oh owl2)))))

/-- The strides of the scratch buffer `src_trans`: batch, group, 16-channel
block and row, in elements. -/
structure src_trans_strides where
  b_stride : Int
  g_stride : Int
  icb_stride : Int
  h_stride : Int
  dh_stride : Int
deriving DecidableEq, Repr

/-- The locals `src_trans_*_stride` of the pre-pad branch. -/
def cal_src_trans_strides (cp : conv2d_param) (sp : kernel_schedule_param) (c : exec_consts) :
    src_trans_strides :=
  let src_trans_w := c.src_w + 2 * cp.pad_w
  { b_stride := sp.ic_l2_blk * c.src_h * src_trans_w,
    g_stride := sp.mb_l3_blk * sp.ic_l2_blk * c.src_h * src_trans_w,
    icb_stride := c.src_h * src_trans_w * IC_DATA_BLK,
    h_stride := src_trans_w * IC_DATA_BLK,
    dh_stride := cp.dilation_h * src_trans_w * IC_DATA_BLK }

/-- The offset in `src_trans` of the scratch row of `(g, b, icb, ih)`. -/
def src_trans_row (t : src_trans_strides) (g b icb ih : Int) : Int :=
  g * t.g_stride + b * t.b_stride + icb * t.icb_stride + ih * t.h_stride

/-- The offset from `base_src` of the source row of `(g, b, icb, ih)`. -/
def base_src_row (c : exec_consts) (g b icb ih : Int) : Int :=
  g * c.src_g_stride + b * c.src_b_stride + icb * c.src_icb_stride + ih * c.src_h_stride

/-- The three calls that fill one scratch row: a zero margin of `pad_w`
columns, the source row, a zero margin of `pad_w` columns. -/
def prepad_row (cp : conv2d_param) (c : exec_consts) (l_base_src l_src_trans : pointer) :
    List event :=
  [event.memset32_avx l_src_trans (cp.pad_w * IC_DATA_BLK),
   event.memcpy32_avx (l_src_trans.add (cp.pad_w * IC_DATA_BLK)) l_base_src c.src_h_stride,
   event.memset32_avx ((l_src_trans.add (cp.pad_w * IC_DATA_BLK)).add c.src_h_stride)
     (cp.pad_w * IC_DATA_BLK)]

/-- The padding pre-pass of one outer tile: for every `(g, b, icb, ih)` one
source row is copied into the scratch buffer between two zero-filled margins
of `pad_w` columns. `base_src` is the tile's origin in the live source. -/
def prepad_pass (cp : conv2d_param) (sp : kernel_schedule_param) (c : exec_consts)
    (base_src src_trans : pointer) (icl2_eff gpl3_eff mbl3_eff : Int) :
    Option (List event) := do
  let t := cal_src_trans_strides cp sp c
  let icb_cnt ← div_up icl2_eff IC_DATA_BLK
  for_range 0 gpl3_eff 1 (fun g =>
    for_range 0 mbl3_eff 1 (fun b =>
      for_range 0 icb_cnt 1 (fun icb =>
        for_range 0 c.src_h 1 (fun ih =>
          pure (prepad_row cp c (base_src.add (base_src_row c g b icb ih))
            (src_trans.add (src_trans_row t g b icb ih)))))))

/-- The history view of an input-channel outer block: the residual source and
its batch stride on the first block when SUM fusion is set, the destination
and its batch stride otherwise. -/
def cal_history (c : exec_consts) (dst_ : pointer) (sum_src_ : Option pointer)
    (is_first_ic : Bool) : Option (pointer × Int) :=
  if is_first_ic = true ∧ c.with_sum = true then do
    let p ← sum_src_
    pure (p, c.sum_src_b_stride)
  else pure (dst_, c.dst_b_stride)

/-- The locals of the input-channel outer block that starts at channel `icl2`
of the tile `(mbl3, gpl3)`, before the pre-pad branch. -/
def cal_ic_block (cp : conv2d_param) (sp : kernel_schedule_param) (c : exec_consts)
    (cvt_filter_ src_ dst_ : pointer) (sum_src_ : Option pointer) (mbl3 gpl3 icl2 : Int) :
    Option ic_block := do
  let is_first_ic : Bool := decide (icl2 = 0)
  let is_last_ic : Bool := decide (icl2 + sp.ic_l2_blk ≥ sp.ic_per_gp)
  let his ← cal_history c dst_ sum_src_ is_first_ic
  pure {
    icl2_eff := min (sp.ic_per_gp - icl2) sp.ic_l2_blk,
    base_src := src_.add (mbl3 * c.src_b_stride + gpl3 * c.src_g_stride
      + icl2 * c.src_h * c.src_w),
    base_his := his.1.add (mbl3 * his.2 + gpl3 * c.dst_g_stride),
    base_flt := cvt_filter_.add (gpl3 * c.flt_g_stride
      + icl2 * sp.padded_oc * cp.kernel_h * cp.kernel_w),
    base_dst := dst_.add (mbl3 * c.dst_b_stride + gpl3 * c.dst_g_stride),
    base_src_b_stride := c.src_b_stride, base_src_g_stride := c.src_g_stride,
    base_src_icb_stride := c.src_icb_stride, base_src_h_stride := c.src_h_stride,
    base_src_dh_stride := c.src_dh_stride,
    his_b_stride := his.2,
    kernel_flags := cal_kernel_flags c is_first_ic is_last_ic }

/-- The body of the loop over `icl2`: one input-channel outer block of the tile
`(mbl3, gpl3)`. -/
def ic_l2_block (cp : conv2d_param) (sp : kernel_schedule_param) (c : exec_consts)
    (cvt_filter_ cvt_bias_ src_ dst_ : pointer) (sum_src_ temp_buffer_ : Option pointer)
    (mbl3 mbl3_eff gpl3 gpl3_eff icl2 : Int) : Option (List event) := do
  let blk0 ← cal_ic_block cp sp c cvt_filter_ src_ dst_ sum_src_ mbl3 gpl3 icl2
  let pre ←
    (if sp.padding_policy = PADDING_POLICY_PREPAD then do
      let src_trans ← temp_buffer_
      let copies ← prepad_pass cp sp c blk0.base_src src_trans blk0.icl2_eff gpl3_eff mbl3_eff
      let t := cal_src_trans_strides cp sp c
      pure (copies, { blk0 with
        base_src := src_trans.add (cp.pad_w * IC_DATA_BLK),
        base_src_b_stride := t.b_stride, base_src_g_stride := t.g_stride,
        base_src_h_stride := t.h_stride, base_src_icb_stride := t.icb_stride,
        base_src_dh_stride := t.dh_stride })
    else
      pure ([], blk0))
  let blk := pre.2
  let calls ← compute_tile cp sp c blk cvt_bias_ gpl3 gpl3_eff mbl3_eff
  pure (pre.1
    ++ [event.pick ker_p_def.SRC_ICB_STRIDE_IDX (ker_value.int blk.base_src_icb_stride),
        event.pick ker_p_def.SRC_DH_STRIDE_IDX (ker_value.int blk.base_src_dh_stride),
        event.pick ker_p_def.CHANNELS_IDX (ker_value.int blk.icl2_eff),
        event.pick ker_p_def.FLAGS_IDX (ker_value.flags blk.kernel_flags)]
    ++ calls)

/-- The three outer loops of `execute`: `mbl3`, `gpl3` and `icl2`, with the
store fence after each group block when non-temporal stores are used. -/
def outer_loops (cp : conv2d_param) (sp : kernel_schedule_param) (c : exec_consts)
    (cvt_filter_ cvt_bias_ src_ dst_ : pointer) (sum_src_ temp_buffer_ : Option pointer) :
    Option (List event) :=
  for_range 0 c.batch sp.mb_l3_blk (fun mbl3 =>
    let mbl3_eff := min (c.batch - mbl3) sp.mb_l3_blk
    for_range 0 cp.group sp.gp_l3_blk (fun gpl3 => do
      let gpl3_eff := min (cp.group - gpl3) sp.gp_l3_blk
      let blocks ← for_range 0 sp.padded_ic sp.ic_l2_blk (fun icl2 =>
        ic_l2_block cp sp c cvt_filter_ cvt_bias_ src_ dst_ sum_src_ temp_buffer_
          mbl3 mbl3_eff gpl3 gpl3_eff icl2)
      pure (blocks ++ (if sp.use_nt_store ≠ 0 then [event.sfence] else []))))

/-- The failure condition of `execute`: the convolution parameters, the
converted filter, the converted bias, the source or the destination buffer is
missing, or SUM fusion is set and the residual buffer is missing, or the
padding policy is PRE_PAD and the scratch buffer is missing. -/
def execute_invalid (e : executor) : Prop :=
  e.conv_param_ = none ∨ e.cvt_filter_ = none ∨ e.cvt_bias_ = none ∨ e.src_ = none ∨
    e.dst_ = none ∨
    (∃ cp, e.conv_param_ = some cp ∧ cp.fuse_flag.SUM = true ∧ e.sum_src_ = none) ∨
    (e.schedule_param_.padding_policy = PADDING_POLICY_PREPAD ∧ e.temp_buffer_ = none)

/-- The method `conv2d_n16cx_direct_fp32_fma_executor::execute`: the status and
the events, in program order. -/
def execute (e : executor) : Option (RetCode × List event) :=
  match e.conv_param_, e.cvt_filter_, e.cvt_bias_, e.src_, e.dst_ with
  | some cp, some cvt_filter_, some cvt_bias_, some src_, some dst_ =>
    if cp.fuse_flag.SUM = true ∧ e.sum_src_ = none then
      some (RetCode.RC_INVALID_VALUE, [])
    else
      let sp := e.schedule_param_
      if sp.padding_policy = PADDING_POLICY_PREPAD ∧ e.temp_buffer_ = none then
        some (RetCode.RC_INVALID_VALUE, [])
      else do
        let src_shape_ ← e.src_shape_
        let dst_shape_ ← e.dst_shape_
        let c ← mk_exec_consts cp sp src_shape_ dst_shape_ e.sum_src_shape_
        let calls ← outer_loops cp sp c cvt_filter_ cvt_bias_ src_ dst_ e.sum_src_
          e.temp_buffer_
        pure (RetCode.RC_SUCCESS,
          [event.pick ker_p_def.KH_IDX (ker_value.int cp.kernel_h),
           event.pick ker_p_def.KW_IDX (ker_value.int cp.kernel_w),
           event.pick ker_p_def.SRC_DW_STRIDE_IDX (ker_value.int c.src_dw_stride),
           event.pick ker_p_def.SRC_SW_STRIDE_IDX (ker_value.int c.src_sw_stride)] ++ calls)
  | _, _, _, _, _ => some (RetCode.RC_INVALID_VALUE, [])

/-! ## A configuration without pre-padding

The example with `stride_w = 3`, source width 5 and destination width 2: the
stride is not smaller than the output width, so the no-pad policy is chosen;
column 0 reads the left padding and column 1 is the unroll region. -/

def nopad_param : conv2d_param := { example_param with stride_w := 3 }

def nopad_src_shape : TensorShape := { dim0 := 1, dim1 := 16, dim2 := 32, dim3 := 5 }

def nopad_dst_shape : TensorShape := { dim0 := 1, dim1 := 32, dim2 := 32, dim3 := 2 }

/-- The schedule after `init_preproc_param` for the no-pad example. -/
def nopad_init_schedule : kernel_schedule_param :=
  { blank_schedule with ic_per_gp := 16, oc_per_gp := 32, padded_ic := 16, padded_oc := 32 }

/-- The schedule `cal_kernel_tunning_param` computes for the no-pad example. -/
def nopad_schedule : kernel_schedule_param :=
  { ic_per_gp := 16, oc_per_gp := 32, padded_ic := 16, padded_oc := 32, ic_l2_blk := 16,
    ic_l2_cnt := 1, gp_l3_blk := 1, mb_l3_blk := 1, padding_policy := 0,
    unroll_ow_start := 1, unroll_ow_end := 2, ow_kr_blk := 1, oc_l2_blk := 32,
    ow_l2_blk := 2, use_nt_store := 0 }

/-! ## Input-channel block size: the stages of `cal_ic_l2_blk` -/

/-- The padded per-group channel count `padded_ic` of `cal_ic_l2_blk`. -/
def cal_padded_ic (param : conv2d_param) : Option Int := do
  let ic_per_gp ← cdiv param.channels param.group
  round_up ic_per_gp IC_DATA_BLK

/-- The L2-derived ceiling of `cal_ic_l2_blk`: the first argument of the `min`
in the branch taken for `padded_ic`. -/
def cal_ic_l2_blk_ceiling (param : conv2d_param) (padded_ic : Int) : Option Int :=
  if padded_ic ≥ IC_L2_BLK_MAX then
    (div_up (4 * IC_L2_BLK_MAX) (param.kernel_h * param.kernel_w * IC_DATA_BLK)).map
      (fun d => d * OC_DATA_BLK)
  else
    (div_up IC_L2_BLK_MAX (param.kernel_h * param.kernel_w * IC_DATA_BLK)).map
      (fun d => d * OC_DATA_BLK)

/-- The block `cal_ic_l2_blk` chooses before the tail test: the ceiling, clipped
to `padded_ic`. -/
def cal_ic_l2_blk_init (param : conv2d_param) (padded_ic : Int) : Option Int :=
  (cal_ic_l2_blk_ceiling param padded_ic).map (fun ceiling => min ceiling padded_ic)

/-- The tail test of `cal_ic_l2_blk` for the block `ic_l2_blk`:
`mod_up(padded_ic, ic_l2_blk) < IC_L2_BLK_TAIL_RATIO * ic_l2_blk`. -/
def ic_l2_tail_test (fa : float_arith) (padded_ic ic_l2_blk : Int) : Option Bool :=
  (mod_up padded_ic ic_l2_blk).map
    (fun tail => fa.lt (fa.ofInt tail) (fa.mul ( IC_L2_BLK_TAIL_RATIO fa) (fa.ofInt ic_l2_blk)))

/-- The tail adjustment of `cal_ic_l2_blk`:
`round_up(padded_ic / (padded_ic / ic_l2_blk), IC_DATA_BLK)`. -/
def ic_l2_tail_adjust (padded_ic ic_l2_blk : Int) : Option Int := do
  let cnt ← cdiv padded_ic ic_l2_blk
  let even ← cdiv padded_ic cnt
  round_up even IC_DATA_BLK

/-- The example with 272 input channels (17 blocks of 16): with the 3×3 kernel
the L2-derived ceiling is 128 and the final partial block has 16 channels. -/
def grow_param : conv2d_param := { example_param with channels := 272 }

/-- The example with 288 input channels (18 blocks of 16): the ceiling is 128
and the final partial block has 32 channels. -/
def even_param : conv2d_param := { example_param with channels := 288 }

/-! ## Loop indices -/

/-- The values the variable of `for (i = ...; i < hi; i += step)` takes, from
`i` on. -/
def loop_indices (hi step : Int) : Nat → Int → List Int
  | 0, _ => []
  | fuel + 1, i => if i < hi then i :: loop_indices hi step fuel (i + step) else []

/-- The values the variable of `for (i = lo; i < hi; i += step)` takes. -/
def for_indices (lo hi step : Int) : List Int :=
  loop_indices hi step (hi - lo).toNat lo

/-- The events of a list of iterations, in order; no result when one of the
iterations has none. -/
def seq_events (body : Int → Option (List event)) : List Int → Option (List event)
  | [] => some []
  | i :: rest => do
    let head ← body i
    let tail ← seq_events body rest
    pure (head ++ tail)

/-- The `const` locals of `execute` for the example. -/
def example_consts : exec_consts :=
  { batch := 1, src_h := 32, src_w := 32, dst_h := 32, dst_w := 32,
    ext_kernel_h := 3, ext_kernel_w := 3, padded_reg_oc := 32,
    src_b_stride := 16384, src_g_stride := 16384, src_icb_stride := 16384,
    src_h_stride := 512, src_sw_stride := 16, src_dh_stride := 512, src_dw_stride := 16,
    dst_b_stride := 32768, dst_g_stride := 32768, dst_h_stride := 512,
    flt_g_stride := 4608, with_sum := false, with_relu := false, with_relu6 := false,
    sum_src_b_stride := 0, spec_stride_w := 1 }

/-! ## Memory written by the copy helpers -/

/-- Modelled from the spec: `memset32_avx` and `memcpy32_avx` are declared in a
header that is not part of the sources at hand. By their arguments and by the
specification's "copy + zero-fill source into scratch", `memset32_avx(dst, 0, n)`
stores zero into the `n` elements at `dst` and `memcpy32_avx(dst, src, n)`
stores the `n` elements at `src` into the `n` elements at `dst`. The memory
after one such call; the other events (stores into the parameter array, calls
of the microkernel) are not interpreted. -/
def apply_copy {α : Type} [Zero α] (mem : pointer → α) : event → Option (pointer → α)
  | event.memset32_avx dst n =>
    some (fun p =>
      if p.buf = dst.buf ∧ dst.off ≤ p.off ∧ p.off < dst.off + n then 0 else mem p)
  | event.memcpy32_avx dst src n =>
    some (fun p =>
      if p.buf = dst.buf ∧ dst.off ≤ p.off ∧ p.off < dst.off + n then
        mem (src.add (p.off - dst.off))
      else mem p)
  | _ => none

/-- The memory after a sequence of calls of the copy helpers, in order. -/
def run_copies {α : Type} [Zero α] (mem : pointer → α) : List event → Option (pointer → α)
  | [] => some mem
  | ev :: rest => (apply_copy mem ev).bind (fun mem1 => run_copies mem1 rest)

/-- The pointers `l_his`, `l_flt`, `l_bias` and `l_dst` at the start of
iteration number `k` of the output-channel loop: the pointers of the first
iteration after `k` of the advances at the end of the loop body. -/
def oc_ptrs_at (cp : conv2d_param) (sp : kernel_schedule_param) (c : exec_consts)
    (p : oc_ptrs) (k : Int) : oc_ptrs :=
  { l_his := p.l_his.add (k * (OC_DATA_BLK * c.dst_h * c.dst_w)),
    l_flt := p.l_flt.add (k * (OC_DATA_BLK * sp.ic_l2_blk * cp.kernel_h * cp.kernel_w)),
    l_bias := p.l_bias.add (k * OC_DATA_BLK),
    l_dst := p.l_dst.add (k * (OC_DATA_BLK * c.dst_h * c.dst_w)) }

/-- The offset, in elements from `dst_`, of the 16-float slot of batch element
`n`, group `g`, 16-channel output block `ocb` of the group, row `oh` and column
`ow`: the offsets of `base_dst` and `l_dst` in `execute`, with the advance
`OC_DATA_BLK * dst_h * dst_w` of the output-channel loop taken `ocb` times
from the start of the group. -/
def dst_offset (c : exec_consts) (n g ocb oh ow : Int) : Int :=
  n * c.dst_b_stride + g * c.dst_g_stride + ocb * OC_DATA_BLK * c.dst_h * c.dst_w
    + oh * c.dst_h_stride + ow * OC_DATA_BLK

/-! ## Configurations outside the well-formed range

Parameters and shapes that are all present, with a group count of zero; and
the example with a vertical dilation of zero. -/

/-- The example with `group = 0`, before `prepare`. -/
def zero_group_executor : executor :=
  { example_executor with conv_param_ := some { example_param with group := 0 } }

/-- The example with `dilation_h = 0`, before `prepare`. -/
def zero_dilation_executor : executor :=
  { example_executor with conv_param_ := some { example_param with dilation_h := 0 } }

/-! # Theorems -/

/-! ## Arithmetic facts -/

theorem cdiv_eq_of_pos (a b : Int) (ha : 0 ≤ a) (hb : 0 < b) : cdiv a b = some (a / b) := by
  unfold cdiv
  rw [if_neg (by omega), Int.tdiv_eq_ediv ha (le_of_lt hb)]

theorem cmod_eq_of_pos (a b : Int) (ha : 0 ≤ a) (hb : 0 < b) : cmod a b = some (a % b) := by
  unfold cmod
  rw [if_neg (by omega), Int.tmod_eq_emod ha (le_of_lt hb)]

theorem div_up_eq_of_pos (a b : Int) (ha : 0 ≤ a) (hb : 0 < b) :
    div_up a b = some ((a + b - 1) / b) := by
  unfold div_up
  exact cdiv_eq_of_pos _ _ (by omega) hb

theorem round_up_eq_of_pos (a b : Int) (ha : 0 ≤ a) (hb : 0 < b) :
    round_up a b = some ((a + b - 1) / b * b) := by
  unfold round_up
  rw [cdiv_eq_of_pos _ _ (by omega) hb]
  rfl

theorem mod_up_eq_of_pos (a b : Int) (ha : 0 ≤ a) (hb : 0 < b) :
    mod_up a b = some (if a % b = 0 then b else a % b) := by
  unfold mod_up
  rw [cmod_eq_of_pos _ _ ha hb]
  rfl

/-- The rounded-up quotient of a positive number is positive. -/
theorem div_up_val_pos (a b : Int) (ha : 1 ≤ a) (hb : 0 < b) : 1 ≤ (a + b - 1) / b := by
  rw [Int.le_ediv_iff_mul_le hb]
  omega

/-- Padding to a block width: a multiple of the width, not below the value
and less than one block above it. -/
theorem round_up_val_bounds (a b : Int) (hb : 0 < b) :
    a ≤ (a + b - 1) / b * b ∧ (a + b - 1) / b * b < a + b := by
  have h1 := Int.ediv_add_emod (a + b - 1) b
  have h2 := Int.emod_nonneg (a + b - 1) (ne_of_gt hb)
  have h3 := Int.emod_lt_of_pos (a + b - 1) hb
  have h4 : b * ((a + b - 1) / b) = (a + b - 1) / b * b := Int.mul_comm _ _
  constructor <;> omega

/-- Padding does not pass a multiple of the block width that is already above. -/
theorem round_up_val_le_of_dvd (a b p : Int) (hb : 0 < b) (hp : b ∣ p) (hap : a ≤ p) :
    (a + b - 1) / b * b ≤ p := by
  obtain ⟨k, rfl⟩ := hp
  have h : (a + b - 1) / b ≤ k := by
    have : (a + b - 1) / b < k + 1 := by
      rw [Int.ediv_lt_iff_lt_mul hb]
      have : (k + 1) * b = b * k + b := by ring
      omega
    omega
  calc (a + b - 1) / b * b ≤ k * b := Int.mul_le_mul_of_nonneg_right h (le_of_lt hb)
    _ = b * k := Int.mul_comm _ _

/-- The block chosen before the tail adjustment: a positive multiple of the
block width that does not exceed the padded channel count. -/
theorem init_blk_bounds (x k p : Int) (hx : 1 ≤ x) (hk : 1 ≤ k) (hp : 16 ≤ p) (hdp : (16 : Int) ∣ p) :
    16 ≤ min ((x + k - 1) / k * 16) p ∧ min ((x + k - 1) / k * 16) p ≤ p ∧
      (16 : Int) ∣ min ((x + k - 1) / k * 16) p := by
  have h1 := div_up_val_pos x k hx (by omega)
  refine ⟨le_min (by omega) hp, min_le_right _ _, ?_⟩
  rcases le_total ((x + k - 1) / k * 16) p with h | h
  · rw [min_eq_left h]; exact Dvd.intro_left _ rfl
  · rw [min_eq_right h]; exact hdp

/-- The tail adjustment `round_up(padded_ic / (padded_ic / blk), 16)`: every
division is defined and the result is again a positive multiple of the block
width that does not exceed the padded channel count. -/
theorem tail_adjust_bounds (p b : Int) (hb : 16 ≤ b) (hbp : b ≤ p) (hdp : (16 : Int) ∣ p) :
    ∃ cnt even v, cdiv p b = some cnt ∧ cdiv p cnt = some even ∧
      round_up even IC_DATA_BLK = some v ∧ 16 ≤ v ∧ v ≤ p ∧ (16 : Int) ∣ v := by
  have hq : 1 ≤ p / b := by
    rw [Int.le_ediv_iff_mul_le (by omega)]; omega
  have hr1 : 1 ≤ p / (p / b) := by
    rw [Int.le_ediv_iff_mul_le (by omega)]
    have := Int.ediv_mul_le p (show b ≠ 0 by omega)
    have h2 : p / b * 1 ≤ p / b * b := Int.mul_le_mul_of_nonneg_left (by omega) (by omega)
    omega
  have hr2 : p / (p / b) ≤ p := by
    have := Int.ediv_mul_le p (show p / b ≠ 0 by omega)
    have h2 : p / (p / b) * 1 ≤ p / (p / b) * (p / b) :=
      Int.mul_le_mul_of_nonneg_left hq (by omega)
    omega
  refine ⟨p / b, p / (p / b), (p / (p / b) + 16 - 1) / 16 * 16,
    cdiv_eq_of_pos _ _ (by omega) (by omega), cdiv_eq_of_pos _ _ (by omega) (by omega),
    round_up_eq_of_pos _ _ (by omega) (by decide), ?_, ?_, ?_⟩
  · have := (round_up_val_bounds (p / (p / b)) 16 (by decide)).1
    omega
  · exact round_up_val_le_of_dvd _ _ _ (by decide) hdp hr2
  · exact Dvd.intro_left _ rfl

/-- The second half of `cal_ic_l2_blk`, from the tail test on: it returns a
positive multiple of the block width that does not exceed the padded count. -/
theorem tail_stage_bounds (fa : float_arith) (p b : Int) (hb : 16 ≤ b) (hbp : b ≤ p)
    (hdb : (16 : Int) ∣ b) (hdp : (16 : Int) ∣ p) :
    ∃ blk, ((mod_up p b).bind fun tail =>
        if fa.lt (fa.ofInt tail) (fa.mul ( IC_L2_BLK_TAIL_RATIO fa) (fa.ofInt b)) = true then
          (cdiv p b).bind fun cnt => (cdiv p cnt).bind fun even => round_up even IC_DATA_BLK
        else pure b) = some blk ∧ 0 < blk ∧ IC_DATA_BLK ∣ blk ∧ blk ≤ p := by
  obtain ⟨cnt, even, v, h1, h2, h3, hv16, hvp, hdv⟩ := tail_adjust_bounds p b hb hbp hdp
  rw [mod_up_eq_of_pos p b (by omega) (by omega), Option.some_bind]
  by_cases hlt : fa.lt (fa.ofInt (if p % b = 0 then b else p % b))
      (fa.mul ( IC_L2_BLK_TAIL_RATIO fa) (fa.ofInt b)) = true
  · rw [if_pos hlt, h1, Option.some_bind, h2, Option.some_bind, h3]
    exact ⟨v, rfl, by omega, hdv, hvp⟩
  · rw [if_neg hlt]
    exact ⟨b, rfl, by omega, hdb, hbp⟩

/-- On well-formed parameters `cal_ic_l2_blk` returns a positive multiple of
the block width that does not exceed the padded channel count. -/
theorem cal_ic_l2_blk_ok (fa : float_arith) (param : conv2d_param)
    (hg : 1 ≤ param.group) (hc : 1 ≤ Int.tdiv param.channels param.group)
    (hk : 1 ≤ param.kernel_h * param.kernel_w) :
    ∃ blk padded_ic, cal_ic_l2_blk fa param = some blk ∧
      round_up (Int.tdiv param.channels param.group) IC_DATA_BLK = some padded_ic ∧
      0 < blk ∧ IC_DATA_BLK ∣ blk ∧ blk ≤ padded_ic := by
  obtain ⟨hp1, hp2⟩ := round_up_val_bounds (Int.tdiv param.channels param.group) 16 (by decide)
  have hdp : (16 : Int) ∣ (Int.tdiv param.channels param.group + 16 - 1) / 16 * 16 :=
    Dvd.intro_left _ rfl
  have hru : round_up (Int.tdiv param.channels param.group) IC_DATA_BLK
      = some ((Int.tdiv param.channels param.group + 16 - 1) / 16 * 16) :=
    round_up_eq_of_pos _ _ (by omega) (by decide)
  have hcd : cdiv param.channels param.group = some (Int.tdiv param.channels param.group) := by
    unfold cdiv; rw [if_neg (by omega)]
  generalize (Int.tdiv param.channels param.group + 16 - 1) / 16 * 16 = p at *
  have hK : 1 ≤ param.kernel_h * param.kernel_w * IC_DATA_BLK := by
    show 1 ≤ param.kernel_h * param.kernel_w * 16
    omega
  unfold cal_ic_l2_blk
  rw [hcd]
  simp only [Option.bind_eq_bind, Option.some_bind, hru]
  by_cases hge : p ≥ IC_L2_BLK_MAX
  · rw [if_pos hge, div_up_eq_of_pos _ _ (by decide) (by omega), Option.map_some',
      Option.some_bind]
    obtain ⟨h16, hle, hd⟩ := init_blk_bounds (4 * IC_L2_BLK_MAX)
      (param.kernel_h * param.kernel_w * IC_DATA_BLK) p (by decide) hK (by omega) hdp
    obtain ⟨blk, hblk, hr⟩ := tail_stage_bounds fa p _ h16 hle hd hdp
    exact ⟨blk, p, hblk, rfl, hr⟩
  · rw [if_neg hge, div_up_eq_of_pos _ _ (by decide) (by omega), Option.map_some',
      Option.some_bind]
    obtain ⟨h16, hle, hd⟩ := init_blk_bounds IC_L2_BLK_MAX
      (param.kernel_h * param.kernel_w * IC_DATA_BLK) p (by decide) hK (by omega) hdp
    obtain ⟨blk, hblk, hr⟩ := tail_stage_bounds fa p _ h16 hle hd hdp
    exact ⟨blk, p, hblk, rfl, hr⟩

/-! ## Input-channel block size: claim -/

/-- C4. For every parameter set with `group ≥ 1`, `channels / group ≥ 1` and
`kernel_h * kernel_w ≥ 1`, `cal_ic_l2_blk` performs no division by zero (it
returns a value) and that value is a positive multiple of `IC_DATA_BLK` that
does not exceed `padded_ic = round_up(channels / group, IC_DATA_BLK)`, whatever
the outcome of the tail-ratio comparison. -/
theorem cal_ic_l2_blk_bounds (fa : float_arith) (param : conv2d_param)
    (hg : 1 ≤ param.group) (hc : 1 ≤ Int.tdiv param.channels param.group)
    (hk : 1 ≤ param.kernel_h * param.kernel_w) :
    ∃ blk padded_ic, cal_ic_l2_blk fa param = some blk ∧
      round_up (Int.tdiv param.channels param.group) IC_DATA_BLK = some padded_ic ∧
      0 < blk ∧ IC_DATA_BLK ∣ blk ∧ blk ≤ padded_ic :=
  cal_ic_l2_blk_ok fa param hg hc hk

/-! ## Feasibility -/

/-- C2. For every parameter set with `group ≥ 1`, `is_supported` returns false
for a pointwise convolution and otherwise returns true exactly when
`group == 1` or both `channels / group` and `num_output / group` are exact
multiples of the channel block width 16; in particular it returns false for
`group == 2` when a per-group channel count is not a multiple of 16. -/
theorem is_supported_spec (is_pointwise : conv2d_param → Bool) (param_ : conv2d_param)
    (hg : 1 ≤ param_.group) :
    (is_pointwise param_ = true → is_supported is_pointwise param_ = some false) ∧
    (is_pointwise param_ = false →
      is_supported is_pointwise param_ = some (decide (param_.group = 1 ∨
        (IC_DATA_BLK ∣ Int.tdiv param_.channels param_.group ∧
          OC_DATA_BLK ∣ Int.tdiv param_.num_output param_.group)))) ∧
    (param_.group = 2 →
      (¬ (16 : Int) ∣ Int.tdiv param_.channels param_.group ∨
        ¬ (16 : Int) ∣ Int.tdiv param_.num_output param_.group) →
      is_supported is_pointwise param_ = some false) := by
  have hne : param_.group ≠ 0 := by omega
  have h16 : ∀ x : Int, decide (Int.tmod x 16 = 0) = decide ((16 : Int) ∣ x) := by
    intro x
    exact decide_eq_decide.mpr ⟨Int.dvd_of_tmod_eq_zero, Int.tmod_eq_zero_of_dvd⟩
  have hval : is_pointwise param_ = false →
      is_supported is_pointwise param_ = some (decide (param_.group = 1 ∨
        (IC_DATA_BLK ∣ Int.tdiv param_.channels param_.group ∧
          OC_DATA_BLK ∣ Int.tdiv param_.num_output param_.group))) := by
    intro hp
    have h0 : ¬ ((16 : Int) = 0) := by decide
    simp only [is_supported, hp, cdiv, cmod, if_neg hne, if_neg h0, IC_DATA_BLK, OC_DATA_BLK,
      Option.map_some', Option.bind_eq_bind, Option.some_bind, h16, Option.pure_def,
      Bool.false_eq_true, if_false, Bool.decide_or, Bool.decide_and]
  refine ⟨fun hp => by simp [is_supported, hp], hval, fun h2 hna => ?_⟩
  cases hp : is_pointwise param_
  · rw [hval hp]
    have : ¬ (param_.group = 1 ∨ (IC_DATA_BLK ∣ Int.tdiv param_.channels param_.group ∧
        OC_DATA_BLK ∣ Int.tdiv param_.num_output param_.group)) := by
      rintro (h | ⟨h1, h3⟩)
      · omega
      · rcases hna with h | h
        · exact h h1
        · exact h h3
    simp [this]
  · simp [is_supported, hp]

/-! ## Schedule tuning: the stages are defined -/

/-- The shrinking loop ends within `blk - 1` steps; it never goes below 1, never
grows the block, and stops at 1 or at the first block that fits the budget. -/
theorem shrink_l3_blk_ok (fa : float_arith) (cap : fa.F) (work : Int → Int) :
    ∀ (fuel : Nat) (blk : Int), (blk - 1).toNat ≤ fuel →
      ∃ r, shrink_l3_blk fa cap work fuel blk = some r ∧ r ≤ blk ∧ (1 ≤ blk → 1 ≤ r) ∧
        (blk ≤ 1 → r = blk) ∧ (r ≤ 1 ∨ fa.lt cap (fa.ofInt (work r)) = false) := by
  intro fuel
  induction fuel with
  | zero =>
    intro blk hf
    have hb : blk ≤ 1 := by omega
    refine ⟨blk, ?_, le_refl _, fun h => h, fun _ => rfl, Or.inl hb⟩
    unfold shrink_l3_blk
    rw [if_neg (by intro h; omega)]
  | succ n ih =>
    intro blk hf
    by_cases hc : blk > 1 ∧ fa.lt cap (fa.ofInt (work blk)) = true
    · obtain ⟨r, hr, h1, h2, _, h4⟩ := ih (blk - 1) (by omega)
      refine ⟨r, ?_, by omega, fun _ => h2 (by omega), fun h => by omega, h4⟩
      unfold shrink_l3_blk
      rw [if_pos hc]
      exact hr
    · refine ⟨blk, ?_, le_refl _, fun h => h, fun _ => rfl, ?_⟩
      · unfold shrink_l3_blk
        rw [if_neg hc]
      · by_cases h1 : blk > 1
        · right
          cases hlt : fa.lt cap (fa.ofInt (work blk))
          · rfl
          · exact absurd ⟨h1, hlt⟩ hc
        · left; omega

/-- The forward scan returns the first column at or after `ow` whose leftmost
tap is inside the source, or leaves `cur` when there is none. -/
theorem scan_unroll_ow_start_ok (cp : conv2d_param) (dst_w cur : Int) :
    ∀ (fuel : Nat) (ow : Int), (dst_w - ow).toNat ≤ fuel →
      ∃ r, scan_unroll_ow_start cp dst_w fuel ow cur = some r ∧
        ((r = cur ∧ ∀ j, ow ≤ j → j < dst_w → ¬ (j * cp.stride_w - cp.pad_w ≥ 0)) ∨
          (ow ≤ r ∧ r < dst_w ∧ r * cp.stride_w - cp.pad_w ≥ 0 ∧
            ∀ j, ow ≤ j → j < r → ¬ (j * cp.stride_w - cp.pad_w ≥ 0))) := by
  intro fuel
  induction fuel with
  | zero =>
    intro ow hf
    have hb : ¬ ow < dst_w := by omega
    refine ⟨cur, ?_, Or.inl ⟨rfl, fun j h1 h2 => by omega⟩⟩
    unfold scan_unroll_ow_start
    rw [if_neg hb]
  | succ n ih =>
    intro ow hf
    unfold scan_unroll_ow_start
    by_cases hlt : ow < dst_w
    · rw [if_pos hlt]
      by_cases hc : ow * cp.stride_w - cp.pad_w ≥ 0
      · rw [if_pos hc]
        exact ⟨ow, rfl, Or.inr ⟨le_refl _, hlt, hc, fun j h1 h2 => by omega⟩⟩
      · rw [if_neg hc]
        obtain ⟨r, hr, h⟩ := ih (ow + 1) (by omega)
        refine ⟨r, hr, ?_⟩
        rcases h with ⟨h1, h2⟩ | ⟨h1, h2, h3, h4⟩
        · refine Or.inl ⟨h1, fun j hj1 hj2 => ?_⟩
          rcases eq_or_lt_of_le hj1 with h | h
          · rw [← h]; exact hc
          · exact h2 j (by omega) hj2
        · refine Or.inr ⟨by omega, h2, h3, fun j hj1 hj2 => ?_⟩
          rcases eq_or_lt_of_le hj1 with h | h
          · rw [← h]; exact hc
          · exact h4 j (by omega) hj2
    · rw [if_neg hlt]
      exact ⟨cur, rfl, Or.inl ⟨rfl, fun j h1 h2 => by omega⟩⟩

/-- The backward scan returns one past the last column at or before `ow` whose
rightmost tap is inside the source, or leaves `cur` when there is none. -/
theorem scan_unroll_ow_end_ok (cp : conv2d_param) (src_w ext_kernel_w cur : Int) :
    ∀ (fuel : Nat) (ow : Int), (ow + 1).toNat ≤ fuel →
      ∃ r, scan_unroll_ow_end cp src_w ext_kernel_w fuel ow cur = some r ∧
        ((r = cur ∧ ∀ j, 0 ≤ j → j ≤ ow →
            ¬ (j * cp.stride_w - cp.pad_w + ext_kernel_w ≤ src_w)) ∨
          (1 ≤ r ∧ r ≤ ow + 1 ∧ (r - 1) * cp.stride_w - cp.pad_w + ext_kernel_w ≤ src_w ∧
            ∀ j, r ≤ j → j ≤ ow → ¬ (j * cp.stride_w - cp.pad_w + ext_kernel_w ≤ src_w))) := by
  intro fuel
  induction fuel with
  | zero =>
    intro ow hf
    have hb : ¬ ow ≥ 0 := by omega
    refine ⟨cur, ?_, Or.inl ⟨rfl, fun j h1 h2 => by omega⟩⟩
    unfold scan_unroll_ow_end
    rw [if_neg hb]
  | succ n ih =>
    intro ow hf
    unfold scan_unroll_ow_end
    by_cases hge : ow ≥ 0
    · rw [if_pos hge]
      by_cases hc : ow * cp.stride_w - cp.pad_w + ext_kernel_w ≤ src_w
      · rw [if_pos hc]
        refine ⟨ow + 1, rfl, Or.inr ⟨by omega, le_refl _, ?_, fun j h1 h2 => by omega⟩⟩
        rw [show ow + 1 - 1 = ow by omega]
        exact hc
      · rw [if_neg hc]
        obtain ⟨r, hr, h⟩ := ih (ow - 1) (by omega)
        refine ⟨r, hr, ?_⟩
        rcases h with ⟨h1, h2⟩ | ⟨h1, h2, h3, h4⟩
        · refine Or.inl ⟨h1, fun j hj1 hj2 => ?_⟩
          rcases eq_or_lt_of_le hj2 with h | h
          · rw [h]; exact hc
          · exact h2 j hj1 (by omega)
        · refine Or.inr ⟨h1, by omega, h3, fun j hj1 hj2 => ?_⟩
          rcases eq_or_lt_of_le hj2 with h | h
          · rw [h]; exact hc
          · exact h4 j hj1 (by omega)
    · rw [if_neg hge]
      exact ⟨cur, rfl, Or.inl ⟨rfl, fun j h1 h2 => by omega⟩⟩

theorem cdiv_isSome (a b : Int) (hb : b ≠ 0) : cdiv a b = some (Int.tdiv a b) := by
  unfold cdiv
  rw [if_neg hb]

theorem round_up_isSome (a b : Int) (hb : b ≠ 0) :
    round_up a b = some (Int.tdiv (a + b - 1) b * b) := by
  unfold round_up
  rw [cdiv_isSome _ _ hb]
  rfl

theorem REDUN_W_isSome (fa : float_arith) (W W_BLK : Int) (hb : W_BLK ≠ 0) :
    ∃ r, REDUN_W fa W W_BLK = some r := by
  unfold REDUN_W
  rw [round_up_isSome _ _ hb]
  exact ⟨_, rfl⟩

/-- The unroll region is defined, and for a non-negative output width it is a
sub-range of the output columns. -/
theorem cal_unroll_ow_ok (cp : conv2d_param) (padding_policy src_w dst_w ext_kernel_w : Int) :
    ∃ s e, cal_unroll_ow cp padding_policy src_w dst_w ext_kernel_w = some (s, e) ∧
      (0 ≤ dst_w → 0 ≤ s ∧ s ≤ e ∧ e ≤ dst_w) := by
  unfold cal_unroll_ow
  by_cases hp : padding_policy = PADDING_POLICY_NOPAD
  · rw [if_pos hp]
    obtain ⟨s, hs, hs'⟩ := scan_unroll_ow_start_ok cp dst_w (-1) dst_w.toNat 0 (by omega)
    obtain ⟨e, he, he'⟩ := scan_unroll_ow_end_ok cp src_w ext_kernel_w (-1) dst_w.toNat
      (dst_w - 1) (by omega)
    simp only [hs, he, Option.bind_eq_bind, Option.some_bind]
    by_cases hc : s ≥ e ∨ s < 0 ∨ e < 0
    · rw [if_pos hc]
      exact ⟨dst_w, dst_w, rfl, fun h => ⟨h, le_refl _, le_refl _⟩⟩
    · rw [if_neg hc]
      refine ⟨s, e, rfl, fun _ => ?_⟩
      have h1 : e ≤ dst_w := by
        rcases he' with ⟨h, _⟩ | ⟨_, h, _⟩ <;> omega
      omega
  · rw [if_neg hp]
    exact ⟨0, dst_w, rfl, fun h => ⟨le_refl _, h, le_refl _⟩⟩

/-- The redundancy loop tries `MAX_W_BLK`, `MAX_W_BLK - 1` and `MAX_W_BLK - 2`
and keeps a width between 1 and `MAX_W_BLK`. -/
theorem redun_loop_ok (m : machine) (dst_w : Int) (hM : 3 ≤ m.MAX_W_BLK) :
    ∀ (fuel : Nat) (ow_blk cur : Int), (ow_blk - (m.MAX_W_BLK - 3)).toNat ≤ fuel →
      ow_blk ≤ m.MAX_W_BLK → 1 ≤ cur → cur ≤ m.MAX_W_BLK →
      ∃ v, redun_loop m dst_w fuel ow_blk cur = some v ∧ 1 ≤ v ∧ v ≤ m.MAX_W_BLK := by
  intro fuel
  induction fuel with
  | zero =>
    intro ow_blk cur hf _ h1 h2
    refine ⟨cur, ?_, h1, h2⟩
    unfold redun_loop
    rw [if_neg (by omega)]
  | succ n ih =>
    intro ow_blk cur hf hle h1 h2
    unfold redun_loop
    by_cases hge : ow_blk ≥ m.MAX_W_BLK - 2
    · rw [if_pos hge]
      obtain ⟨r1, hr1⟩ := REDUN_W_isSome m.fa dst_w ow_blk (by omega)
      obtain ⟨r2, hr2⟩ := REDUN_W_isSome m.fa dst_w cur (by omega)
      simp only [hr1, hr2, Option.bind_eq_bind, Option.some_bind]
      apply ih (ow_blk - 1) _ (by omega) (by omega)
      · split <;> omega
      · split <;> omega
    · rw [if_neg hge]
      exact ⟨cur, rfl, h1, h2⟩

/-- The register-tile width is defined and lies between 1 and `MAX_W_BLK`. -/
theorem cal_ow_kr_blk_ok (m : machine) (dst_w s e : Int) (hM : 3 ≤ m.MAX_W_BLK) :
    ∃ v, cal_ow_kr_blk m dst_w s e = some v ∧ 1 ≤ v ∧ v ≤ m.MAX_W_BLK := by
  unfold cal_ow_kr_blk
  by_cases hlt : s < e
  · rw [if_pos hlt]
    have h1 : 1 ≤ min (e - s) m.MAX_W_BLK := le_min (by omega) (by omega)
    have h2 : min (e - s) m.MAX_W_BLK ≤ m.MAX_W_BLK := min_le_right _ _
    obtain ⟨r, hr⟩ := REDUN_W_isSome m.fa dst_w (min (e - s) m.MAX_W_BLK) (by omega)
    simp only [hr, Option.bind_eq_bind, Option.some_bind]
    by_cases hc : m.fa.lt (m.fa.ofDec 201 1000) r = true
    · rw [if_pos hc]
      exact redun_loop_ok m dst_w hM 3 m.MAX_W_BLK _ (by omega) (le_refl _) h1 h2
    · rw [if_neg hc]
      exact ⟨_, rfl, h1, h2⟩
  · rw [if_neg hlt]
    exact ⟨_, rfl, by omega, le_refl _⟩

/-- The output-width outer block is defined, and positive for a positive
output width. -/
theorem cal_ow_l2_blk_ok (m : machine) (dst_w k : Int) (hk : 1 ≤ k) (hM : 1 ≤ m.MAX_W_BLK) :
    ∃ v, cal_ow_l2_blk m dst_w k = some v ∧ (1 ≤ dst_w → 1 ≤ v) := by
  unfold cal_ow_l2_blk OW_L2_BLK_MAX
  by_cases h1 : dst_w ≥ 2 * (16 * m.MAX_W_BLK)
  · rw [if_pos h1, round_up_eq_of_pos _ _ (by omega) (by omega)]
    refine ⟨_, rfl, fun _ => ?_⟩
    have := (round_up_val_bounds (16 * m.MAX_W_BLK) k (by omega)).1
    omega
  · rw [if_neg h1]
    by_cases h2 : 2 * dst_w > 3 * (16 * m.MAX_W_BLK)
    · rw [if_pos h2, div_up_eq_of_pos _ _ (by omega) (by decide)]
      simp only [Option.bind_eq_bind, Option.some_bind]
      have h3 : 1 ≤ (dst_w + 2 - 1) / 2 := by omega
      rw [round_up_eq_of_pos _ _ (by omega) (by omega)]
      refine ⟨_, rfl, fun _ => ?_⟩
      have := (round_up_val_bounds ((dst_w + 2 - 1) / 2) k (by omega)).1
      omega
    · rw [if_neg h2]
      exact ⟨dst_w, rfl, fun h => h⟩

/-- The group and batch blocks under the pre-pad policy are defined; the group
block lies between 1 and `group`, the batch block does not exceed `batch` and
is at least 1 when there is a batch and a thread. -/
theorem cal_l3_blk_ok (m : machine) (cp : conv2d_param) (batch src_h src_w ic_l2_blk : Int)
    (hg : 1 ≤ cp.group) :
    ∃ gp mb, cal_l3_blk m cp batch src_h src_w ic_l2_blk = some (gp, mb) ∧
      1 ≤ gp ∧ gp ≤ cp.group ∧ mb ≤ batch ∧ (1 ≤ batch → 1 ≤ m.num_thread → 1 ≤ mb) := by
  unfold cal_l3_blk
  obtain ⟨gp, hgp, hgle, hg1, _, _⟩ := shrink_l3_blk_ok m.fa (l3_cap_all_core m)
    (fun gp => gp * batch * ic_l2_blk * (src_h * (src_w + 2 * cp.pad_w)))
    (cp.group - 1).toNat cp.group (le_refl _)
  have hgp1 : 1 ≤ gp := hg1 hg
  simp only [hgp, Option.bind_eq_bind, Option.some_bind]
  unfold div_up
  rw [cdiv_isSome _ _ (by omega)]
  simp only [Option.some_bind]
  obtain ⟨mb, hmb, hmle, hm1, _, _⟩ := shrink_l3_blk_ok m.fa (l3_cap_all_core m)
    (fun mb => gp * mb * ic_l2_blk * (src_h * (src_w + 2 * cp.pad_w)))
    (min batch (Int.tdiv (m.num_thread + gp - 1) gp) - 1).toNat
    (min batch (Int.tdiv (m.num_thread + gp - 1) gp)) (le_refl _)
  rw [hmb]
  refine ⟨gp, mb, rfl, hgp1, hgle, le_trans hmle (min_le_left _ _), fun hb ht => ?_⟩
  apply hm1
  refine le_min hb ?_
  rw [Int.tdiv_eq_ediv (by omega) (by omega)]
  exact div_up_val_pos _ _ ht (by omega)

/-- The padding policy is defined and is one of the two policies. -/
theorem cal_padding_policy_ok (m : machine) (cp : conv2d_param) (channels dst_h dst_w : Int)
    (hg : cp.group ≠ 0) :
    ∃ v, cal_padding_policy m cp channels dst_h dst_w = some v ∧
      (v = PADDING_POLICY_NOPAD ∨ v = PADDING_POLICY_PREPAD) := by
  unfold cal_padding_policy
  split
  · rw [cdiv_isSome _ _ hg]
    simp only [Option.bind_eq_bind, Option.some_bind]
    split
    · exact ⟨_, rfl, Or.inr rfl⟩
    · exact ⟨_, rfl, Or.inl rfl⟩
  · exact ⟨_, rfl, Or.inl rfl⟩

/-- On well-formed parameters `init_preproc_param` is defined and stores the
per-group channel counts and their padding to the block width. -/
theorem init_preproc_param_ok (cp : conv2d_param) (sp : kernel_schedule_param)
    (hg : cp.group ≠ 0) :
    init_preproc_param cp sp = some { sp with
      ic_per_gp := Int.tdiv cp.channels cp.group,
      oc_per_gp := Int.tdiv cp.num_output cp.group,
      padded_ic := Int.tdiv (Int.tdiv cp.channels cp.group + 16 - 1) 16 * 16,
      padded_oc := Int.tdiv (Int.tdiv cp.num_output cp.group + 16 - 1) 16 * 16 } := by
  unfold init_preproc_param
  rw [cdiv_isSome _ _ hg, cdiv_isSome _ _ hg]
  simp only [Option.bind_eq_bind, Option.some_bind, IC_DATA_BLK, OC_DATA_BLK]
  rw [round_up_isSome _ _ (by decide), round_up_isSome _ _ (by decide)]
  rfl

/-- On well-formed parameters `cal_kernel_tunning_param` is defined; it leaves
the four fields of `init_preproc_param` alone and the schedule it stores
satisfies `schedule_bounds`. -/
theorem cal_kernel_tunning_param_ok (m : machine) (cp : conv2d_param)
    (src_shape_ dst_shape_ : TensorShape) (sp : kernel_schedule_param)
    (hwf : well_formed m cp) :
    ∃ sp', cal_kernel_tunning_param m cp src_shape_ dst_shape_ sp = some sp' ∧
      sp'.ic_per_gp = sp.ic_per_gp ∧ sp'.oc_per_gp = sp.oc_per_gp ∧
      sp'.padded_ic = sp.padded_ic ∧ sp'.padded_oc = sp.padded_oc ∧
      schedule_bounds m cp src_shape_ dst_shape_ sp' := by
  obtain ⟨hg, hc, hk, hM⟩ := hwf
  obtain ⟨blk, pic, hblk, hpicv, hb0, hbd, hble⟩ := cal_ic_l2_blk_ok m.fa cp hg hc hk
  rw [round_up_eq_of_pos _ _ (by omega) (by decide)] at hpicv
  obtain ⟨pol, hpol, hpol'⟩ := cal_padding_policy_ok m cp (src_shape_.GetDim 1)
    (dst_shape_.GetDim 2) (dst_shape_.GetDim 3) (by omega)
  have hl3 : ∃ gp mb, (if pol = PADDING_POLICY_PREPAD then
        cal_l3_blk m cp (src_shape_.GetDim 0) (src_shape_.GetDim 2) (src_shape_.GetDim 3) blk
      else pure (cp.group, src_shape_.GetDim 0)) = some (gp, mb) ∧
      1 ≤ gp ∧ gp ≤ cp.group ∧ mb ≤ src_shape_.GetDim 0 ∧
      (1 ≤ src_shape_.GetDim 0 → 1 ≤ m.num_thread → 1 ≤ mb) ∧
      (pol = PADDING_POLICY_NOPAD → gp = cp.group ∧ mb = src_shape_.GetDim 0) := by
    by_cases hp : pol = PADDING_POLICY_PREPAD
    · rw [if_pos hp]
      obtain ⟨gp, mb, h, h1, h2, h3, h4⟩ := cal_l3_blk_ok m cp (src_shape_.GetDim 0)
        (src_shape_.GetDim 2) (src_shape_.GetDim 3) blk hg
      refine ⟨gp, mb, h, h1, h2, h3, h4, fun h0 => ?_⟩
      rw [hp] at h0
      exact absurd h0 (by decide)
    · rw [if_neg hp]
      exact ⟨_, _, rfl, hg, le_refl _, le_refl _, fun h _ => h, fun _ => ⟨rfl, rfl⟩⟩
  obtain ⟨gp, mb, hl3, hgp1, hgp2, hmb1, hmb2, hnp⟩ := hl3
  obtain ⟨s, e, hun, hun'⟩ := cal_unroll_ow_ok cp pol (src_shape_.GetDim 3)
    (dst_shape_.GetDim 3) ((cp.kernel_w - 1) * cp.dilation_w + 1)
  obtain ⟨kr, hkr, hkr1, hkr2⟩ := cal_ow_kr_blk_ok m (dst_shape_.GetDim 3) s e hM
  obtain ⟨owl2, howl2, howl2'⟩ := cal_ow_l2_blk_ok m (dst_shape_.GetDim 3) kr hkr1 (by omega)
  have hcnt : div_up sp.padded_ic blk = some (Int.tdiv (sp.padded_ic + blk - 1) blk) :=
    cdiv_isSome _ _ (by omega)
  refine ⟨{ sp with
    ic_l2_blk := blk, ic_l2_cnt := Int.tdiv (sp.padded_ic + blk - 1) blk,
    gp_l3_blk := gp, mb_l3_blk := mb, padding_policy := pol,
    unroll_ow_start := s, unroll_ow_end := e,
    ow_kr_blk := kr, oc_l2_blk := min OC_L2_BLK_MAX sp.padded_oc, ow_l2_blk := owl2,
    use_nt_store :=
      if m.fa.lt (m.fa.mul (l3_cap_all_core m) (m.fa.ofInt 2))
          (m.fa.ofInt (src_shape_.GetDim 0 * cp.group * sp.padded_oc * dst_shape_.GetDim 2
            * dst_shape_.GetDim 3)) then 1 else 0 }, ?_, ?_⟩
  · unfold cal_kernel_tunning_param
    simp only [Option.pure_def] at hl3
    simp only [hblk, hcnt, hpol, hl3, hun, hkr, howl2, Option.bind_eq_bind, Option.some_bind,
      Option.pure_def]
  · refine ⟨rfl, rfl, rfl, rfl, ?_⟩
    exact {
      ic_l2_blk_pos := hb0
      ic_l2_blk_dvd := hbd
      ic_l2_blk_le := by
        have := Option.some.inj hpicv
        simp only [IC_DATA_BLK] at this
        show blk ≤ _
        omega
      policy := hpol'
      gp_l3_blk_pos := hgp1
      gp_l3_blk_le := hgp2
      mb_l3_blk_le := hmb1
      mb_l3_blk_pos := hmb2
      nopad_blk := hnp
      unroll := hun'
      ow_kr_blk_pos := hkr1
      ow_kr_blk_le := hkr2
      oc_l2_blk_eq := rfl
      ow_l2_blk_pos := howl2' }

/-! ## prepare -/

/-- What a successful `prepare` did: all three inputs were present and the
schedule is the one `init_preproc_param` and `cal_kernel_tunning_param` compute. -/
theorem prepare_success_inv (m : machine) (e e' : executor)
    (h : prepare m e = some (RetCode.RC_SUCCESS, e')) :
    ∃ cp src_shape_ dst_shape_ sp0 sp', e.conv_param_ = some cp ∧
      e.src_shape_ = some src_shape_ ∧ e.dst_shape_ = some dst_shape_ ∧
      ¬ (cp.fuse_flag.SUM = true ∧ e.sum_src_shape_ = none) ∧
      init_preproc_param cp e.schedule_param_ = some sp0 ∧
      cal_kernel_tunning_param m cp src_shape_ dst_shape_ sp0 = some sp' ∧
      e' = { e with schedule_param_ := sp' } := by
  unfold prepare at h
  split at h
  · rename_i cp src dst hcp hsrc hdst
    split at h
    · simp at h
    · rename_i hsum
      simp only [Option.bind_eq_bind, Option.bind_eq_some, Option.pure_def, Option.some.injEq,
        Prod.mk.injEq, true_and] at h
      obtain ⟨sp0, h0, sp', h1, h2⟩ := h
      exact ⟨cp, src, dst, sp0, sp', hcp, hsrc, hdst, hsum, h0, h1, h2.symm⟩
  · simp at h

/-- The padding policy, when defined, is one of the two policies. -/
theorem cal_padding_policy_range (m : machine) (cp : conv2d_param) (channels dst_h dst_w v : Int)
    (h : cal_padding_policy m cp channels dst_h dst_w = some v) :
    v = PADDING_POLICY_NOPAD ∨ v = PADDING_POLICY_PREPAD := by
  unfold cal_padding_policy at h
  split at h
  · simp only [Option.bind_eq_bind, Option.bind_eq_some] at h
    obtain ⟨c, _, h⟩ := h
    split at h
    · exact Or.inr (Option.some.inj h).symm
    · exact Or.inl (Option.some.inj h).symm
  · exact Or.inl (Option.some.inj h).symm

/-- The tuning stores one of the two padding policies. -/
theorem cal_kernel_tunning_param_policy (m : machine) (cp : conv2d_param)
    (src_shape_ dst_shape_ : TensorShape) (sp sp' : kernel_schedule_param)
    (h : cal_kernel_tunning_param m cp src_shape_ dst_shape_ sp = some sp') :
    sp'.padding_policy = PADDING_POLICY_NOPAD ∨ sp'.padding_policy = PADDING_POLICY_PREPAD := by
  unfold cal_kernel_tunning_param at h
  simp only [Option.bind_eq_bind, Option.bind_eq_some, Option.pure_def, Option.some.injEq] at h
  obtain ⟨_, _, _, _, pol, hpol, _, _, _, _, _, _, _, _, h⟩ := h
  rw [← h]
  exact cal_padding_policy_range m cp _ _ _ pol hpol

theorem example_well_formed : well_formed example_machine example_param :=
  ⟨by decide, by decide, by decide, by decide⟩

theorem example_prepare :
    prepare example_machine example_executor
      = some (RetCode.RC_SUCCESS, { example_executor with schedule_param_ := example_schedule }) := by
  rfl

/-! ## Register-tile width -/

/-- C5. The register-tile width `ow_kr_blk` stored by `cal_kernel_tunning_param`
is at least 1 and never exceeds `MAX_W_BLK`: at the stage that computes it, for
every output width and every unroll region (empty, shorter than `MAX_W_BLK`, or
long enough for the redundancy adjustment to run, whatever the redundancy
comparisons answer), and for the schedule the whole function stores on
well-formed parameters. -/
theorem ow_kr_blk_bounds (m : machine) (cp : conv2d_param)
    (src_shape_ dst_shape_ : TensorShape) (sp : kernel_schedule_param)
    (hwf : well_formed m cp) :
    (∀ s e, ∃ v, cal_ow_kr_blk m (dst_shape_.GetDim 3) s e = some v ∧ 1 ≤ v ∧ v ≤ m.MAX_W_BLK) ∧
    (∃ sp', cal_kernel_tunning_param m cp src_shape_ dst_shape_ sp = some sp' ∧
      1 ≤ sp'.ow_kr_blk ∧ sp'.ow_kr_blk ≤ m.MAX_W_BLK) := by
  refine ⟨fun s e => cal_ow_kr_blk_ok m _ s e hwf.max_w_blk, ?_⟩
  obtain ⟨sp', h, _, _, _, _, hb⟩ := cal_kernel_tunning_param_ok m cp src_shape_ dst_shape_ sp hwf
  exact ⟨sp', h, hb.ow_kr_blk_pos, hb.ow_kr_blk_le⟩

theorem ow_kr_blk_bounds_witness :
    (∀ s e, ∃ v, cal_ow_kr_blk example_machine (example_dst_shape.GetDim 3) s e = some v ∧
      1 ≤ v ∧ v ≤ example_machine.MAX_W_BLK) ∧
    (∃ sp', cal_kernel_tunning_param example_machine example_param example_src_shape
        example_dst_shape blank_schedule = some sp' ∧
      1 ≤ sp'.ow_kr_blk ∧ sp'.ow_kr_blk ≤ example_machine.MAX_W_BLK) :=
  ow_kr_blk_bounds example_machine example_param example_src_shape example_dst_shape
    blank_schedule ⟨by decide, by decide, by decide, by decide⟩

/-! ## Scratch size -/

theorem to_uint64_mul_left (a b : Int) : to_uint64 (to_uint64 a * b) = to_uint64 (a * b) := by
  unfold to_uint64
  rw [Int.mul_emod, Int.emod_emod, ← Int.mul_emod]

theorem to_uint64_mul_right (a b : Int) : to_uint64 (a * to_uint64 b) = to_uint64 (a * b) := by
  unfold to_uint64
  rw [Int.mul_emod, Int.emod_emod, ← Int.mul_emod]

theorem to_uint64_of_fits (a : Int) (h0 : 0 ≤ a) (h1 : a < 2 ^ 64) : to_uint64 a = a := by
  unfold to_uint64
  exact Int.emod_eq_of_lt h0 h1

/-- Under the pre-pad policy the scratch size is the product of the claim,
taken in `uint64_t`. -/
theorem cal_temp_buffer_size_prepad (e : executor) (cp : conv2d_param) (src_shape_ : TensorShape)
    (hcp : e.conv_param_ = some cp) (hsrc : e.src_shape_ = some src_shape_)
    (hp : e.schedule_param_.padding_policy = PADDING_POLICY_PREPAD) :
    cal_temp_buffer_size e = some (to_uint64 (src_shape_.GetDim 2
      * (src_shape_.GetDim 3 + 2 * cp.pad_w) * e.schedule_param_.mb_l3_blk
      * e.schedule_param_.gp_l3_blk * e.schedule_param_.ic_l2_blk * 4)) := by
  unfold cal_temp_buffer_size
  rw [if_pos hp, hcp, hsrc]
  simp only [Option.bind_eq_bind, Option.some_bind, Option.pure_def, to_uint64_mul_left,
    to_uint64_mul_right]

/-- C3. For every schedule produced by `prepare`, `cal_temp_buffer_size` returns
`src_h * (src_w + 2 * pad_w) * mb_l3_blk * gp_l3_blk * ic_l2_blk * sizeof(float)`
under the pre-pad policy (computed in `uint64_t`, hence exactly that number
whenever it is representable) and 0 under the no-pad policy; the policy is one
of the two. -/
theorem cal_temp_buffer_size_spec (m : machine) (e e' : executor)
    (h : prepare m e = some (RetCode.RC_SUCCESS, e')) :
    ∃ cp src_shape_, e'.conv_param_ = some cp ∧ e'.src_shape_ = some src_shape_ ∧
      (e'.schedule_param_.padding_policy = PADDING_POLICY_PREPAD ∨
        e'.schedule_param_.padding_policy = PADDING_POLICY_NOPAD) ∧
      (e'.schedule_param_.padding_policy = PADDING_POLICY_PREPAD →
        cal_temp_buffer_size e' = some (to_uint64 (src_shape_.GetDim 2
          * (src_shape_.GetDim 3 + 2 * cp.pad_w) * e'.schedule_param_.mb_l3_blk
          * e'.schedule_param_.gp_l3_blk * e'.schedule_param_.ic_l2_blk * 4)) ∧
        (0 ≤ src_shape_.GetDim 2 * (src_shape_.GetDim 3 + 2 * cp.pad_w)
            * e'.schedule_param_.mb_l3_blk * e'.schedule_param_.gp_l3_blk
            * e'.schedule_param_.ic_l2_blk * 4 →
          src_shape_.GetDim 2 * (src_shape_.GetDim 3 + 2 * cp.pad_w)
            * e'.schedule_param_.mb_l3_blk * e'.schedule_param_.gp_l3_blk
            * e'.schedule_param_.ic_l2_blk * 4 < 2 ^ 64 →
          cal_temp_buffer_size e' = some (src_shape_.GetDim 2
            * (src_shape_.GetDim 3 + 2 * cp.pad_w) * e'.schedule_param_.mb_l3_blk
            * e'.schedule_param_.gp_l3_blk * e'.schedule_param_.ic_l2_blk * 4))) ∧
      (e'.schedule_param_.padding_policy = PADDING_POLICY_NOPAD →
        cal_temp_buffer_size e' = some 0) := by
  obtain ⟨cp, src, dst, sp0, sp', hcp, hsrc, _, _, _, hcal, he'⟩ := prepare_success_inv m e e' h
  have hcp' : e'.conv_param_ = some cp := by rw [he']; exact hcp
  have hsrc' : e'.src_shape_ = some src := by rw [he']; exact hsrc
  have hpol : e'.schedule_param_.padding_policy = PADDING_POLICY_NOPAD ∨
      e'.schedule_param_.padding_policy = PADDING_POLICY_PREPAD := by
    rw [he']; exact cal_kernel_tunning_param_policy m cp src dst sp0 sp' hcal
  refine ⟨cp, src, hcp', hsrc', hpol.symm, fun hp => ?_, fun hp => ?_⟩
  · have hv := cal_temp_buffer_size_prepad e' cp src hcp' hsrc' hp
    refine ⟨hv, fun h0 h1 => ?_⟩
    rw [hv, to_uint64_of_fits _ h0 h1]
  · unfold cal_temp_buffer_size
    rw [if_neg (by rw [hp]; decide)]
    rfl

theorem cal_temp_buffer_size_spec_witness :
    cal_temp_buffer_size { example_executor with schedule_param_ := example_schedule }
      = some (32 * (32 + 2 * 1) * 1 * 1 * 16 * 4) := by
  obtain ⟨cp, src, hcp, hsrc, _, h, _⟩ := cal_temp_buffer_size_spec example_machine
    example_executor { example_executor with schedule_param_ := example_schedule } (by rfl)
  obtain ⟨rfl⟩ : some example_param = some cp := hcp
  obtain ⟨rfl⟩ : some example_src_shape = some src := hsrc
  exact (h rfl).2 (by decide) (by decide)

/-! ## prepare: status code -/

/-- The failure path of `prepare`: the status is `RC_INVALID_VALUE` and the
executor is returned as it was. -/
theorem prepare_of_invalid (m : machine) (e : executor) (h : prepare_invalid e) :
    prepare m e = some (RetCode.RC_INVALID_VALUE, e) := by
  unfold prepare
  split
  · rename_i cp src dst hcp hsrc hdst
    rcases h with h | h | h | ⟨cp', h1, h2, h3⟩
    · rw [hcp] at h; exact absurd h (by simp)
    · rw [hsrc] at h; exact absurd h (by simp)
    · rw [hdst] at h; exact absurd h (by simp)
    · rw [hcp] at h1
      obtain ⟨rfl⟩ := h1
      rw [if_pos ⟨h2, h3⟩]
  · rfl

/-- Outside the failure condition `prepare` never answers `RC_INVALID_VALUE`. -/
theorem prepare_of_valid_ne (m : machine) (e : executor) (h : ¬ prepare_invalid e)
    (r : executor) : prepare m e ≠ some (RetCode.RC_INVALID_VALUE, r) := by
  unfold prepare
  split
  · rename_i cp src dst hcp hsrc hdst
    split
    · rename_i hsum
      exact absurd (Or.inr (Or.inr (Or.inr ⟨cp, hcp, hsum.1, hsum.2⟩))) h
    · intro hc
      simp only [Option.bind_eq_bind, Option.bind_eq_some, Option.pure_def, Option.some.injEq,
        Prod.mk.injEq] at hc
      obtain ⟨_, _, _, _, hc, _⟩ := hc
      exact absurd hc (by decide)
  · rename_i hnone
    exfalso
    apply h
    cases hcp : e.conv_param_ with
    | none => exact Or.inl hcp
    | some cp =>
      cases hsrc : e.src_shape_ with
      | none => exact Or.inr (Or.inl hsrc)
      | some src =>
        cases hdst : e.dst_shape_ with
        | none => exact Or.inr (Or.inr (Or.inl hdst))
        | some dst => exact absurd hdst (hnone cp src dst hcp hsrc)

/-- Outside the failure condition and on well-formed parameters `prepare`
answers `RC_SUCCESS` and stores the recomputed schedule, which satisfies
`schedule_bounds`. -/
theorem prepare_of_valid (m : machine) (e : executor) (cp : conv2d_param)
    (src_shape_ dst_shape_ : TensorShape) (hcp : e.conv_param_ = some cp)
    (hsrc : e.src_shape_ = some src_shape_) (hdst : e.dst_shape_ = some dst_shape_)
    (hsum : ¬ (cp.fuse_flag.SUM = true ∧ e.sum_src_shape_ = none)) (hwf : well_formed m cp) :
    ∃ sp0 sp', init_preproc_param cp e.schedule_param_ = some sp0 ∧
      cal_kernel_tunning_param m cp src_shape_ dst_shape_ sp0 = some sp' ∧
      prepare m e = some (RetCode.RC_SUCCESS, { e with schedule_param_ := sp' }) ∧
      sp'.ic_per_gp = Int.tdiv cp.channels cp.group ∧
      sp'.oc_per_gp = Int.tdiv cp.num_output cp.group ∧
      sp'.padded_ic = Int.tdiv (Int.tdiv cp.channels cp.group + 16 - 1) 16 * 16 ∧
      sp'.padded_oc = Int.tdiv (Int.tdiv cp.num_output cp.group + 16 - 1) 16 * 16 ∧
      schedule_bounds m cp src_shape_ dst_shape_ sp' := by
  have hinit := init_preproc_param_ok cp e.schedule_param_ (by have := hwf.group_pos; omega)
  obtain ⟨sp', hcal, h1, h2, h3, h4, hb⟩ :=
    cal_kernel_tunning_param_ok m cp src_shape_ dst_shape_ _ hwf
  refine ⟨_, sp', hinit, hcal, ?_, h1, h2, h3, h4, hb⟩
  unfold prepare
  rw [hcp, hsrc, hdst]
  simp only [if_neg hsum, hinit, hcal, Option.bind_eq_bind, Option.some_bind, Option.pure_def]

/-- C9, amended. `prepare` returns `RC_INVALID_VALUE` exactly when the
convolution parameters, the source shape or the destination shape is absent,
or the SUM fusion flag is set while the residual-source shape is absent, and
then leaves the executor (its schedule included) unchanged; in every other
case it does not return `RC_INVALID_VALUE`, and when the parameters are
well-formed (`group >= 1`, `channels / group >= 1`,
`kernel_h * kernel_w >= 1`, `MAX_W_BLK >= 3`) it returns `RC_SUCCESS` with the
schedule recomputed by `init_preproc_param` and `cal_kernel_tunning_param`.
Nothing is promised for parameters that are present and not well-formed. -/
theorem prepare_status (m : machine) (e : executor) :
    (prepare_invalid e → prepare m e = some (RetCode.RC_INVALID_VALUE, e)) ∧
    (¬ prepare_invalid e → ∀ r, prepare m e ≠ some (RetCode.RC_INVALID_VALUE, r)) ∧
    (¬ prepare_invalid e → ∀ cp, e.conv_param_ = some cp → well_formed m cp →
      ∃ src_shape_ dst_shape_ sp0 sp', e.src_shape_ = some src_shape_ ∧
        e.dst_shape_ = some dst_shape_ ∧
        init_preproc_param cp e.schedule_param_ = some sp0 ∧
        cal_kernel_tunning_param m cp src_shape_ dst_shape_ sp0 = some sp' ∧
        prepare m e = some (RetCode.RC_SUCCESS, { e with schedule_param_ := sp' })) := by
  refine ⟨prepare_of_invalid m e, prepare_of_valid_ne m e, fun hv cp hcp hwf => ?_⟩
  have hsrc : ∃ s, e.src_shape_ = some s := by
    cases h : e.src_shape_ with
    | none => exact absurd (Or.inr (Or.inl h)) hv
    | some s => exact ⟨s, rfl⟩
  have hdst : ∃ s, e.dst_shape_ = some s := by
    cases h : e.dst_shape_ with
    | none => exact absurd (Or.inr (Or.inr (Or.inl h))) hv
    | some s => exact ⟨s, rfl⟩
  obtain ⟨src, hsrc⟩ := hsrc
  obtain ⟨dst, hdst⟩ := hdst
  have hsum : ¬ (cp.fuse_flag.SUM = true ∧ e.sum_src_shape_ = none) :=
    fun hs => hv (Or.inr (Or.inr (Or.inr ⟨cp, hcp, hs.1, hs.2⟩)))
  obtain ⟨sp0, sp', h0, h1, h2, _⟩ := prepare_of_valid m e cp src dst hcp hsrc hdst hsum hwf
  exact ⟨src, dst, sp0, sp', hsrc, hdst, h0, h1, h2⟩

theorem prepare_status_witness :
    ∃ src_shape_ dst_shape_ sp0 sp', example_executor.src_shape_ = some src_shape_ ∧
      example_executor.dst_shape_ = some dst_shape_ ∧
      init_preproc_param example_param example_executor.schedule_param_ = some sp0 ∧
      cal_kernel_tunning_param example_machine example_param src_shape_ dst_shape_ sp0
        = some sp' ∧
      prepare example_machine example_executor
        = some (RetCode.RC_SUCCESS, { example_executor with schedule_param_ := sp' }) :=
  (prepare_status example_machine example_executor).2.2
    (by simp [prepare_invalid, example_executor, example_param]) example_param rfl
    ⟨by decide, by decide, by decide, by decide⟩

/-! ## Weight conversion: memory writes -/

/-- A write that stays inside the block is defined, keeps the length, stores
`f i` at every index of the range and leaves the other elements alone. -/
theorem write_range_ok {α : Type} (dst : List α) (off n : Int) (f : Int → α)
    (h0 : 0 ≤ off) (hn : 0 ≤ n) (hle : off + n ≤ dst.length) :
    ∃ r, write_range dst off n f = some r ∧ r.length = dst.length ∧
      ∀ i : Nat, i < dst.length →
        r[i]? = if off ≤ (i : Int) ∧ (i : Int) < off + n then some (f i) else dst[i]? := by
  refine ⟨_, by unfold write_range; rw [if_pos ⟨h0, hn, hle⟩], List.length_ofFn _, ?_⟩
  intro i hi
  rw [List.getElem?_eq_getElem (by rw [List.length_ofFn]; exact hi), List.getElem_ofFn]
  by_cases hc : off ≤ (i : Int) ∧ (i : Int) < off + n
  · simp only [hc, and_self, if_true]
  · simp only [hc, if_false]
    rw [List.getElem?_eq_getElem hi]
    rfl

theorem mul_succ_le (a b p : Int) (hab : a + 1 ≤ b) (hp : 0 ≤ p) : a * p + p ≤ b * p := by
  have h := Int.mul_le_mul_of_nonneg_right hab hp
  rw [Int.add_mul, Int.one_mul] at h
  exact h

/-- The bias loop: started at group `g` on a block in which the groups before
`g` are already converted, it ends with every group converted: group `g'`
occupies `padded_oc` elements, its `oc_per_gp` biases followed by zeros. -/
theorem cvt_bias_loop_ok {α : Type} [Zero α] (bias : Int → α) (group oc_per_gp padded_oc : Int)
    (len : Nat) (hoc : 0 ≤ oc_per_gp) (hpad : oc_per_gp ≤ padded_oc)
    (hlen : group * padded_oc ≤ len) :
    ∀ (fuel : Nat) (g : Int) (blk : List α), 0 ≤ g → (group - g).toNat ≤ fuel →
      blk.length = len →
      (∀ g' j : Int, 0 ≤ g' → g' < g → 0 ≤ j → j < padded_oc →
        blk[(g' * padded_oc + j).toNat]?
          = some (if j < oc_per_gp then bias (g' * oc_per_gp + j) else 0)) →
      ∃ r, cvt_bias_loop bias group oc_per_gp padded_oc fuel g blk = some r ∧
        r.length = len ∧
        ∀ g' j : Int, 0 ≤ g' → g' < group → 0 ≤ j → j < padded_oc →
          r[(g' * padded_oc + j).toNat]?
            = some (if j < oc_per_gp then bias (g' * oc_per_gp + j) else 0) := by
  intro fuel
  induction fuel with
  | zero =>
    intro g blk _ hf hl hinv
    refine ⟨blk, ?_, hl, fun g' j h1 h2 h3 h4 => hinv g' j h1 (by omega) h3 h4⟩
    unfold cvt_bias_loop
    rw [if_neg (by omega)]
  | succ n ih =>
    intro g blk hg hf hl hinv
    unfold cvt_bias_loop
    by_cases hlt : g < group
    · rw [if_pos hlt]
      have hP : 0 ≤ padded_oc := by omega
      have hgP : 0 ≤ g * padded_oc := Int.mul_nonneg hg hP
      have hend : g * padded_oc + padded_oc ≤ group * padded_oc :=
        mul_succ_le g group padded_oc (by omega) hP
      obtain ⟨c, hc, hcl, hcv⟩ := write_range_ok blk (g * padded_oc) oc_per_gp
        (fun i => bias (g * oc_per_gp + (i - g * padded_oc))) hgP hoc (by omega)
      obtain ⟨z, hz, hzl, hzv⟩ := write_range_ok c (g * padded_oc + oc_per_gp)
        (padded_oc - oc_per_gp) (fun _ => (0 : α)) (by omega) (by omega) (by omega)
      have hc' : memcpy_f32 blk (g * padded_oc) bias (g * oc_per_gp) oc_per_gp = some c := hc
      have hz' : memset_f32 c (g * padded_oc + oc_per_gp) (padded_oc - oc_per_gp) = some z := hz
      simp only [hc', hz', Option.bind_eq_bind, Option.some_bind]
      apply ih (g + 1) z (by omega) (by omega) (by omega)
      intro g' j h1 h2 h3 h4
      have hidx : ((g' * padded_oc + j).toNat : Int) = g' * padded_oc + j := by
        have := Int.mul_nonneg h1 hP
        omega
      have hin : (g' * padded_oc + j).toNat < len := by
        have := mul_succ_le g' group padded_oc (by omega) hP
        omega
      rw [hzv _ (by omega), hcv _ (by omega), hidx]
      rcases lt_or_le g' g with hlt' | hge'
      · have hb := mul_succ_le g' g padded_oc (by omega) hP
        rw [if_neg (by omega), if_neg (by omega)]
        exact hinv g' j h1 hlt' h3 h4
      · have hgg : g' = g := by omega
        subst hgg
        by_cases hj : j < oc_per_gp
        · rw [if_neg (by omega), if_pos (by omega), if_pos hj]
          congr 2
          omega
        · rw [if_pos (by omega), if_neg hj]
    · rw [if_neg hlt]
      exact ⟨blk, rfl, hl, fun g' j h1 h2 h3 h4 => hinv g' j h1 (by omega) h3 h4⟩

/-! ## Weight conversion: gen_cvt_weights -/

/-- The first half of `gen_cvt_weights` on a manager that has not converted
yet: the sizes are computed without a division by zero, the bias block is
requested, and the call either stops with `RC_OUT_OF_MEMORY` or converts the
bias and goes on to the filter stage. -/
theorem gen_cvt_weights_bias_stage {α : Type} [Zero α] (fa : float_arith) (lib : reorder_lib α)
    (mgr : manager α) (filter bias : Int → α)
    (hb : mgr.cvt_bias_ = none) (hf : mgr.cvt_filter_ = none)
    (hg : 1 ≤ mgr.param_.group)
    (hc : 1 ≤ Int.tdiv mgr.param_.channels mgr.param_.group)
    (hk : 1 ≤ mgr.param_.kernel_h * mgr.param_.kernel_w)
    (ho : 0 ≤ Int.tdiv mgr.param_.num_output mgr.param_.group) :
    ∃ ic_l2_blk, cal_ic_l2_blk fa mgr.param_ = some ic_l2_blk ∧
      (mgr.allocator_.answer mgr.allocator_.requests.length
          (mgr.param_.group * ((Int.tdiv mgr.param_.num_output mgr.param_.group + 16 - 1) / 16 * 16)
            * 4) = none →
        gen_cvt_weights fa lib mgr filter bias = some (RetCode.RC_OUT_OF_MEMORY,
          { mgr with
            cvt_bias_size_ := mgr.param_.group
              * ((Int.tdiv mgr.param_.num_output mgr.param_.group + 16 - 1) / 16 * 16),
            cvt_bias_ := none,
            allocator_ := { mgr.allocator_ with requests := mgr.allocator_.requests ++
              [mgr.param_.group
                * ((Int.tdiv mgr.param_.num_output mgr.param_.group + 16 - 1) / 16 * 16) * 4] } })) ∧
      (∀ init, mgr.allocator_.answer mgr.allocator_.requests.length
          (mgr.param_.group * ((Int.tdiv mgr.param_.num_output mgr.param_.group + 16 - 1) / 16 * 16)
            * 4) = some init →
        ∃ blk : List α,
          (blk.length : Int) = mgr.param_.group
            * ((Int.tdiv mgr.param_.num_output mgr.param_.group + 16 - 1) / 16 * 16) ∧
          (∀ g j : Int, 0 ≤ g → g < mgr.param_.group → 0 ≤ j →
            j < (Int.tdiv mgr.param_.num_output mgr.param_.group + 16 - 1) / 16 * 16 →
            blk[(g * ((Int.tdiv mgr.param_.num_output mgr.param_.group + 16 - 1) / 16 * 16)
                + j).toNat]?
              = some (if j < Int.tdiv mgr.param_.num_output mgr.param_.group then
                  bias (g * Int.tdiv mgr.param_.num_output mgr.param_.group + j) else 0)) ∧
          gen_cvt_weights fa lib mgr filter bias = some (cvt_filter_stage lib
            { mgr with
              cvt_bias_size_ := mgr.param_.group
                * ((Int.tdiv mgr.param_.num_output mgr.param_.group + 16 - 1) / 16 * 16),
              cvt_bias_ := some blk,
              allocator_ := { mgr.allocator_ with requests := mgr.allocator_.requests ++
                [mgr.param_.group
                  * ((Int.tdiv mgr.param_.num_output mgr.param_.group + 16 - 1) / 16 * 16) * 4] } }
            filter ic_l2_blk)) := by
  obtain ⟨ic_l2_blk, _, hic, _⟩ := cal_ic_l2_blk_ok fa mgr.param_ hg hc hk
  have hcd : cdiv mgr.param_.num_output mgr.param_.group
      = some (Int.tdiv mgr.param_.num_output mgr.param_.group) := cdiv_isSome _ _ (by omega)
  have hru := round_up_eq_of_pos (Int.tdiv mgr.param_.num_output mgr.param_.group) 16 ho
    (by decide)
  obtain ⟨hp1, hp2⟩ := round_up_val_bounds (Int.tdiv mgr.param_.num_output mgr.param_.group) 16
    (by decide)
  generalize Int.tdiv mgr.param_.num_output mgr.param_.group = ocg at *
  generalize (ocg + 16 - 1) / 16 * 16 = poc at *
  have hnc : ¬ (mgr.cvt_bias_.isSome = true ∨ mgr.cvt_filter_.isSome = true) := by
    rw [hb, hf]; simp
  refine ⟨ic_l2_blk, hic, fun hnone => ?_, fun init hsome => ?_⟩
  · unfold gen_cvt_weights
    rw [if_neg hnc]
    simp only [hcd, OC_DATA_BLK, hru, hic, Option.bind_eq_bind, Option.some_bind,
      allocator.Alloc, hnone, Option.map_none', Option.pure_def]
  · have hlen : (Int.tdiv (mgr.param_.group * poc * 4) 4).toNat
        = (mgr.param_.group * poc).toNat := by
      rw [Int.mul_tdiv_cancel _ (by decide)]
    have hGP : 0 ≤ mgr.param_.group * poc := Int.mul_nonneg (by omega) (by omega)
    obtain ⟨blk, hblk, hl, hv⟩ := cvt_bias_loop_ok bias mgr.param_.group ocg poc
      (mgr.param_.group * poc).toNat ho hp1 (by omega) mgr.param_.group.toNat 0
      ((List.range (mgr.param_.group * poc).toNat).map init) (le_refl _) (by omega)
      (by simp) (fun g' j h1 h2 => by omega)
    refine ⟨blk, by rw [hl]; omega, hv, ?_⟩
    unfold gen_cvt_weights
    rw [if_neg hnc]
    simp only [hcd, OC_DATA_BLK, hru, hic, Option.bind_eq_bind, Option.some_bind,
      allocator.Alloc, hsome, Option.map_some', Option.pure_def, hlen, hblk]

/-- C6. `gen_cvt_weights` is single-shot: when the manager already holds a
converted bias buffer or a converted filter buffer, the call returns
`RC_PERMISSION_DENIED` and the manager it leaves is the one it found: both
buffers with their contents, both recorded sizes, and the allocator, which
has seen no request. -/
theorem gen_cvt_weights_single_shot {α : Type} [Zero α] (fa : float_arith)
    (lib : reorder_lib α) (mgr : manager α) (filter bias : Int → α)
    (h : mgr.cvt_bias_ ≠ none ∨ mgr.cvt_filter_ ≠ none) :
    gen_cvt_weights fa lib mgr filter bias = some (RetCode.RC_PERMISSION_DENIED, mgr) := by
  unfold gen_cvt_weights
  rw [if_pos]
  rcases h with h | h
  · exact Or.inl (Option.isSome_iff_ne_none.mpr h)
  · exact Or.inr (Option.isSome_iff_ne_none.mpr h)

theorem gen_cvt_weights_single_shot_witness :
    gen_cvt_weights exact_arith example_reorder_lib
        { example_manager with cvt_bias_ := some [1, 2, 3] } (fun _ => 7) (fun _ => 5)
      = some (RetCode.RC_PERMISSION_DENIED,
          { example_manager with cvt_bias_ := some [1, 2, 3] }) :=
  gen_cvt_weights_single_shot exact_arith example_reorder_lib
    { example_manager with cvt_bias_ := some [1, 2, 3] } (fun _ => 7) (fun _ => 5)
    (Or.inl (by simp))

/-- The filter stage leaves the converted bias and its recorded size alone. -/
theorem cvt_filter_stage_bias {α : Type} (lib : reorder_lib α) (mgr : manager α)
    (filter : Int → α) (ic_l2_blk : Int) :
    (cvt_filter_stage lib mgr filter ic_l2_blk).2.cvt_bias_ = mgr.cvt_bias_ ∧
      (cvt_filter_stage lib mgr filter ic_l2_blk).2.cvt_bias_size_ = mgr.cvt_bias_size_ := by
  simp only [cvt_filter_stage]
  split <;> exact ⟨rfl, rfl⟩

/-- C8. When `gen_cvt_weights` obtains the bias buffer (on a manager that has
not converted yet, with well-formed parameters), the manager it leaves holds a
converted bias of `group * padded_oc` elements, `padded_oc = round_up(num_output
/ group, OC_DATA_BLK)`, in which element `g * padded_oc + j` is
`bias[g * oc_per_gp + j]` for `j < oc_per_gp` and 0 for `oc_per_gp ≤ j <
padded_oc`, for every group `g`; this holds whatever the filter stage returns. -/
theorem gen_cvt_weights_bias {α : Type} [Zero α] (fa : float_arith)
    (lib : reorder_lib α) (mgr : manager α) (filter bias : Int → α) (init : Nat → α)
    (hb : mgr.cvt_bias_ = none) (hf : mgr.cvt_filter_ = none)
    (hg : 1 ≤ mgr.param_.group)
    (hc : 1 ≤ Int.tdiv mgr.param_.channels mgr.param_.group)
    (hk : 1 ≤ mgr.param_.kernel_h * mgr.param_.kernel_w)
    (ho : 0 ≤ Int.tdiv mgr.param_.num_output mgr.param_.group)
    (halloc : mgr.allocator_.answer mgr.allocator_.requests.length
        (mgr.param_.group * ((Int.tdiv mgr.param_.num_output mgr.param_.group + 16 - 1) / 16 * 16)
          * 4) = some init) :
    ∃ rc mgr' blk padded_oc, gen_cvt_weights fa lib mgr filter bias = some (rc, mgr') ∧
      round_up (Int.tdiv mgr.param_.num_output mgr.param_.group) OC_DATA_BLK = some padded_oc ∧
      mgr'.cvt_bias_ = some blk ∧
      mgr'.cvt_bias_size_ = mgr.param_.group * padded_oc ∧
      (blk.length : Int) = mgr.param_.group * padded_oc ∧
      ∀ g j : Int, 0 ≤ g → g < mgr.param_.group → 0 ≤ j → j < padded_oc →
        blk[(g * padded_oc + j).toNat]?
          = some (if j < Int.tdiv mgr.param_.num_output mgr.param_.group then
              bias (g * Int.tdiv mgr.param_.num_output mgr.param_.group + j) else 0) := by
  obtain ⟨ic_l2_blk, _, _, h2⟩ := gen_cvt_weights_bias_stage fa lib mgr filter bias hb hf hg hc
    hk ho
  obtain ⟨blk, hlen, hv, hgen⟩ := h2 init halloc
  exact ⟨_, _, blk, _, hgen, round_up_eq_of_pos _ _ ho (by decide),
    (cvt_filter_stage_bias lib _ filter ic_l2_blk).1,
    (cvt_filter_stage_bias lib _ filter ic_l2_blk).2, hlen, hv⟩

theorem gen_cvt_weights_bias_witness :
    ∃ rc mgr' blk padded_oc, gen_cvt_weights exact_arith example_reorder_lib example_manager
        (fun _ => 7) (fun i => 10 + i) = some (rc, mgr') ∧
      round_up (Int.tdiv example_manager.param_.num_output example_manager.param_.group)
        OC_DATA_BLK = some padded_oc ∧
      mgr'.cvt_bias_ = some blk ∧
      mgr'.cvt_bias_size_ = example_manager.param_.group * padded_oc ∧
      (blk.length : Int) = example_manager.param_.group * padded_oc ∧
      ∀ g j : Int, 0 ≤ g → g < example_manager.param_.group → 0 ≤ j → j < padded_oc →
        blk[(g * padded_oc + j).toNat]?
          = some (if j < Int.tdiv example_manager.param_.num_output example_manager.param_.group
              then (fun i => 10 + i)
                (g * Int.tdiv example_manager.param_.num_output example_manager.param_.group + j)
              else 0) :=
  gen_cvt_weights_bias exact_arith example_reorder_lib example_manager (fun _ => 7)
    (fun i => 10 + i) (fun _ => 0) rfl rfl (by decide) (by decide) (by decide) (by decide) rfl

/-! ## Witnesses of the feasibility and block-size claims -/

theorem is_supported_spec_witness :
    is_supported (fun _ => false)
        { example_param with group := 2, channels := 48, num_output := 32 } = some false :=
  (is_supported_spec (fun _ => false)
    { example_param with group := 2, channels := 48, num_output := 32 } (by decide)).2.2 rfl
    (Or.inl (by decide))

theorem cal_ic_l2_blk_bounds_witness :
    ∃ blk padded_ic, cal_ic_l2_blk exact_arith example_param = some blk ∧
      round_up (Int.tdiv example_param.channels example_param.group) IC_DATA_BLK
        = some padded_ic ∧
      0 < blk ∧ IC_DATA_BLK ∣ blk ∧ blk ≤ padded_ic :=
  cal_ic_l2_blk_bounds exact_arith example_param (by decide) (by decide) (by decide)

/-! ## Execution: the loops end -/

/-- A counted loop with a positive step and enough fuel is defined as soon as
each of its iterations is. -/
theorem for_loop_isSome (body : Int → Option (List event)) (hi step : Int) (hstep : 1 ≤ step) :
    ∀ (fuel : Nat) (i : Int), (hi - i).toNat ≤ fuel →
      (∀ j, i ≤ j → j < hi → ∃ r, body j = some r) →
      ∃ r, for_loop body hi step fuel i = some r := by
  intro fuel
  induction fuel with
  | zero =>
    intro i hf _
    refine ⟨[], ?_⟩
    unfold for_loop
    rw [if_neg (by omega)]
  | succ n ih =>
    intro i hf hb
    unfold for_loop
    by_cases hlt : i < hi
    · rw [if_pos hlt]
      obtain ⟨h, hh⟩ := hb i (le_refl _) hlt
      obtain ⟨r, hr⟩ := ih (i + step) (by omega) (fun j h1 h2 => hb j (by omega) h2)
      exact ⟨h ++ r, by simp only [hh, hr, Option.bind_eq_bind, Option.some_bind,
        Option.pure_def]⟩
    · rw [if_neg hlt]
      exact ⟨[], rfl⟩

/-- The loop `for (i = lo; i < hi; i += step)` is defined when it is empty or
its step is positive, and each of its iterations is defined. -/
theorem for_range_isSome (lo hi step : Int) (body : Int → Option (List event))
    (hstep : hi ≤ lo ∨ 1 ≤ step) (hb : ∀ j, lo ≤ j → j < hi → ∃ r, body j = some r) :
    ∃ r, for_range lo hi step body = some r := by
  unfold for_range
  rcases hstep with h | h
  · have h0 : (hi - lo).toNat = 0 := by omega
    rw [h0]
    refine ⟨[], ?_⟩
    unfold for_loop
    rw [if_neg (by omega)]
  · exact for_loop_isSome body hi step h _ lo (le_refl _) hb

/-- The output-channel loop is defined as soon as each of its iterations is. -/
theorem oc_loop_isSome (cp : conv2d_param) (sp : kernel_schedule_param) (c : exec_consts)
    (body : Int → oc_ptrs → Option (List event)) (oc_end : Int)
    (hb : ∀ j p, j < oc_end → ∃ r, body j p = some r) :
    ∀ (fuel : Nat) (oc : Int) (p : oc_ptrs), (oc_end - oc).toNat ≤ fuel →
      ∃ r, oc_loop cp sp c body oc_end fuel oc p = some r := by
  intro fuel
  induction fuel with
  | zero =>
    intro oc p hf
    refine ⟨[], ?_⟩
    unfold oc_loop
    rw [if_neg (by omega)]
  | succ n ih =>
    intro oc p hf
    unfold oc_loop
    by_cases hlt : oc < oc_end
    · rw [if_pos hlt]
      obtain ⟨h, hh⟩ := hb oc p hlt
      obtain ⟨r, hr⟩ := ih (oc + OC_DATA_BLK)
        { l_his := p.l_his.add (OC_DATA_BLK * c.dst_h * c.dst_w),
          l_flt := p.l_flt.add (OC_DATA_BLK * sp.ic_l2_blk * cp.kernel_h * cp.kernel_w),
          l_bias := p.l_bias.add OC_DATA_BLK,
          l_dst := p.l_dst.add (OC_DATA_BLK * c.dst_h * c.dst_w) } (by
        have : OC_DATA_BLK = 16 := rfl
        omega)
      exact ⟨h ++ r, by simp only [hh, hr, Option.bind_eq_bind, Option.some_bind,
        Option.pure_def]⟩
    · rw [if_neg hlt]
      exact ⟨[], rfl⟩

theorem div_up_isSome (a b : Int) (hb : b ≠ 0) : div_up a b = some (Int.tdiv (a + b - 1) b) :=
  cdiv_isSome _ _ hb

theorem round_isSome (a b : Int) (hb : b ≠ 0) : round a b = some (Int.tdiv a b * b) := by
  unfold round
  rw [cdiv_isSome _ _ hb]
  rfl

/-- The border loop is defined when `dilation_w` is not zero. -/
theorem border_loop_isSome (cp : conv2d_param) (sp : kernel_schedule_param) (c : exec_consts)
    (oc_reg ow_start ow_end : Int) (hdw : cp.dilation_w ≠ 0) :
    ∃ r, border_loop cp sp c oc_reg ow_start ow_end = some r := by
  unfold border_loop
  apply for_range_isSome _ _ _ _ (Or.inr (le_refl _))
  intro ow _ _
  have h1 : ∃ v, cal_kw_start cp c (ow * cp.stride_w - cp.pad_w) = some v := by
    unfold cal_kw_start cal_k_start
    split
    · exact ⟨_, rfl⟩
    · exact ⟨_, div_up_isSome _ _ hdw⟩
  have h2 : ∃ v, cal_kw_end cp c (ow * cp.stride_w - cp.pad_w) = some v := by
    unfold cal_kw_end cal_k_end
    split
    · exact ⟨_, rfl⟩
    · exact ⟨_, div_up_isSome _ _ hdw⟩
  obtain ⟨v1, h1⟩ := h1
  obtain ⟨v2, h2⟩ := h2
  rw [← Option.isSome_iff_exists]
  simp only [h1, h2, Option.bind_eq_bind, Option.some_bind, Option.pure_def, Option.isSome_some]

/-- A bind is defined when its first part is and its second part always is. -/
theorem bind_isSome_of {α β : Type} (x : Option α) (f : α → Option β)
    (hx : ∃ a, x = some a) (hf : ∀ a, ∃ b, f a = some b) : ∃ b, x.bind f = some b := by
  obtain ⟨a, ha⟩ := hx
  rw [ha]
  exact hf a

/-- The dispatch of one output-channel block is defined when `dilation_w` is
not zero. -/
theorem oc_dispatch_isSome (cp : conv2d_param) (sp : kernel_schedule_param) (c : exec_consts)
    (owl2 owl2_eff : Int) (w : ow_split) (l_src : pointer) (oc_end oc : Int) (p : oc_ptrs)
    (hdw : cp.dilation_w ≠ 0) :
    ∃ r, oc_dispatch cp sp c owl2 owl2_eff w l_src oc_end oc p = some r := by
  simp only [oc_dispatch, Option.bind_eq_bind, Option.pure_def]
  refine bind_isSome_of _ _ ⟨_, div_up_isSome _ _ (by decide)⟩ (fun oc_reg => ?_)
  refine bind_isSome_of _ _ (border_loop_isSome cp sp c _ _ _ hdw) (fun first => ?_)
  refine bind_isSome_of _ _ (border_loop_isSome cp sp c _ _ _ hdw) (fun last => ?_)
  exact ⟨_, rfl⟩

/-- The split of an output-width outer block is defined when the register-tile
width is not zero. -/
theorem cal_ow_split_isSome (sp : kernel_schedule_param) (owl2 owl2_eff : Int)
    (hkr : sp.ow_kr_blk ≠ 0) : ∃ w, cal_ow_split sp owl2 owl2_eff = some w := by
  simp only [cal_ow_split, Option.bind_eq_bind, Option.pure_def]
  exact bind_isSome_of _ _ ⟨_, round_isSome _ _ hkr⟩ (fun _ => ⟨_, rfl⟩)

/-- One output-width outer block is defined when the dilations and the
register-tile width are not zero. -/
theorem ow_block_isSome (cp : conv2d_param) (sp : kernel_schedule_param) (c : exec_consts)
    (blk : ic_block) (cvt_bias_ : pointer) (gpl3 g b ocl2 oh owl2 : Int)
    (hdh : cp.dilation_h ≠ 0) (hdw : cp.dilation_w ≠ 0) (hkr : sp.ow_kr_blk ≠ 0) :
    ∃ r, ow_block cp sp c blk cvt_bias_ gpl3 g b ocl2 oh owl2 = some r := by
  simp only [ow_block, cal_k_start, cal_k_end, Option.bind_eq_bind, Option.pure_def]
  refine bind_isSome_of _ _ ⟨_, div_up_isSome _ _ hdh⟩ (fun kh_start => ?_)
  refine bind_isSome_of _ _ ⟨_, div_up_isSome _ _ hdh⟩ (fun kh_end => ?_)
  refine bind_isSome_of _ _ (cal_ow_split_isSome sp _ _ hkr) (fun w => ?_)
  refine bind_isSome_of _ _ ?_ (fun calls => ⟨_, rfl⟩)
  exact oc_loop_isSome cp sp c _ _ (fun j p _ => oc_dispatch_isSome cp sp c _ _ _ _ _ j p hdw)
    _ _ _ (by omega)

/-- The compute loops of a tile are defined when the dilations and the
register-tile width are not zero and the two blocked loops advance. -/
theorem compute_tile_isSome (cp : conv2d_param) (sp : kernel_schedule_param) (c : exec_consts)
    (blk : ic_block) (cvt_bias_ : pointer) (gpl3 gpl3_eff mbl3_eff : Int)
    (hdh : cp.dilation_h ≠ 0) (hdw : cp.dilation_w ≠ 0) (hkr : sp.ow_kr_blk ≠ 0)
    (hoc : c.padded_reg_oc ≤ 0 ∨ 1 ≤ sp.oc_l2_blk) (how : c.dst_w ≤ 0 ∨ 1 ≤ sp.ow_l2_blk) :
    ∃ r, compute_tile cp sp c blk cvt_bias_ gpl3 gpl3_eff mbl3_eff = some r := by
  unfold compute_tile
  refine for_range_isSome _ _ _ _ (Or.inr (le_refl _)) (fun g _ _ => ?_)
  refine for_range_isSome _ _ _ _ (Or.inr (le_refl _)) (fun b _ _ => ?_)
  refine for_range_isSome _ _ _ _ hoc (fun ocl2 _ _ => ?_)
  refine for_range_isSome _ _ _ _ (Or.inr (le_refl _)) (fun oh _ _ => ?_)
  refine for_range_isSome _ _ _ _ how (fun owl2 _ _ => ?_)
  exact ow_block_isSome cp sp c blk cvt_bias_ gpl3 g b ocl2 oh owl2 hdh hdw hkr

/-- The padding pre-pass is always defined. -/
theorem prepad_pass_isSome (cp : conv2d_param) (sp : kernel_schedule_param) (c : exec_consts)
    (base_src src_trans : pointer) (icl2_eff gpl3_eff mbl3_eff : Int) :
    ∃ r, prepad_pass cp sp c base_src src_trans icl2_eff gpl3_eff mbl3_eff = some r := by
  simp only [prepad_pass, Option.bind_eq_bind, Option.pure_def]
  refine bind_isSome_of _ _ ⟨_, div_up_isSome _ _ (by decide)⟩ (fun icb_cnt => ?_)
  refine for_range_isSome _ _ _ _ (Or.inr (le_refl _)) (fun g _ _ => ?_)
  refine for_range_isSome _ _ _ _ (Or.inr (le_refl _)) (fun b _ _ => ?_)
  refine for_range_isSome _ _ _ _ (Or.inr (le_refl _)) (fun icb _ _ => ?_)
  refine for_range_isSome _ _ _ _ (Or.inr (le_refl _)) (fun ih _ _ => ?_)
  exact ⟨_, rfl⟩

/-- The locals of an input-channel outer block are defined when the residual
buffer is there whenever SUM fusion is set. -/
theorem cal_ic_block_isSome (cp : conv2d_param) (sp : kernel_schedule_param) (c : exec_consts)
    (cvt_filter_ src_ dst_ : pointer) (sum_src_ : Option pointer) (mbl3 gpl3 icl2 : Int)
    (hsum : c.with_sum = true → ∃ p, sum_src_ = some p) :
    ∃ blk, cal_ic_block cp sp c cvt_filter_ src_ dst_ sum_src_ mbl3 gpl3 icl2 = some blk := by
  simp only [cal_ic_block, cal_history, Option.bind_eq_bind, Option.pure_def]
  refine bind_isSome_of _ _ ?_ (fun his => ⟨_, rfl⟩)
  split
  · rename_i h
    obtain ⟨p, hp⟩ := hsum h.2
    rw [hp]
    exact ⟨_, rfl⟩
  · exact ⟨_, rfl⟩

/-- One input-channel outer block is defined when its buffers are there and
its compute loops advance. -/
theorem ic_l2_block_isSome (cp : conv2d_param) (sp : kernel_schedule_param) (c : exec_consts)
    (cvt_filter_ cvt_bias_ src_ dst_ : pointer) (sum_src_ temp_buffer_ : Option pointer)
    (mbl3 mbl3_eff gpl3 gpl3_eff icl2 : Int)
    (hdh : cp.dilation_h ≠ 0) (hdw : cp.dilation_w ≠ 0) (hkr : sp.ow_kr_blk ≠ 0)
    (hoc : c.padded_reg_oc ≤ 0 ∨ 1 ≤ sp.oc_l2_blk) (how : c.dst_w ≤ 0 ∨ 1 ≤ sp.ow_l2_blk)
    (hsum : c.with_sum = true → ∃ p, sum_src_ = some p)
    (htmp : sp.padding_policy = PADDING_POLICY_PREPAD → ∃ p, temp_buffer_ = some p) :
    ∃ r, ic_l2_block cp sp c cvt_filter_ cvt_bias_ src_ dst_ sum_src_ temp_buffer_
      mbl3 mbl3_eff gpl3 gpl3_eff icl2 = some r := by
  simp only [ic_l2_block, Option.bind_eq_bind, Option.pure_def]
  refine bind_isSome_of _ _ (cal_ic_block_isSome cp sp c _ _ _ _ _ _ _ hsum) (fun blk0 => ?_)
  refine bind_isSome_of _ _ ?_ (fun pre => ?_)
  · split
    · rename_i hp
      refine bind_isSome_of _ _ (htmp hp) (fun src_trans => ?_)
      exact bind_isSome_of _ _ (prepad_pass_isSome cp sp c _ _ _ _ _) (fun _ => ⟨_, rfl⟩)
    · exact ⟨_, rfl⟩
  · exact bind_isSome_of _ _
      (compute_tile_isSome cp sp c _ cvt_bias_ gpl3 gpl3_eff mbl3_eff hdh hdw hkr hoc how)
      (fun _ => ⟨_, rfl⟩)

/-- The outer loops are defined when every blocked loop advances and the
buffers a block needs are there. -/
theorem outer_loops_isSome (cp : conv2d_param) (sp : kernel_schedule_param) (c : exec_consts)
    (cvt_filter_ cvt_bias_ src_ dst_ : pointer) (sum_src_ temp_buffer_ : Option pointer)
    (hdh : cp.dilation_h ≠ 0) (hdw : cp.dilation_w ≠ 0) (hkr : sp.ow_kr_blk ≠ 0)
    (hmb : c.batch ≤ 0 ∨ 1 ≤ sp.mb_l3_blk) (hgp : cp.group ≤ 0 ∨ 1 ≤ sp.gp_l3_blk)
    (hic : sp.padded_ic ≤ 0 ∨ 1 ≤ sp.ic_l2_blk)
    (hoc : c.padded_reg_oc ≤ 0 ∨ 1 ≤ sp.oc_l2_blk) (how : c.dst_w ≤ 0 ∨ 1 ≤ sp.ow_l2_blk)
    (hsum : c.with_sum = true → ∃ p, sum_src_ = some p)
    (htmp : sp.padding_policy = PADDING_POLICY_PREPAD → ∃ p, temp_buffer_ = some p) :
    ∃ r, outer_loops cp sp c cvt_filter_ cvt_bias_ src_ dst_ sum_src_ temp_buffer_ = some r := by
  unfold outer_loops
  refine for_range_isSome _ _ _ _ hmb (fun mbl3 _ _ => ?_)
  refine for_range_isSome _ _ _ _ hgp (fun gpl3 _ _ => ?_)
  simp only [Option.bind_eq_bind, Option.pure_def]
  refine bind_isSome_of _ _ ?_ (fun _ => ⟨_, rfl⟩)
  refine for_range_isSome _ _ _ _ hic (fun icl2 _ _ => ?_)
  exact ic_l2_block_isSome cp sp c _ _ _ _ _ _ _ _ _ _ _ hdh hdw hkr hoc how hsum htmp

/-- The `const` locals of `execute` are defined when the residual shape is
there whenever SUM fusion is set. -/
theorem mk_exec_consts_isSome (cp : conv2d_param) (sp : kernel_schedule_param)
    (src_shape_ dst_shape_ : TensorShape) (sum_src_shape_ : Option TensorShape)
    (hsum : cp.fuse_flag.SUM = true → ∃ s, sum_src_shape_ = some s) :
    ∃ c, mk_exec_consts cp sp src_shape_ dst_shape_ sum_src_shape_ = some c := by
  simp only [mk_exec_consts, Option.bind_eq_bind, Option.pure_def]
  refine bind_isSome_of _ _ ⟨_, round_up_isSome _ _ (by decide)⟩ (fun _ => ?_)
  refine bind_isSome_of _ _ ⟨_, round_up_isSome _ _ (by decide)⟩ (fun _ => ?_)
  refine bind_isSome_of _ _ ⟨_, round_up_isSome _ _ (by decide)⟩ (fun _ => ?_)
  refine bind_isSome_of _ _ ?_ (fun _ => ⟨_, rfl⟩)
  split
  · rename_i h
    refine bind_isSome_of _ _ (hsum h) (fun s => ?_)
    exact bind_isSome_of _ _ ⟨_, round_up_isSome _ _ (by decide)⟩ (fun _ => ⟨_, rfl⟩)
  · exact ⟨_, rfl⟩

/-- The `const` locals of `execute` that the loop bounds read. -/
theorem mk_exec_consts_fields (cp : conv2d_param) (sp : kernel_schedule_param)
    (src_shape_ dst_shape_ : TensorShape) (sum_src_shape_ : Option TensorShape)
    (c : exec_consts)
    (h : mk_exec_consts cp sp src_shape_ dst_shape_ sum_src_shape_ = some c) :
    c.batch = src_shape_.GetDim 0 ∧ c.src_h = src_shape_.GetDim 2 ∧
      c.src_w = src_shape_.GetDim 3 ∧ c.dst_h = dst_shape_.GetDim 2 ∧
      c.dst_w = dst_shape_.GetDim 3 ∧
      c.padded_reg_oc = Int.tdiv (sp.oc_per_gp + 8 - 1) 8 * 8 ∧
      c.with_sum = cp.fuse_flag.SUM ∧ c.with_relu = cp.fuse_flag.RELU ∧
      c.with_relu6 = cp.fuse_flag.RELU6 ∧
      c.src_h_stride = src_shape_.GetDim 3 * IC_DATA_BLK ∧
      c.src_icb_stride = src_shape_.GetDim 2 * src_shape_.GetDim 3 * IC_DATA_BLK ∧
      c.src_g_stride = sp.padded_ic * src_shape_.GetDim 2 * src_shape_.GetDim 3 ∧
      c.src_b_stride = Int.tdiv (src_shape_.GetDim 1 + 16 - 1) 16 * 16
        * src_shape_.GetDim 2 * src_shape_.GetDim 3 := by
  simp only [mk_exec_consts, Option.bind_eq_bind, Option.pure_def, Option.bind_eq_some,
    Option.some.injEq] at h
  obtain ⟨r1, h1, r2, h2, r3, h3, r4, h4, h5⟩ := h
  rw [round_up_isSome _ _ (by decide)] at h1 h2
  obtain ⟨rfl⟩ := h1
  obtain ⟨rfl⟩ := h2
  rw [← h5]
  exact ⟨rfl, rfl, rfl, rfl, rfl, rfl, rfl, rfl, rfl, rfl, rfl, rfl, rfl⟩

/-! ## execute: status code -/

/-- The failure path of `execute`: the status is `RC_INVALID_VALUE` and there is
no event: no microkernel call, no write to the scratch buffer. -/
theorem execute_of_invalid (e : executor) (h : execute_invalid e) :
    execute e = some (RetCode.RC_INVALID_VALUE, []) := by
  unfold execute
  split
  · rename_i cp f b s d hcp hf hb hs hd
    rcases h with h | h | h | h | h | ⟨cp', h1, h2, h3⟩ | ⟨h1, h2⟩
    · rw [hcp] at h; exact absurd h (by simp)
    · rw [hf] at h; exact absurd h (by simp)
    · rw [hb] at h; exact absurd h (by simp)
    · rw [hs] at h; exact absurd h (by simp)
    · rw [hd] at h; exact absurd h (by simp)
    · rw [hcp] at h1
      obtain ⟨rfl⟩ := h1
      rw [if_pos ⟨h2, h3⟩]
    · split
      · rfl
      · simp only [if_pos (And.intro h1 h2)]
  · rfl

/-- Outside the failure condition `execute` never answers `RC_INVALID_VALUE`. -/
theorem execute_of_valid_ne (e : executor) (h : ¬ execute_invalid e) (t : List event) :
    execute e ≠ some (RetCode.RC_INVALID_VALUE, t) := by
  unfold execute
  split
  · rename_i cp f b s d hcp hf hb hs hd
    split
    · rename_i hsum
      exact absurd (Or.inr (Or.inr (Or.inr (Or.inr (Or.inr (Or.inl
        ⟨cp, hcp, hsum.1, hsum.2⟩)))))) h
    · simp only []
      split
      · rename_i htmp
        exact absurd (Or.inr (Or.inr (Or.inr (Or.inr (Or.inr (Or.inr htmp)))))) h
      · intro hc
        simp only [Option.bind_eq_bind, Option.bind_eq_some, Option.pure_def, Option.some.injEq,
          Prod.mk.injEq] at hc
        obtain ⟨_, _, _, _, _, _, _, _, hc, _⟩ := hc
        exact absurd hc (by decide)
  · rename_i hnone
    exfalso
    apply h
    cases hcp : e.conv_param_ with
    | none => exact Or.inl hcp
    | some cp =>
      cases hf : e.cvt_filter_ with
      | none => exact Or.inr (Or.inl hf)
      | some f =>
        cases hb : e.cvt_bias_ with
        | none => exact Or.inr (Or.inr (Or.inl hb))
        | some b =>
          cases hs : e.src_ with
          | none => exact Or.inr (Or.inr (Or.inr (Or.inl hs)))
          | some s =>
            cases hd : e.dst_ with
            | none => exact Or.inr (Or.inr (Or.inr (Or.inr (Or.inl hd))))
            | some d => exact absurd hd (hnone cp f b s d hcp hf hb hs)

theorem tdiv_nonpos_of_lt (x d : Int) (hd : 0 < d) (hx : x < d) : Int.tdiv x d ≤ 0 := by
  rcases lt_or_le x 0 with h | h
  · have h1 : Int.tdiv x d = -(Int.tdiv (-x) d) := by
      rw [Int.neg_tdiv, Int.neg_neg]
    have h2 := Int.tdiv_nonneg (show 0 ≤ -x by omega) (le_of_lt hd)
    omega
  · rw [Int.tdiv_eq_ediv h (le_of_lt hd), Int.ediv_eq_zero_of_lt h hx]

/-- On a prepared executor with well-formed parameters, non-zero dilations and
at least one thread, `execute` is defined outside its failure condition and
answers `RC_SUCCESS`. -/
theorem execute_of_valid (m : machine) (e0 e : executor) (cp : conv2d_param)
    (hprep : prepare m e0 = some (RetCode.RC_SUCCESS, e))
    (hcp : e.conv_param_ = some cp) (hwf : well_formed m cp)
    (hdh : cp.dilation_h ≠ 0) (hdw : cp.dilation_w ≠ 0) (hnt : 1 ≤ m.num_thread)
    (hv : ¬ execute_invalid e) :
    ∃ t, execute e = some (RetCode.RC_SUCCESS, t) := by
  obtain ⟨cp0, src, dst, sp0, sp', hcp0, hsrc, hdst, hsumshape, hinit, hcal, he⟩ :=
    prepare_success_inv m e0 e hprep
  have hcpe : e.conv_param_ = e0.conv_param_ := by rw [he]
  have hcp0' : cp0 = cp := by
    rw [hcpe, hcp0] at hcp
    exact Option.some.inj hcp
  subst hcp0'
  obtain ⟨sp0', sp'', hinit', hcal', _, h1, h2, h3, h4, hb⟩ :=
    prepare_of_valid m e0 cp0 src dst hcp0 hsrc hdst hsumshape hwf
  have hsp0 : sp0' = sp0 := Option.some.inj (hinit'.symm.trans hinit)
  subst hsp0
  have hsp : sp'' = sp' := Option.some.inj (hcal'.symm.trans hcal)
  subst hsp
  have hsch : e.schedule_param_ = sp'' := by rw [he]
  have hsrc' : e.src_shape_ = some src := by rw [he]; exact hsrc
  have hdst' : e.dst_shape_ = some dst := by rw [he]; exact hdst
  have hsumsh : e.sum_src_shape_ = e0.sum_src_shape_ := by rw [he]
  -- the buffers
  have hf : ∃ p, e.cvt_filter_ = some p := by
    cases h : e.cvt_filter_ with
    | none => exact absurd (Or.inr (Or.inl h)) hv
    | some p => exact ⟨p, rfl⟩
  have hbias : ∃ p, e.cvt_bias_ = some p := by
    cases h : e.cvt_bias_ with
    | none => exact absurd (Or.inr (Or.inr (Or.inl h))) hv
    | some p => exact ⟨p, rfl⟩
  have hs : ∃ p, e.src_ = some p := by
    cases h : e.src_ with
    | none => exact absurd (Or.inr (Or.inr (Or.inr (Or.inl h)))) hv
    | some p => exact ⟨p, rfl⟩
  have hd : ∃ p, e.dst_ = some p := by
    cases h : e.dst_ with
    | none => exact absurd (Or.inr (Or.inr (Or.inr (Or.inr (Or.inl h))))) hv
    | some p => exact ⟨p, rfl⟩
  obtain ⟨pf, hf⟩ := hf
  obtain ⟨pb, hbias⟩ := hbias
  obtain ⟨ps, hs⟩ := hs
  obtain ⟨pd, hd⟩ := hd
  have hnsum : ¬ (cp0.fuse_flag.SUM = true ∧ e.sum_src_ = none) :=
    fun h => hv (Or.inr (Or.inr (Or.inr (Or.inr (Or.inr (Or.inl ⟨cp0, hcp, h.1, h.2⟩))))))
  have hntmp : ¬ (e.schedule_param_.padding_policy = PADDING_POLICY_PREPAD ∧
      e.temp_buffer_ = none) :=
    fun h => hv (Or.inr (Or.inr (Or.inr (Or.inr (Or.inr (Or.inr h))))))
  obtain ⟨c, hc⟩ := mk_exec_consts_isSome cp0 e.schedule_param_ src dst e.sum_src_shape_
    (fun h => by
      rw [hsumsh]
      cases hh : e0.sum_src_shape_ with
      | none => exact absurd ⟨h, hh⟩ hsumshape
      | some s => exact ⟨s, rfl⟩)
  obtain ⟨hcb, _, _, _, hcw, hcr, hcs, _⟩ :=
    mk_exec_consts_fields cp0 e.schedule_param_ src dst e.sum_src_shape_ c hc
  have hoc : c.padded_reg_oc ≤ 0 ∨ 1 ≤ e.schedule_param_.oc_l2_blk := by
    rw [hcr, hsch, hb.oc_l2_blk_eq, h2, h4]
    rcases lt_or_le (Int.tdiv cp0.num_output cp0.group) 1 with ho | ho
    · left
      have := tdiv_nonpos_of_lt (Int.tdiv cp0.num_output cp0.group + 8 - 1) 8 (by decide)
        (by omega)
      omega
    · right
      rw [Int.tdiv_eq_ediv (by omega) (by decide)]
      exact le_min (by decide) (by omega)
  obtain ⟨calls, hcalls⟩ := outer_loops_isSome cp0 e.schedule_param_ c pf pb ps pd e.sum_src_
    e.temp_buffer_ hdh hdw
    (by rw [hsch]; have := hb.ow_kr_blk_pos; omega)
    (by
      rw [hcb, hsch]
      rcases lt_or_le (src.GetDim 0) 1 with h | h
      · left; omega
      · right; exact hb.mb_l3_blk_pos h hnt)
    (by rw [hsch]; right; exact hb.gp_l3_blk_pos)
    (by rw [hsch]; right; have := hb.ic_l2_blk_pos; omega)
    hoc
    (by
      rw [hcw, hsch]
      rcases lt_or_le (dst.GetDim 3) 1 with h | h
      · left; omega
      · right; exact hb.ow_l2_blk_pos h)
    (fun h => by
      rw [hcs] at h
      cases hh : e.sum_src_ with
      | none => exact absurd ⟨h, hh⟩ hnsum
      | some p => exact ⟨p, rfl⟩)
    (fun h => by
      cases hh : e.temp_buffer_ with
      | none => exact absurd ⟨h, hh⟩ hntmp
      | some p => exact ⟨p, rfl⟩)
  refine ⟨[event.pick ker_p_def.KH_IDX (ker_value.int cp0.kernel_h),
     event.pick ker_p_def.KW_IDX (ker_value.int cp0.kernel_w),
     event.pick ker_p_def.SRC_DW_STRIDE_IDX (ker_value.int c.src_dw_stride),
     event.pick ker_p_def.SRC_SW_STRIDE_IDX (ker_value.int c.src_sw_stride)] ++ calls, ?_⟩
  unfold execute
  rw [hcp, hf, hbias, hs, hd]
  simp only [if_neg hnsum, if_neg hntmp, hsrc', hdst', hc, hcalls, Option.bind_eq_bind,
    Option.some_bind, Option.pure_def]

/-- C10, amended. `execute` returns `RC_INVALID_VALUE` exactly when the
convolution parameters, the converted filter, the converted bias, the source
or the destination buffer is missing, or SUM fusion is set and the residual
buffer is missing, or the padding policy is PRE_PAD and the scratch buffer is
missing; on that path there is no event at all (no microkernel call, no write
to the destination or to the scratch buffer). In every other case it does not
return `RC_INVALID_VALUE`, and when the executor is one that `prepare` has set
up with `RC_SUCCESS` for well-formed parameters (`group >= 1`,
`channels / group >= 1`, `kernel_h * kernel_w >= 1`, `MAX_W_BLK >= 3`) with
`dilation_h != 0`, `dilation_w != 0` and at least one thread, it runs to
completion and returns `RC_SUCCESS`. Nothing is promised for an executor
outside of these conditions. -/
theorem execute_status (m : machine) (e : executor) :
    (execute_invalid e → execute e = some (RetCode.RC_INVALID_VALUE, [])) ∧
    (¬ execute_invalid e → ∀ t, execute e ≠ some (RetCode.RC_INVALID_VALUE, t)) ∧
    (¬ execute_invalid e → ∀ e0 cp, prepare m e0 = some (RetCode.RC_SUCCESS, e) →
      e.conv_param_ = some cp → well_formed m cp → cp.dilation_h ≠ 0 → cp.dilation_w ≠ 0 →
      1 ≤ m.num_thread → ∃ t, execute e = some (RetCode.RC_SUCCESS, t)) :=
  ⟨execute_of_invalid e, execute_of_valid_ne e,
    fun hv e0 cp hprep hcp hwf hdh hdw hnt =>
      execute_of_valid m e0 e cp hprep hcp hwf hdh hdw hnt hv⟩

theorem execute_status_witness :
    ∃ t, execute { example_executor with schedule_param_ := example_schedule }
      = some (RetCode.RC_SUCCESS, t) :=
  (execute_status example_machine
      { example_executor with schedule_param_ := example_schedule }).2.2
    (by simp [execute_invalid, example_executor, example_param, example_schedule,
      PADDING_POLICY_PREPAD])
    example_executor example_param (by rfl) rfl
    ⟨by decide, by decide, by decide, by decide⟩ (by decide) (by decide) (by decide)

/-! ## prepare is a function of its arguments -/

/-- The tuning reads only the four fields `init_preproc_param` stores. -/
theorem cal_kernel_tunning_param_congr (m : machine) (cp : conv2d_param)
    (src_shape_ dst_shape_ : TensorShape) (sp1 sp2 : kernel_schedule_param)
    (h1 : sp1.ic_per_gp = sp2.ic_per_gp) (h2 : sp1.oc_per_gp = sp2.oc_per_gp)
    (h3 : sp1.padded_ic = sp2.padded_ic) (h4 : sp1.padded_oc = sp2.padded_oc) :
    cal_kernel_tunning_param m cp src_shape_ dst_shape_ sp1
      = cal_kernel_tunning_param m cp src_shape_ dst_shape_ sp2 := by
  cases sp1
  cases sp2
  simp only at h1 h2 h3 h4
  subst h1 h2 h3 h4
  rfl

/-- The four fields `init_preproc_param` stores are the same whatever the
schedule it starts from. -/
theorem init_preproc_param_inv (cp : conv2d_param) (sp s0 : kernel_schedule_param)
    (h : init_preproc_param cp sp = some s0) :
    ∀ sp2, ∃ s2, init_preproc_param cp sp2 = some s2 ∧ s2.ic_per_gp = s0.ic_per_gp ∧
      s2.oc_per_gp = s0.oc_per_gp ∧ s2.padded_ic = s0.padded_ic ∧
      s2.padded_oc = s0.padded_oc := by
  simp only [init_preproc_param, Option.bind_eq_bind, Option.bind_eq_some, Option.pure_def,
    Option.some.injEq] at h
  obtain ⟨a, ha, b, hb, c, hc, d, hd, h⟩ := h
  intro sp2
  refine ⟨{ sp2 with ic_per_gp := a, oc_per_gp := b, padded_ic := c, padded_oc := d }, ?_, ?_⟩
  · simp only [init_preproc_param, ha, hb, hc, hd, Option.bind_eq_bind, Option.some_bind,
      Option.pure_def]
  · rw [← h]
    exact ⟨rfl, rfl, rfl, rfl⟩

/-- A successful `prepare` gives the same executor whatever schedule the
executor held before. -/
theorem prepare_indep (m : machine) (e e' : executor) (sp : kernel_schedule_param)
    (h : prepare m e = some (RetCode.RC_SUCCESS, e')) :
    prepare m { e with schedule_param_ := sp } = some (RetCode.RC_SUCCESS, e') := by
  obtain ⟨cp, src, dst, sp0, sp', hcp, hsrc, hdst, hsum, hinit, hcal, he⟩ :=
    prepare_success_inv m e e' h
  obtain ⟨s2, hs2, g1, g2, g3, g4⟩ := init_preproc_param_inv cp e.schedule_param_ sp0 hinit sp
  have hcal2 := cal_kernel_tunning_param_congr m cp src dst s2 sp0 g1 g2 g3 g4
  unfold prepare
  simp only [hcp, hsrc, hdst, if_neg hsum, hs2, hcal2, hcal, Option.bind_eq_bind,
    Option.some_bind, Option.pure_def]
  rw [he, hcp, hsrc, hdst]

/-- C11. `prepare` is a function of the convolution parameters, the shapes and
the platform facts: the executor a successful call leaves does not depend on
the schedule held before the call, so a second call returns the same status,
the same schedule and the same scratch size as the first. -/
theorem prepare_pure (m : machine) (e e' : executor)
    (h : prepare m e = some (RetCode.RC_SUCCESS, e')) :
    (∀ sp, prepare m { e with schedule_param_ := sp } = some (RetCode.RC_SUCCESS, e')) ∧
    prepare m e' = some (RetCode.RC_SUCCESS, e') ∧
    (∀ r e'', prepare m e' = some (r, e'') →
      r = RetCode.RC_SUCCESS ∧ e''.schedule_param_ = e'.schedule_param_ ∧
        cal_temp_buffer_size e'' = cal_temp_buffer_size e') := by
  have h2 : prepare m e' = some (RetCode.RC_SUCCESS, e') := by
    obtain ⟨cp, src, dst, sp0, sp', _, _, _, _, _, _, he⟩ := prepare_success_inv m e e' h
    have := prepare_indep m e e' sp' h
    rw [← he] at this
    exact this
  refine ⟨fun sp => prepare_indep m e e' sp h, h2, fun r e'' h3 => ?_⟩
  rw [h2] at h3
  obtain ⟨h4, h5⟩ := Prod.mk.inj (Option.some.inj h3)
  rw [← h4, ← h5]
  exact ⟨rfl, rfl, rfl⟩

theorem prepare_pure_witness :
    prepare example_machine { example_executor with schedule_param_ := example_schedule }
      = some (RetCode.RC_SUCCESS,
          { example_executor with schedule_param_ := example_schedule }) :=
  (prepare_pure example_machine example_executor
    { example_executor with schedule_param_ := example_schedule } (by rfl)).2.1

/-! ## Schedule tuning: what a stored schedule is -/

/-- Every stage of a tuning that returned: the stored fields are the results
of the stages, computed from the shapes and from the fields stored before. -/
theorem cal_kernel_tunning_param_inv (m : machine) (cp : conv2d_param)
    (src_shape_ dst_shape_ : TensorShape) (sp sp' : kernel_schedule_param)
    (h : cal_kernel_tunning_param m cp src_shape_ dst_shape_ sp = some sp') :
    cal_ic_l2_blk m.fa cp = some sp'.ic_l2_blk ∧
    div_up sp.padded_ic sp'.ic_l2_blk = some sp'.ic_l2_cnt ∧
    cal_padding_policy m cp (src_shape_.GetDim 1) (dst_shape_.GetDim 2) (dst_shape_.GetDim 3)
      = some sp'.padding_policy ∧
    (if sp'.padding_policy = PADDING_POLICY_PREPAD then
        cal_l3_blk m cp (src_shape_.GetDim 0) (src_shape_.GetDim 2) (src_shape_.GetDim 3)
          sp'.ic_l2_blk
      else some (cp.group, src_shape_.GetDim 0)) = some (sp'.gp_l3_blk, sp'.mb_l3_blk) ∧
    cal_unroll_ow cp sp'.padding_policy (src_shape_.GetDim 3) (dst_shape_.GetDim 3)
      ((cp.kernel_w - 1) * cp.dilation_w + 1) = some (sp'.unroll_ow_start, sp'.unroll_ow_end) ∧
    cal_ow_kr_blk m (dst_shape_.GetDim 3) sp'.unroll_ow_start sp'.unroll_ow_end
      = some sp'.ow_kr_blk ∧
    sp'.oc_l2_blk = min OC_L2_BLK_MAX sp.padded_oc ∧
    cal_ow_l2_blk m (dst_shape_.GetDim 3) sp'.ow_kr_blk = some sp'.ow_l2_blk ∧
    sp'.ic_per_gp = sp.ic_per_gp ∧ sp'.oc_per_gp = sp.oc_per_gp ∧
    sp'.padded_ic = sp.padded_ic ∧ sp'.padded_oc = sp.padded_oc := by
  unfold cal_kernel_tunning_param at h
  simp only [Option.bind_eq_bind, Option.bind_eq_some, Option.pure_def, Option.some.injEq] at h
  obtain ⟨blk, h1, cnt, h2, pol, h3, l3, h4, un, h5, kr, h6, owl2, h7, h8⟩ := h
  rw [← h8]
  exact ⟨h1, h2, h3, h4, h5, h6, rfl, h7, rfl, rfl, rfl, rfl⟩

/-- What a successful `prepare` stored: the schedule of the executor it leaves
is the tuning of the schedule `init_preproc_param` computes. -/
theorem prepare_schedule (m : machine) (e e' : executor)
    (h : prepare m e = some (RetCode.RC_SUCCESS, e')) :
    ∃ cp src_shape_ dst_shape_ sp0, e'.conv_param_ = some cp ∧
      e'.src_shape_ = some src_shape_ ∧ e'.dst_shape_ = some dst_shape_ ∧
      init_preproc_param cp e.schedule_param_ = some sp0 ∧
      cal_kernel_tunning_param m cp src_shape_ dst_shape_ sp0 = some e'.schedule_param_ := by
  obtain ⟨cp, src, dst, sp0, sp', hcp, hsrc, hdst, _, hinit, hcal, he⟩ :=
    prepare_success_inv m e e' h
  refine ⟨cp, src, dst, sp0, ?_, ?_, ?_, hinit, ?_⟩
  · rw [he]; exact hcp
  · rw [he]; exact hsrc
  · rw [he]; exact hdst
  · rw [he]; exact hcal

/-! ## Group and batch blocks, unroll region -/

/-- C16. With `group ≥ 1`, `batch ≥ 1` and at least one thread, the two
shrinking loops of the pre-pad branch end and leave `1 ≤ gp_l3_blk ≤ group` and
`1 ≤ mb_l3_blk ≤ batch`; the schedule `cal_kernel_tunning_param` stores on
well-formed parameters has these bounds under either padding policy, and under
the no-pad policy the two blocks are `group` and `batch` themselves. -/
theorem l3_blk_bounds (m : machine) (cp : conv2d_param)
    (src_shape_ dst_shape_ : TensorShape) (sp : kernel_schedule_param)
    (hwf : well_formed m cp) (hbatch : 1 ≤ src_shape_.GetDim 0) (hnt : 1 ≤ m.num_thread) :
    (∀ src_h src_w ic_l2_blk, ∃ gp mb,
      cal_l3_blk m cp (src_shape_.GetDim 0) src_h src_w ic_l2_blk = some (gp, mb) ∧
        1 ≤ gp ∧ gp ≤ cp.group ∧ 1 ≤ mb ∧ mb ≤ src_shape_.GetDim 0) ∧
    (∃ sp', cal_kernel_tunning_param m cp src_shape_ dst_shape_ sp = some sp' ∧
      1 ≤ sp'.gp_l3_blk ∧ sp'.gp_l3_blk ≤ cp.group ∧
      1 ≤ sp'.mb_l3_blk ∧ sp'.mb_l3_blk ≤ src_shape_.GetDim 0 ∧
      (sp'.padding_policy = PADDING_POLICY_NOPAD →
        sp'.gp_l3_blk = cp.group ∧ sp'.mb_l3_blk = src_shape_.GetDim 0)) := by
  constructor
  · intro src_h src_w ic_l2_blk
    obtain ⟨gp, mb, h, h1, h2, h3, h4⟩ := cal_l3_blk_ok m cp (src_shape_.GetDim 0) src_h src_w
      ic_l2_blk hwf.group_pos
    exact ⟨gp, mb, h, h1, h2, h4 hbatch hnt, h3⟩
  · obtain ⟨sp', h, _, _, _, _, hb⟩ :=
      cal_kernel_tunning_param_ok m cp src_shape_ dst_shape_ sp hwf
    exact ⟨sp', h, hb.gp_l3_blk_pos, hb.gp_l3_blk_le, hb.mb_l3_blk_pos hbatch hnt,
      hb.mb_l3_blk_le, hb.nopad_blk⟩

theorem l3_blk_bounds_witness :
    ∃ sp', cal_kernel_tunning_param example_machine example_param example_src_shape
        example_dst_shape blank_schedule = some sp' ∧
      1 ≤ sp'.gp_l3_blk ∧ sp'.gp_l3_blk ≤ example_param.group ∧
      1 ≤ sp'.mb_l3_blk ∧ sp'.mb_l3_blk ≤ example_src_shape.GetDim 0 ∧
      (sp'.padding_policy = PADDING_POLICY_NOPAD →
        sp'.gp_l3_blk = example_param.group ∧ sp'.mb_l3_blk = example_src_shape.GetDim 0) :=
  (l3_blk_bounds example_machine example_param example_src_shape example_dst_shape
    blank_schedule ⟨by decide, by decide, by decide, by decide⟩ (by decide) (by decide)).2

/-- The unroll region of the no-pad policy: inside the output columns, and
exactly the columns whose first tap and last tap are both inside the source. -/
theorem cal_unroll_ow_nopad (cp : conv2d_param) (src_w dst_w ext_kernel_w s e : Int)
    (h : cal_unroll_ow cp PADDING_POLICY_NOPAD src_w dst_w ext_kernel_w = some (s, e))
    (hst : 0 ≤ cp.stride_w) (hdw : 0 ≤ dst_w) :
    (0 ≤ s ∧ s ≤ e ∧ e ≤ dst_w) ∧
    ∀ ow, 0 ≤ ow → ow < dst_w →
      ((s ≤ ow ∧ ow < e) ↔
        (ow * cp.stride_w - cp.pad_w ≥ 0 ∧
          ow * cp.stride_w - cp.pad_w + ext_kernel_w ≤ src_w)) := by
  obtain ⟨s0, hs0, hs0'⟩ := scan_unroll_ow_start_ok cp dst_w (-1) dst_w.toNat 0 (by omega)
  obtain ⟨e0, he0, he0'⟩ := scan_unroll_ow_end_ok cp src_w ext_kernel_w (-1) dst_w.toNat
    (dst_w - 1) (by omega)
  unfold cal_unroll_ow at h
  rw [if_pos rfl] at h
  simp only [hs0, he0, Option.bind_eq_bind, Option.some_bind, Option.pure_def] at h
  by_cases hc : s0 ≥ e0 ∨ s0 < 0 ∨ e0 < 0
  · rw [if_pos hc] at h
    obtain ⟨rfl, rfl⟩ := Prod.mk.inj (Option.some.inj h)
    refine ⟨⟨hdw, le_refl _, le_refl _⟩, fun ow h0 h1 => ⟨fun hh => by omega, fun hh => ?_⟩⟩
    exfalso
    rcases hs0' with ⟨_, hs2⟩ | ⟨hs1, hs2, hs3, hs4⟩
    · exact hs2 ow h0 h1 hh.1
    · rcases he0' with ⟨_, he2⟩ | ⟨he1, he2, he3, he4⟩
      · exact he2 ow h0 (by omega) hh.2
      · have h3 : s0 ≤ ow := by
          by_contra hlt
          exact hs4 ow h0 (by omega) hh.1
        have h4 : ow < e0 := by
          by_contra hge
          exact he4 ow (by omega) (by omega) hh.2
        omega
  · rw [if_neg hc] at h
    obtain ⟨rfl, rfl⟩ := Prod.mk.inj (Option.some.inj h)
    have hs : 0 ≤ s0 ∧ s0 < dst_w ∧ s0 * cp.stride_w - cp.pad_w ≥ 0 ∧
        ∀ j, 0 ≤ j → j < s0 → ¬ (j * cp.stride_w - cp.pad_w ≥ 0) := by
      rcases hs0' with ⟨hs1, _⟩ | h
      · omega
      · exact h
    have he : 1 ≤ e0 ∧ e0 ≤ dst_w - 1 + 1 ∧
        (e0 - 1) * cp.stride_w - cp.pad_w + ext_kernel_w ≤ src_w ∧
        ∀ j, e0 ≤ j → j ≤ dst_w - 1 →
          ¬ (j * cp.stride_w - cp.pad_w + ext_kernel_w ≤ src_w) := by
      rcases he0' with ⟨he1, _⟩ | h
      · omega
      · exact h
    obtain ⟨hs1, hs2, hs3, hs4⟩ := hs
    obtain ⟨he1, he2, he3, he4⟩ := he
    refine ⟨⟨hs1, by omega, by omega⟩, fun ow h0 h1 => ⟨fun hh => ?_, fun hh => ?_⟩⟩
    · have m1 : s0 * cp.stride_w ≤ ow * cp.stride_w :=
        Int.mul_le_mul_of_nonneg_right hh.1 hst
      have m2 : ow * cp.stride_w ≤ (e0 - 1) * cp.stride_w :=
        Int.mul_le_mul_of_nonneg_right (by omega) hst
      constructor <;> omega
    · constructor
      · by_contra hlt
        exact hs4 ow h0 (by omega) hh.1
      · by_contra hge
        exact he4 ow (by omega) (by omega) hh.2

/-- C15. Under the no-pad policy, with `stride_w ≥ 1` and `dst_w ≥ 1`, the
unroll region a tuning stores satisfies `0 ≤ unroll_ow_start ≤ unroll_ow_end ≤
dst_w` and is exactly the set of output columns whose whole receptive field
lies inside the unpadded source: a column `ow` of `[0, dst_w)` is in the region
if and only if `ow * stride_w - pad_w ≥ 0` and `ow * stride_w - pad_w +
(kernel_w - 1) * dilation_w + 1 ≤ src_w`. -/
theorem unroll_region_nopad (m : machine) (cp : conv2d_param)
    (src_shape_ dst_shape_ : TensorShape) (sp sp' : kernel_schedule_param)
    (h : cal_kernel_tunning_param m cp src_shape_ dst_shape_ sp = some sp')
    (hpol : sp'.padding_policy = PADDING_POLICY_NOPAD)
    (hst : 1 ≤ cp.stride_w) (hdw : 1 ≤ dst_shape_.GetDim 3) :
    (0 ≤ sp'.unroll_ow_start ∧ sp'.unroll_ow_start ≤ sp'.unroll_ow_end ∧
      sp'.unroll_ow_end ≤ dst_shape_.GetDim 3) ∧
    ∀ ow, 0 ≤ ow → ow < dst_shape_.GetDim 3 →
      ((sp'.unroll_ow_start ≤ ow ∧ ow < sp'.unroll_ow_end) ↔
        (ow * cp.stride_w - cp.pad_w ≥ 0 ∧
          ow * cp.stride_w - cp.pad_w + (cp.kernel_w - 1) * cp.dilation_w + 1
            ≤ src_shape_.GetDim 3)) := by
  obtain ⟨_, _, _, _, hun, _⟩ := cal_kernel_tunning_param_inv m cp src_shape_ dst_shape_ sp sp' h
  rw [hpol] at hun
  have := cal_unroll_ow_nopad cp (src_shape_.GetDim 3) (dst_shape_.GetDim 3)
    ((cp.kernel_w - 1) * cp.dilation_w + 1) sp'.unroll_ow_start sp'.unroll_ow_end hun
    (by omega) (by omega)
  refine ⟨this.1, fun ow h0 h1 => ?_⟩
  have h2 := this.2 ow h0 h1
  rw [h2]
  constructor <;> intro hh <;> constructor <;> omega

theorem nopad_tuning :
    cal_kernel_tunning_param example_machine nopad_param nopad_src_shape nopad_dst_shape
      nopad_init_schedule = some nopad_schedule := by
  rfl

theorem unroll_region_nopad_witness :
    (0 ≤ nopad_schedule.unroll_ow_start ∧
      nopad_schedule.unroll_ow_start ≤ nopad_schedule.unroll_ow_end ∧
      nopad_schedule.unroll_ow_end ≤ nopad_dst_shape.GetDim 3) ∧
    ∀ ow, 0 ≤ ow → ow < nopad_dst_shape.GetDim 3 →
      ((nopad_schedule.unroll_ow_start ≤ ow ∧ ow < nopad_schedule.unroll_ow_end) ↔
        (ow * nopad_param.stride_w - nopad_param.pad_w ≥ 0 ∧
          ow * nopad_param.stride_w - nopad_param.pad_w
            + (nopad_param.kernel_w - 1) * nopad_param.dilation_w + 1
            ≤ nopad_src_shape.GetDim 3)) :=
  unroll_region_nopad example_machine nopad_param nopad_src_shape nopad_dst_shape
    nopad_init_schedule nopad_schedule (by rfl) rfl (by decide) (by decide)

/-! ## Input-channel block size: the tail adjustment -/

/-- The function `cal_ic_l2_blk` in terms of its stages. -/
theorem cal_ic_l2_blk_stages (fa : float_arith) (param : conv2d_param) (p b0 : Int) (t : Bool)
    (hp : cal_padded_ic param = some p) (hb : cal_ic_l2_blk_init param p = some b0)
    (ht : ic_l2_tail_test fa p b0 = some t) :
    cal_ic_l2_blk fa param = if t = true then ic_l2_tail_adjust p b0 else some b0 := by
  simp only [cal_padded_ic, Option.bind_eq_bind, Option.bind_eq_some] at hp
  obtain ⟨c, hc, hp⟩ := hp
  simp only [ic_l2_tail_test, Option.map_eq_some'] at ht
  obtain ⟨tail, htail, ht⟩ := ht
  have hb' : (if p ≥ IC_L2_BLK_MAX then
        (div_up (4 * IC_L2_BLK_MAX) (param.kernel_h * param.kernel_w * IC_DATA_BLK)).map
          (fun d => min (d * OC_DATA_BLK) p)
      else
        (div_up IC_L2_BLK_MAX (param.kernel_h * param.kernel_w * IC_DATA_BLK)).map
          (fun d => min (d * OC_DATA_BLK) p)) = some b0 := by
    rw [← hb]
    unfold cal_ic_l2_blk_init cal_ic_l2_blk_ceiling
    split <;> simp only [Option.map_map] <;> rfl
  unfold cal_ic_l2_blk
  simp only [hc, hp, hb', htail, ht, Option.bind_eq_bind, Option.some_bind, Option.pure_def,
    ic_l2_tail_adjust]

/-- On well-formed parameters the stages are defined: the padded channel count
is a positive multiple of 16 and the initial block is a multiple of 16 between
16 and the padded channel count. -/
theorem cal_ic_l2_blk_init_ok (param : conv2d_param)
    (hg : 1 ≤ param.group) (hc : 1 ≤ Int.tdiv param.channels param.group)
    (hk : 1 ≤ param.kernel_h * param.kernel_w) :
    ∃ p b0, cal_padded_ic param = some p ∧ cal_ic_l2_blk_init param p = some b0 ∧
      16 ≤ b0 ∧ b0 ≤ p ∧ (16 : Int) ∣ b0 ∧ (16 : Int) ∣ p := by
  obtain ⟨hp1, hp2⟩ := round_up_val_bounds (Int.tdiv param.channels param.group) 16 (by decide)
  have hdp : (16 : Int) ∣ (Int.tdiv param.channels param.group + 16 - 1) / 16 * 16 :=
    Dvd.intro_left _ rfl
  have hpv : cal_padded_ic param
      = some ((Int.tdiv param.channels param.group + 16 - 1) / 16 * 16) := by
    simp only [cal_padded_ic, cdiv_isSome _ _ (show param.group ≠ 0 by omega),
      Option.bind_eq_bind, Option.some_bind]
    exact round_up_eq_of_pos _ _ (by omega) (by decide)
  generalize (Int.tdiv param.channels param.group + 16 - 1) / 16 * 16 = p at *
  have hK : 1 ≤ param.kernel_h * param.kernel_w * IC_DATA_BLK := by
    show 1 ≤ param.kernel_h * param.kernel_w * 16
    omega
  have hinit : ∃ b0, cal_ic_l2_blk_init param p = some b0 ∧ 16 ≤ b0 ∧ b0 ≤ p ∧
      (16 : Int) ∣ b0 := by
    unfold cal_ic_l2_blk_init cal_ic_l2_blk_ceiling
    by_cases hge : p ≥ IC_L2_BLK_MAX
    · rw [if_pos hge, div_up_eq_of_pos _ _ (by decide) (by omega)]
      obtain ⟨h16, hle, hd⟩ := init_blk_bounds (4 * IC_L2_BLK_MAX)
        (param.kernel_h * param.kernel_w * IC_DATA_BLK) p (by decide) hK (by omega) hdp
      exact ⟨_, rfl, h16, hle, hd⟩
    · rw [if_neg hge, div_up_eq_of_pos _ _ (by decide) (by omega)]
      obtain ⟨h16, hle, hd⟩ := init_blk_bounds IC_L2_BLK_MAX
        (param.kernel_h * param.kernel_w * IC_DATA_BLK) p (by decide) hK (by omega) hdp
      exact ⟨_, rfl, h16, hle, hd⟩
  obtain ⟨b0, h1, h2, h3, h4⟩ := hinit
  exact ⟨p, b0, hpv, h1, h2, h3, h4, hdp⟩

/-- The tail adjustment on a block `b` with `16 ≤ b ≤ p`: the share of the range
per full block, padded to 16; it is not below `b` and not above `p`. -/
theorem ic_l2_tail_adjust_ok (p b : Int) (hb : 16 ≤ b) (hbp : b ≤ p) (hdp : (16 : Int) ∣ p) :
    ic_l2_tail_adjust p b = some ((p / (p / b) + 16 - 1) / 16 * 16) ∧
      b ≤ (p / (p / b) + 16 - 1) / 16 * 16 ∧ (p / (p / b) + 16 - 1) / 16 * 16 ≤ p ∧
      (16 : Int) ∣ (p / (p / b) + 16 - 1) / 16 * 16 := by
  have hq : 1 ≤ p / b := by
    rw [Int.le_ediv_iff_mul_le (by omega)]; omega
  have hshare : b ≤ p / (p / b) := by
    rw [Int.le_ediv_iff_mul_le (by omega)]
    have := Int.ediv_mul_le p (show b ≠ 0 by omega)
    rw [Int.mul_comm]
    exact this
  have hr2 : p / (p / b) ≤ p := by
    have := Int.ediv_mul_le p (show p / b ≠ 0 by omega)
    have h2 : p / (p / b) * 1 ≤ p / (p / b) * (p / b) :=
      Int.mul_le_mul_of_nonneg_left hq (by omega)
    omega
  refine ⟨?_, ?_, round_up_val_le_of_dvd _ _ _ (by decide) hdp hr2, Dvd.intro_left _ rfl⟩
  · simp only [ic_l2_tail_adjust, cdiv_eq_of_pos p b (by omega) (by omega),
      cdiv_eq_of_pos p (p / b) (by omega) (by omega), Option.bind_eq_bind, Option.some_bind]
    exact round_up_eq_of_pos _ _ (by omega) (by decide)
  · have := (round_up_val_bounds (p / (p / b)) 16 (by decide)).1
    omega

/-- C13, refuted as stated. For 272 input channels and a 3×3 kernel the block
chosen from the L2 ceiling is 128, its final partial block `mod_up(272, 128) =
16` is below `0.334 * 128`, and `cal_ic_l2_blk` returns `round_up(272 / 2, 16) =
144`: larger than the initial block and than the L2-derived ceiling. -/
theorem tail_adjust_shrinks_counterexample :
    cal_padded_ic grow_param = some 272 ∧
    cal_ic_l2_blk_ceiling grow_param 272 = some 128 ∧
    cal_ic_l2_blk_init grow_param 272 = some 128 ∧
    mod_up 272 128 = some 16 ∧
    ic_l2_tail_test exact_arith 272 128 = some true ∧
    cal_ic_l2_blk exact_arith grow_param = some 144 ∧
    ¬ ((144 : Int) ≤ 128) := by
  refine ⟨by rfl, by rfl, by rfl, by rfl, by rfl, by rfl, by decide⟩

/-- C13, amended. Whenever the final partial block of the initially chosen
block `b0` is below the tail-ratio fraction of `b0`, the adjustment does not
shrink the block: `cal_ic_l2_blk` returns `round_up(padded_ic / (padded_ic /
b0), IC_DATA_BLK)`, a multiple of `IC_DATA_BLK` that is at least `b0` and at
most `padded_ic`. -/
theorem tail_adjust_grows (fa : float_arith) (param : conv2d_param) (p b0 : Int)
    (hg : 1 ≤ param.group) (hc : 1 ≤ Int.tdiv param.channels param.group)
    (hk : 1 ≤ param.kernel_h * param.kernel_w)
    (hp : cal_padded_ic param = some p) (hb : cal_ic_l2_blk_init param p = some b0)
    (ht : ic_l2_tail_test fa p b0 = some true) :
    ∃ blk, cal_ic_l2_blk fa param = some blk ∧ ic_l2_tail_adjust p b0 = some blk ∧
      b0 ≤ blk ∧ blk ≤ p ∧ IC_DATA_BLK ∣ blk := by
  obtain ⟨p', b0', hp', hb', h16, hle, _, hdp⟩ := cal_ic_l2_blk_init_ok param hg hc hk
  obtain ⟨rfl⟩ : some p' = some p := hp'.symm.trans hp
  obtain ⟨rfl⟩ : some b0' = some b0 := hb'.symm.trans hb
  obtain ⟨hadj, h1, h2, h3⟩ := ic_l2_tail_adjust_ok p b0 h16 hle hdp
  refine ⟨_, ?_, hadj, h1, h2, h3⟩
  rw [cal_ic_l2_blk_stages fa param p b0 true hp hb ht, if_pos rfl, hadj]

theorem tail_adjust_grows_witness :
    ∃ blk, cal_ic_l2_blk exact_arith grow_param = some blk ∧
      ic_l2_tail_adjust 272 128 = some blk ∧ 128 ≤ blk ∧ blk ≤ 272 ∧ IC_DATA_BLK ∣ blk :=
  tail_adjust_grows exact_arith grow_param 272 128 (by decide) (by decide) (by decide)
    (by rfl) (by rfl) (by rfl)

/-- C14, refuted as stated. For 272 input channels and a 3×3 kernel the tail
adjustment is triggered and `cal_ic_l2_blk` returns 144, of which the padded
channel count 272 is not a multiple: a final partial block of 128 channels
remains. -/
theorem tail_adjust_divides_counterexample :
    cal_padded_ic grow_param = some 272 ∧
    cal_ic_l2_blk_init grow_param 272 = some 128 ∧
    ic_l2_tail_test exact_arith 272 128 = some true ∧
    cal_ic_l2_blk exact_arith grow_param = some 144 ∧
    ¬ ((144 : Int) ∣ 272) ∧
    mod_up 272 144 = some 128 := by
  refine ⟨by rfl, by rfl, by rfl, by rfl, by decide, by rfl⟩

/-- C14, amended. Whenever the tail adjustment is triggered, the returned block
size is the share `padded_ic / cnt` of the padded range per full block of the
initial size (`cnt = padded_ic / b0`), rounded up to `IC_DATA_BLK`; the padded
range is an exact multiple of it, `cnt` blocks long, when `cnt` divides the
number of 16-channel blocks `padded_ic / IC_DATA_BLK`. -/
theorem tail_adjust_even (fa : float_arith) (param : conv2d_param) (p b0 : Int)
    (hg : 1 ≤ param.group) (hc : 1 ≤ Int.tdiv param.channels param.group)
    (hk : 1 ≤ param.kernel_h * param.kernel_w)
    (hp : cal_padded_ic param = some p) (hb : cal_ic_l2_blk_init param p = some b0)
    (ht : ic_l2_tail_test fa p b0 = some true) :
    ∃ blk, cal_ic_l2_blk fa param = some blk ∧
      blk = (p / (p / b0) + 16 - 1) / 16 * 16 ∧
      ((p / b0) ∣ (p / 16) → blk * (p / b0) = p) := by
  obtain ⟨p', b0', hp', hb', h16, hle, _, hdp⟩ := cal_ic_l2_blk_init_ok param hg hc hk
  obtain ⟨rfl⟩ : some p' = some p := hp'.symm.trans hp
  obtain ⟨rfl⟩ : some b0' = some b0 := hb'.symm.trans hb
  obtain ⟨hadj, _, _, _⟩ := ic_l2_tail_adjust_ok p b0 h16 hle hdp
  refine ⟨_, ?_, rfl, fun hdvd => ?_⟩
  · rw [cal_ic_l2_blk_stages fa param p b0 true hp hb ht, if_pos rfl, hadj]
  · have hq : 1 ≤ p / b0 := by
      rw [Int.le_ediv_iff_mul_le (by omega)]; omega
    obtain ⟨n, hn⟩ := hdp
    obtain ⟨k, hkq⟩ := hdvd
    generalize p / b0 = q at *
    have hn16 : p / 16 = n := by omega
    rw [hn16] at hkq
    have hpk : p = q * (16 * k) := by
      rw [hn, hkq]
      ring
    have hshare : p / q = 16 * k := by
      rw [hpk]
      exact Int.mul_ediv_cancel_left _ (by omega)
    have hr : (16 * k + 16 - 1) / 16 * 16 = 16 * k := by omega
    rw [hshare, hr, hpk]
    ring

theorem tail_adjust_even_witness :
    ∃ blk, cal_ic_l2_blk exact_arith even_param = some blk ∧
      blk = (288 / (288 / 128) + 16 - 1) / 16 * 16 ∧
      (((288 : Int) / 128) ∣ ((288 : Int) / 16) → blk * (288 / 128) = 288) :=
  tail_adjust_even exact_arith even_param 288 128 (by decide) (by decide) (by decide)
    (by rfl) (by rfl) (by rfl)

/-! ## Loop indices -/

/-- A counted loop with a positive step runs its body on the loop indices. -/
theorem for_loop_eq_seq (body : Int → Option (List event)) (hi step : Int) (hstep : 1 ≤ step) :
    ∀ (fuel : Nat) (i : Int), (hi - i).toNat ≤ fuel →
      for_loop body hi step fuel i = seq_events body (loop_indices hi step fuel i) := by
  intro fuel
  induction fuel with
  | zero =>
    intro i hf
    unfold for_loop loop_indices
    rw [if_neg (by omega)]
    rfl
  | succ n ih =>
    intro i hf
    unfold for_loop loop_indices
    by_cases hlt : i < hi
    · rw [if_pos hlt, if_pos hlt, ih (i + step) (by omega)]
      rfl
    · rw [if_neg hlt, if_neg hlt]
      rfl

/-- The loop `for (i = lo; i < hi; i += step)` with a positive step runs its
body on `for_indices lo hi step`. -/
theorem for_range_eq_seq (lo hi step : Int) (body : Int → Option (List event))
    (hstep : 1 ≤ step) :
    for_range lo hi step body = seq_events body (for_indices lo hi step) :=
  for_loop_eq_seq body hi step hstep _ lo (le_refl _)

/-- The indices of a loop with a positive step and enough fuel: the values
`i + k * step` below `hi`. -/
theorem mem_loop_indices (hi step : Int) (hstep : 1 ≤ step) :
    ∀ (fuel : Nat) (i j : Int), (hi - i).toNat ≤ fuel →
      (j ∈ loop_indices hi step fuel i ↔ (i ≤ j ∧ j < hi ∧ step ∣ (j - i))) := by
  intro fuel
  induction fuel with
  | zero =>
    intro i j hf
    unfold loop_indices
    simp only [List.not_mem_nil, false_iff]
    intro h
    omega
  | succ n ih =>
    intro i j hf
    unfold loop_indices
    by_cases hlt : i < hi
    · rw [if_pos hlt, List.mem_cons, ih (i + step) j (by omega)]
      constructor
      · rintro (h | ⟨h1, h2, h3⟩)
        · subst h
          exact ⟨le_refl _, hlt, by simp⟩
        · refine ⟨by omega, h2, ?_⟩
          have : j - i = (j - (i + step)) + step := by ring
          rw [this]
          exact Int.dvd_add h3 (Int.dvd_refl _)
      · rintro ⟨h1, h2, k, hk⟩
        rcases eq_or_lt_of_le h1 with h | h
        · exact Or.inl h.symm
        · right
          have hk1 : 1 ≤ k := by
            by_contra hk0
            have : step * k ≤ 0 := Int.mul_nonpos_of_nonneg_of_nonpos (by omega) (by omega)
            omega
          have hge : step * 1 ≤ step * k := Int.mul_le_mul_of_nonneg_left hk1 (by omega)
          refine ⟨by omega, h2, k - 1, ?_⟩
          rw [Int.mul_sub, Int.mul_one]
          omega
    · rw [if_neg hlt]
      simp only [List.not_mem_nil, false_iff]
      intro h
      omega

/-- The indices of `for (i = lo; i < hi; i += step)` with a positive step. -/
theorem mem_for_indices (lo hi step j : Int) (hstep : 1 ≤ step) :
    j ∈ for_indices lo hi step ↔ (lo ≤ j ∧ j < hi ∧ step ∣ (j - lo)) :=
  mem_loop_indices hi step hstep _ lo j (le_refl _)

/-! ## What a prepared schedule holds -/

/-- The channel fields of a schedule that `prepare` stored for parameters with
`group ≥ 1`, at least one channel per group and a positive kernel area. -/
theorem prepared_ic_facts (m : machine) (e0 e : executor) (cp : conv2d_param)
    (hprep : prepare m e0 = some (RetCode.RC_SUCCESS, e)) (hcp : e.conv_param_ = some cp)
    (hg : 1 ≤ cp.group) (hc : 1 ≤ Int.tdiv cp.channels cp.group)
    (hk : 1 ≤ cp.kernel_h * cp.kernel_w) :
    e.schedule_param_.ic_per_gp = Int.tdiv cp.channels cp.group ∧
    e.schedule_param_.oc_per_gp = Int.tdiv cp.num_output cp.group ∧
    e.schedule_param_.padded_ic = (Int.tdiv cp.channels cp.group + 16 - 1) / 16 * 16 ∧
    e.schedule_param_.padded_oc = Int.tdiv (Int.tdiv cp.num_output cp.group + 16 - 1) 16 * 16 ∧
    0 < e.schedule_param_.ic_l2_blk ∧ (16 : Int) ∣ e.schedule_param_.ic_l2_blk ∧
    e.schedule_param_.ic_l2_blk ≤ e.schedule_param_.padded_ic ∧
    e.schedule_param_.ic_l2_cnt
      = (e.schedule_param_.padded_ic + e.schedule_param_.ic_l2_blk - 1)
          / e.schedule_param_.ic_l2_blk := by
  obtain ⟨cp', src, dst, sp0, hcp', _, _, hinit, hcal⟩ := prepare_schedule m e0 e hprep
  obtain ⟨rfl⟩ : some cp' = some cp := hcp'.symm.trans hcp
  have hinit' := init_preproc_param_ok cp e0.schedule_param_ (by omega)
  obtain ⟨rfl⟩ := hinit'.symm.trans hinit
  obtain ⟨hblk, hcnt, _, _, _, _, _, _, h1, h2, h3, h4⟩ :=
    cal_kernel_tunning_param_inv m cp src dst _ _ hcal
  obtain ⟨blk, p, hblk', hp, hpos, hdvd, hle⟩ := cal_ic_l2_blk_ok m.fa cp hg hc hk
  obtain ⟨rfl⟩ := hblk'.symm.trans hblk
  rw [round_up_eq_of_pos _ _ (by omega) (by decide)] at hp
  obtain ⟨rfl⟩ := hp
  have hpic : e.schedule_param_.padded_ic
      = (Int.tdiv cp.channels cp.group + 16 - 1) / 16 * 16 := by
    rw [h3]
    show Int.tdiv (Int.tdiv cp.channels cp.group + 16 - 1) 16 * 16 = _
    rw [Int.tdiv_eq_ediv (by omega) (by decide)]
  refine ⟨h1, h2, hpic, h4, hpos, hdvd, ?_, ?_⟩
  · rw [hpic]
    exact hle
  · have hcnt' : div_up (Int.tdiv (Int.tdiv cp.channels cp.group + 16 - 1) 16 * 16)
        e.schedule_param_.ic_l2_blk = some e.schedule_param_.ic_l2_cnt := hcnt
    rw [Int.tdiv_eq_ediv (by omega) (by decide), ← hpic,
      div_up_eq_of_pos _ _ (by rw [hpic]; omega) hpos] at hcnt'
    exact (Option.some.inj hcnt').symm

/-- The locals of an input-channel outer block, read back from `cal_ic_block`. -/
theorem cal_ic_block_inv (cp : conv2d_param) (sp : kernel_schedule_param) (c : exec_consts)
    (cvt_filter_ src_ dst_ : pointer) (sum_src_ : Option pointer) (mbl3 gpl3 icl2 : Int)
    (blk : ic_block)
    (h : cal_ic_block cp sp c cvt_filter_ src_ dst_ sum_src_ mbl3 gpl3 icl2 = some blk) :
    blk.kernel_flags = cal_kernel_flags c (decide (icl2 = 0))
      (decide (icl2 + sp.ic_l2_blk ≥ sp.ic_per_gp)) ∧
    blk.icl2_eff = min (sp.ic_per_gp - icl2) sp.ic_l2_blk ∧
    blk.base_src = src_.add (mbl3 * c.src_b_stride + gpl3 * c.src_g_stride
      + icl2 * c.src_h * c.src_w) ∧
    ∃ his, cal_history c dst_ sum_src_ (decide (icl2 = 0)) = some his ∧
      blk.base_his = his.1.add (mbl3 * his.2 + gpl3 * c.dst_g_stride) ∧
      blk.his_b_stride = his.2 := by
  simp only [cal_ic_block, Option.bind_eq_bind, Option.bind_eq_some, Option.pure_def,
    Option.some.injEq] at h
  obtain ⟨his, hhis, h⟩ := h
  rw [← h]
  exact ⟨rfl, rfl, rfl, his, hhis, rfl, rfl⟩

/-- A property that holds for the events of every iteration holds for the
events of the loop. -/
theorem for_loop_forall (P : event → Prop) (body : Int → Option (List event)) (hi step : Int)
    (hb : ∀ i evs, body i = some evs → ∀ ev ∈ evs, P ev) :
    ∀ (fuel : Nat) (i : Int) (evs : List event),
      for_loop body hi step fuel i = some evs → ∀ ev ∈ evs, P ev := by
  intro fuel
  induction fuel with
  | zero =>
    intro i evs h ev hev
    unfold for_loop at h
    by_cases hlt : i < hi
    · rw [if_pos hlt] at h
      exact absurd h (by simp)
    · rw [if_neg hlt] at h
      rw [← Option.some.inj h] at hev
      exact absurd hev (List.not_mem_nil _)
  | succ n ih =>
    intro i evs h ev hev
    unfold for_loop at h
    by_cases hlt : i < hi
    · rw [if_pos hlt] at h
      simp only [Option.bind_eq_bind, Option.bind_eq_some, Option.pure_def,
        Option.some.injEq] at h
      obtain ⟨head, hh, rest, hr, he⟩ := h
      rw [← he] at hev
      rcases List.mem_append.mp hev with h1 | h1
      · exact hb i head hh ev h1
      · exact ih (i + step) rest hr ev h1
    · rw [if_neg hlt] at h
      rw [← Option.some.inj h] at hev
      exact absurd hev (List.not_mem_nil _)

theorem for_range_forall (P : event → Prop) (lo hi step : Int)
    (body : Int → Option (List event))
    (hb : ∀ i evs, body i = some evs → ∀ ev ∈ evs, P ev) (evs : List event)
    (h : for_range lo hi step body = some evs) : ∀ ev ∈ evs, P ev :=
  for_loop_forall P body hi step hb _ lo evs h

/-- The window `[START, END)` stored for the input coordinate `i` of the first
tap: a tap `k` of the kernel is inside the window exactly when the input
coordinate `i + k * dilation` it reads is inside the source; the window is
inside the kernel. -/
theorem k_window (i src kernel d : Int) (hd : 1 ≤ d) (hsrc : 0 ≤ src) :
    ∃ ks ke, cal_k_start i ((kernel - 1) * d + 1) d = some ks ∧
      cal_k_end i src ((kernel - 1) * d + 1) d = some ke ∧
      (∀ k, 0 ≤ k → k < kernel →
        ((ks ≤ k ∧ k < ke) ↔ (0 ≤ i + k * d ∧ i + k * d < src))) ∧
      (0 ≤ kernel → 0 ≤ ks ∧ ks ≤ ke ∧ ke ≤ kernel) := by
  have hd0 : (0 : Int) < d := hd
  have hext : (kernel - 1) * d + 1 = kernel * d - d + 1 := by ring
  refine ⟨_, _, div_up_isSome _ _ (by omega), div_up_isSome _ _ (by omega), ?_, ?_⟩
  · intro k hk0 hk
    have hkd : k * d ≤ (kernel - 1) * d :=
      Int.mul_le_mul_of_nonneg_right (by omega) (le_of_lt hd0)
    have hkd0 : 0 ≤ k * d := Int.mul_nonneg hk0 (le_of_lt hd0)
    have hk1 : (k + 1) * d = k * d + d := by ring
    rw [Int.tdiv_eq_ediv (by omega) (le_of_lt hd0), Int.tdiv_eq_ediv (by omega) (le_of_lt hd0)]
    have hs : (min (max (0 - i) 0) ((kernel - 1) * d + 1) + d - 1) / d ≤ k ↔ 0 ≤ i + k * d := by
      rw [← Int.lt_add_one_iff, Int.ediv_lt_iff_lt_mul hd0, hk1]
      omega
    have he : k < (max (min (src - i) ((kernel - 1) * d + 1)) 0 + d - 1) / d ↔
        i + k * d < src := by
      rw [← Int.add_one_le_iff, Int.le_ediv_iff_mul_le hd0, hk1]
      omega
    rw [hs, he]
  · intro hker
    have hkd0 : 0 ≤ kernel * d := Int.mul_nonneg hker (le_of_lt hd0)
    have hk1 : (kernel + 1) * d = kernel * d + d := by ring
    rw [Int.tdiv_eq_ediv (by omega) (le_of_lt hd0), Int.tdiv_eq_ediv (by omega) (le_of_lt hd0)]
    refine ⟨Int.ediv_nonneg (by omega) (le_of_lt hd0),
      Int.ediv_le_ediv hd0 (by omega), ?_⟩
    rw [← Int.lt_add_one_iff, Int.ediv_lt_iff_lt_mul hd0, hk1]
    omega

/-- The extents of the dilated kernel among the locals of `execute`. -/
theorem mk_exec_consts_ext (cp : conv2d_param) (sp : kernel_schedule_param)
    (src_shape_ dst_shape_ : TensorShape) (sum_src_shape_ : Option TensorShape)
    (c : exec_consts)
    (h : mk_exec_consts cp sp src_shape_ dst_shape_ sum_src_shape_ = some c) :
    c.ext_kernel_h = (cp.kernel_h - 1) * cp.dilation_h + 1 ∧
    c.ext_kernel_w = (cp.kernel_w - 1) * cp.dilation_w + 1 := by
  simp only [mk_exec_consts, Option.bind_eq_bind, Option.pure_def, Option.bind_eq_some,
    Option.some.injEq] at h
  obtain ⟨r1, h1, r2, h2, r3, h3, r4, h4, h5⟩ := h
  rw [← h5]
  exact ⟨rfl, rfl⟩

/-- The events of a list of iterations that all return. -/
theorem seq_events_flatMap (body : Int → Option (List event)) (f : Int → List event) :
    ∀ (l : List Int), (∀ i ∈ l, body i = some (f i)) →
      seq_events body l = some (l.flatMap f) := by
  intro l
  induction l with
  | nil =>
    intro _
    rfl
  | cons a rest ih =>
    intro h
    unfold seq_events
    rw [h a (List.mem_cons_self _ _), ih (fun i hi => h i (List.mem_cons_of_mem _ hi))]
    rfl

/-- The window of kernel columns stored for a border column, in both branches
of `dilation_w == 1`. -/
theorem kw_window (cp : conv2d_param) (c : exec_consts) (iw : Int)
    (hext : c.ext_kernel_w = (cp.kernel_w - 1) * cp.dilation_w + 1)
    (hdw : 1 ≤ cp.dilation_w) (hsw : 0 ≤ c.src_w) :
    ∃ ks ke, cal_kw_start cp c iw = some ks ∧ cal_kw_end cp c iw = some ke ∧
      (∀ k, 0 ≤ k → k < cp.kernel_w →
        ((ks ≤ k ∧ k < ke) ↔ (0 ≤ iw + k * cp.dilation_w ∧ iw + k * cp.dilation_w < c.src_w))) ∧
      (0 ≤ cp.kernel_w → 0 ≤ ks ∧ ks ≤ ke ∧ ke ≤ cp.kernel_w) := by
  obtain ⟨ks, ke, hks, hke, hiff, hbd⟩ := k_window iw c.src_w cp.kernel_w cp.dilation_w hdw hsw
  rw [← hext] at hks hke
  refine ⟨ks, ke, ?_, ?_, hiff, hbd⟩
  · unfold cal_kw_start
    by_cases h1 : cp.dilation_w = 1
    · rw [if_pos h1, ← hks, h1]
      unfold cal_k_start
      rw [div_up_isSome _ _ (by decide), Int.tdiv_one]
      simp
    · rw [if_neg h1, hks]
  · unfold cal_kw_end
    by_cases h1 : cp.dilation_w = 1
    · rw [if_pos h1, ← hke, h1]
      unfold cal_k_end
      rw [div_up_isSome _ _ (by decide), Int.tdiv_one]
      simp
    · rw [if_neg h1, hke]

/-- C18. The kernel-window bounds `execute` stores select exactly the
in-bounds taps. With dilations of at least 1 and a source of non-negative
height and width: every output-width outer block of the output row `oh` starts
by storing `KH_START` and `KH_END` such that, for `ih = oh * stride_h - pad_h`
and every kernel row `k` in `[0, kernel_h)`, `KH_START <= k < KH_END` holds
exactly when `0 <= ih + k * dilation_h < src_h`; the border loop over
`[ow_start, ow_end)` returns, and its events are, column by column, the stores
of `KW_START` and `KW_END` and one `execute_border` call, where for
`iw = ow * stride_w - pad_w` and every kernel column `k` in `[0, kernel_w)`,
`KW_START <= k < KW_END` holds exactly when `0 <= iw + k * dilation_w < src_w`,
whether `dilation_w` is 1 or not. For a kernel extent that is not negative,
`0 <= START <= END <= kernel extent` in both directions. -/
theorem kernel_window (cp : conv2d_param) (sp : kernel_schedule_param)
    (src_shape_ dst_shape_ : TensorShape) (sum_src_shape_ : Option TensorShape)
    (c : exec_consts)
    (hconsts : mk_exec_consts cp sp src_shape_ dst_shape_ sum_src_shape_ = some c)
    (hdh : 1 ≤ cp.dilation_h) (hdw : 1 ≤ cp.dilation_w)
    (hsh : 0 ≤ src_shape_.GetDim 2) (hsw : 0 ≤ src_shape_.GetDim 3) :
    (∀ (blk : ic_block) (cvt_bias_ : pointer) (gpl3 g b ocl2 oh owl2 : Int)
        (evs : List event),
      ow_block cp sp c blk cvt_bias_ gpl3 g b ocl2 oh owl2 = some evs →
      ∃ kh_start kh_end calls,
        evs = event.pick ker_p_def.KH_START_IDX (ker_value.int kh_start)
          :: event.pick ker_p_def.KH_END_IDX (ker_value.int kh_end) :: calls ∧
        (∀ k, 0 ≤ k → k < cp.kernel_h →
          ((kh_start ≤ k ∧ k < kh_end) ↔
            (0 ≤ (oh * cp.stride_h - cp.pad_h) + k * cp.dilation_h ∧
              (oh * cp.stride_h - cp.pad_h) + k * cp.dilation_h < src_shape_.GetDim 2))) ∧
        (0 ≤ cp.kernel_h → 0 ≤ kh_start ∧ kh_start ≤ kh_end ∧ kh_end ≤ cp.kernel_h)) ∧
    (∃ kw_start kw_end : Int → Int,
      (∀ (oc_reg ow_start ow_end : Int),
        border_loop cp sp c oc_reg ow_start ow_end
          = some ((for_indices ow_start ow_end 1).flatMap (fun ow =>
              [event.pick ker_p_def.KW_START_IDX (ker_value.int (kw_start ow)),
               event.pick ker_p_def.KW_END_IDX (ker_value.int (kw_end ow)),
               event.execute_border sp.use_nt_store oc_reg]))) ∧
      (∀ ow k, 0 ≤ k → k < cp.kernel_w →
        ((kw_start ow ≤ k ∧ k < kw_end ow) ↔
          (0 ≤ (ow * cp.stride_w - cp.pad_w) + k * cp.dilation_w ∧
            (ow * cp.stride_w - cp.pad_w) + k * cp.dilation_w < src_shape_.GetDim 3))) ∧
      (0 ≤ cp.kernel_w →
        ∀ ow, 0 ≤ kw_start ow ∧ kw_start ow ≤ kw_end ow ∧ kw_end ow ≤ cp.kernel_w)) := by
  obtain ⟨_, hsrc_h, hsrc_w, _⟩ :=
    mk_exec_consts_fields cp sp src_shape_ dst_shape_ sum_src_shape_ c hconsts
  obtain ⟨hexth, hextw⟩ := mk_exec_consts_ext cp sp src_shape_ dst_shape_ sum_src_shape_ c hconsts
  rw [← hsrc_h] at hsh
  rw [← hsrc_w] at hsw
  rw [← hsrc_h, ← hsrc_w]
  constructor
  · intro blk cvt_bias_ gpl3 g b ocl2 oh owl2 evs hevs
    obtain ⟨ks, ke, hks, hke, hiff, hbd⟩ :=
      k_window (oh * cp.stride_h - cp.pad_h) c.src_h cp.kernel_h cp.dilation_h hdh hsh
    rw [← hexth] at hks hke
    simp only [ow_block, hks, hke, Option.bind_eq_bind, Option.some_bind, Option.bind_eq_some,
      Option.pure_def, Option.some.injEq] at hevs
    obtain ⟨w, _, calls, _, hevs⟩ := hevs
    exact ⟨ks, ke, calls, by rw [← hevs]; rfl, hiff, hbd⟩
  · have hw := fun ow => kw_window cp c (ow * cp.stride_w - cp.pad_w) hextw hdw hsw
    choose kw_start kw_end hs he hiff hbd using hw
    refine ⟨kw_start, kw_end, ?_, hiff, fun hker ow => hbd ow hker⟩
    intro oc_reg ow_start ow_end
    unfold border_loop
    rw [for_range_eq_seq _ _ _ _ (le_refl _)]
    refine seq_events_flatMap _ _ _ (fun ow _ => ?_)
    simp only [hs, he, Option.bind_eq_bind, Option.some_bind, Option.pure_def]

theorem kernel_window_witness :
    ∃ kw_start kw_end : Int → Int,
      (∀ (oc_reg ow_start ow_end : Int),
        border_loop example_param example_schedule example_consts oc_reg ow_start ow_end
          = some ((for_indices ow_start ow_end 1).flatMap (fun ow =>
              [event.pick ker_p_def.KW_START_IDX (ker_value.int (kw_start ow)),
               event.pick ker_p_def.KW_END_IDX (ker_value.int (kw_end ow)),
               event.execute_border example_schedule.use_nt_store oc_reg]))) ∧
      (∀ ow k, 0 ≤ k → k < example_param.kernel_w →
        ((kw_start ow ≤ k ∧ k < kw_end ow) ↔
          (0 ≤ (ow * example_param.stride_w - example_param.pad_w)
              + k * example_param.dilation_w ∧
            (ow * example_param.stride_w - example_param.pad_w)
              + k * example_param.dilation_w < example_src_shape.GetDim 3))) ∧
      (0 ≤ example_param.kernel_w →
        ∀ ow, 0 ≤ kw_start ow ∧ kw_start ow ≤ kw_end ow ∧
          kw_end ow ≤ example_param.kernel_w) :=
  (kernel_window example_param example_schedule example_src_shape example_dst_shape none
    example_consts (by rfl) (by decide) (by decide) (by decide) (by decide)).2

/-! ## Output-width dispatch -/

/-- The events of a list of iterations are the events of its iterations. -/
theorem mem_seq_events (body : Int → Option (List event)) (ev : event) :
    ∀ (l : List Int) (evs : List event), seq_events body l = some evs →
      (ev ∈ evs ↔ ∃ i ∈ l, ∃ r, body i = some r ∧ ev ∈ r) := by
  intro l
  induction l with
  | nil =>
    intro evs h
    unfold seq_events at h
    rw [← Option.some.inj h]
    simp
  | cons a rest ih =>
    intro evs h
    unfold seq_events at h
    simp only [Option.bind_eq_bind, Option.bind_eq_some, Option.pure_def,
      Option.some.injEq] at h
    obtain ⟨head, hh, tail, ht, he⟩ := h
    rw [← he, List.mem_append, ih tail ht]
    constructor
    · rintro (h1 | ⟨i, hi, r, hr, h1⟩)
      · exact ⟨a, List.mem_cons_self _ _, head, hh, h1⟩
      · exact ⟨i, List.mem_cons_of_mem _ hi, r, hr, h1⟩
    · rintro ⟨i, hi, r, hr, h1⟩
      rcases List.mem_cons.mp hi with rfl | hi
      · rw [hh] at hr
        rw [Option.some.inj hr]
        exact Or.inl h1
      · exact Or.inr ⟨i, hi, r, hr, h1⟩

/-- The events of a loop with step 1 are the events of the iterations
`lo <= i < hi`. -/
theorem mem_for_range_one (lo hi : Int) (body : Int → Option (List event)) (ev : event)
    (evs : List event) (h : for_range lo hi 1 body = some evs) :
    ev ∈ evs ↔ ∃ i, lo ≤ i ∧ i < hi ∧ ∃ r, body i = some r ∧ ev ∈ r := by
  rw [for_range_eq_seq _ _ _ _ (le_refl _)] at h
  rw [mem_seq_events body ev _ evs h]
  constructor
  · rintro ⟨i, hmem, r, hr, h1⟩
    obtain ⟨h2, h3, _⟩ := (mem_for_indices lo hi 1 i (le_refl _)).mp hmem
    exact ⟨i, h2, h3, r, hr, h1⟩
  · rintro ⟨i, h2, h3, r, hr, h1⟩
    exact ⟨i, (mem_for_indices lo hi 1 i (le_refl _)).mpr ⟨h2, h3, one_dvd _⟩, r, hr, h1⟩

/-- The events of a loop with step 1 whose iterations all return. -/
theorem mem_for_range_total (lo hi : Int) (body : Int → Option (List event))
    (f : Int → List event) (hf : ∀ i, body i = some (f i)) (ev : event)
    (evs : List event) (h : for_range lo hi 1 body = some evs) :
    ev ∈ evs ↔ ∃ i, lo ≤ i ∧ i < hi ∧ ev ∈ f i := by
  rw [mem_for_range_one lo hi body ev evs h]
  constructor
  · rintro ⟨i, h2, h3, r, hr, h1⟩
    rw [hf i] at hr
    rw [← Option.some.inj hr] at h1
    exact ⟨i, h2, h3, h1⟩
  · rintro ⟨i, h2, h3, h1⟩
    exact ⟨i, h2, h3, f i, hf i, h1⟩

/-- The events of the padding pre-pass: the three calls of every row
`(g, b, icb, ih)` of the tile, and nothing else. -/
theorem prepad_pass_events (cp : conv2d_param) (sp : kernel_schedule_param) (c : exec_consts)
    (base_src src_trans : pointer) (icl2_eff gpl3_eff mbl3_eff : Int) :
    ∃ evs icb_cnt,
      prepad_pass cp sp c base_src src_trans icl2_eff gpl3_eff mbl3_eff = some evs ∧
      div_up icl2_eff IC_DATA_BLK = some icb_cnt ∧
      ∀ ev, ev ∈ evs ↔ ∃ g b icb ih, (0 ≤ g ∧ g < gpl3_eff) ∧ (0 ≤ b ∧ b < mbl3_eff) ∧
        (0 ≤ icb ∧ icb < icb_cnt) ∧ (0 ≤ ih ∧ ih < c.src_h) ∧
        ev ∈ prepad_row cp c (base_src.add (base_src_row c g b icb ih))
          (src_trans.add (src_trans_row (cal_src_trans_strides cp sp c) g b icb ih)) := by
  obtain ⟨evs, hevs⟩ := prepad_pass_isSome cp sp c base_src src_trans icl2_eff gpl3_eff mbl3_eff
  have hcnt := div_up_isSome icl2_eff IC_DATA_BLK (by decide)
  refine ⟨evs, _, hevs, hcnt, fun ev => ?_⟩
  simp only [prepad_pass, hcnt, Option.bind_eq_bind, Option.some_bind] at hevs
  rw [mem_for_range_one _ _ _ ev evs hevs]
  constructor
  · rintro ⟨g, hg0, hg1, r1, hr1, h1⟩
    rw [mem_for_range_one _ _ _ ev r1 hr1] at h1
    obtain ⟨b, hb0, hb1, r2, hr2, h2⟩ := h1
    rw [mem_for_range_one _ _ _ ev r2 hr2] at h2
    obtain ⟨icb, hi0, hi1, r3, hr3, h3⟩ := h2
    rw [mem_for_range_total _ _ _ _ (fun _ => rfl) ev r3 hr3] at h3
    obtain ⟨ih, hh0, hh1, h4⟩ := h3
    exact ⟨g, b, icb, ih, ⟨hg0, hg1⟩, ⟨hb0, hb1⟩, ⟨hi0, hi1⟩, ⟨hh0, hh1⟩, h4⟩
  · rintro ⟨g, b, icb, ih, ⟨hg0, hg1⟩, ⟨hb0, hb1⟩, ⟨hi0, hi1⟩, ⟨hh0, hh1⟩, h4⟩
    obtain ⟨r3, hr3⟩ := for_range_isSome 0 c.src_h 1 (fun ih =>
      pure (prepad_row cp c (base_src.add (base_src_row c g b icb ih))
        (src_trans.add (src_trans_row (cal_src_trans_strides cp sp c) g b icb ih))))
      (Or.inr (le_refl _)) (fun _ _ _ => ⟨_, rfl⟩)
    obtain ⟨r2, hr2⟩ := for_range_isSome 0 (Int.tdiv (icl2_eff + IC_DATA_BLK - 1) IC_DATA_BLK) 1
      (fun icb => for_range 0 c.src_h 1 (fun ih =>
        pure (prepad_row cp c (base_src.add (base_src_row c g b icb ih))
          (src_trans.add (src_trans_row (cal_src_trans_strides cp sp c) g b icb ih)))))
      (Or.inr (le_refl _)) (fun _ _ _ =>
        for_range_isSome _ _ _ _ (Or.inr (le_refl _)) (fun _ _ _ => ⟨_, rfl⟩))
    obtain ⟨r1, hr1⟩ := for_range_isSome 0 mbl3_eff 1
      (fun b => for_range 0 (Int.tdiv (icl2_eff + IC_DATA_BLK - 1) IC_DATA_BLK) 1
        (fun icb => for_range 0 c.src_h 1 (fun ih =>
          pure (prepad_row cp c (base_src.add (base_src_row c g b icb ih))
            (src_trans.add (src_trans_row (cal_src_trans_strides cp sp c) g b icb ih))))))
      (Or.inr (le_refl _)) (fun _ _ _ =>
        for_range_isSome _ _ _ _ (Or.inr (le_refl _)) (fun _ _ _ =>
          for_range_isSome _ _ _ _ (Or.inr (le_refl _)) (fun _ _ _ => ⟨_, rfl⟩)))
    refine ⟨g, hg0, hg1, r1, hr1, ?_⟩
    rw [mem_for_range_one _ _ _ ev r1 hr1]
    refine ⟨b, hb0, hb1, r2, hr2, ?_⟩
    rw [mem_for_range_one _ _ _ ev r2 hr2]
    refine ⟨icb, hi0, hi1, r3, hr3, ?_⟩
    rw [mem_for_range_total _ _ _ _ (fun _ => rfl) ev r3 hr3]
    exact ⟨ih, hh0, hh1, h4⟩

/-- A two-digit number with digit `b` below the radix `B`. -/
theorem radix_bound (a A b B : Int) (ha : 0 ≤ a) (haA : a < A) (hb : 0 ≤ b) (hbB : b < B) :
    0 ≤ a * B + b ∧ a * B + b < A * B := by
  have h1 : (a + 1) * B ≤ A * B := Int.mul_le_mul_of_nonneg_right (by omega) (by omega)
  have h0 : 0 ≤ a * B := Int.mul_nonneg ha (by omega)
  rw [Int.add_mul, Int.one_mul] at h1
  constructor <;> omega

/-- The digits of a two-digit number are determined by it. -/
theorem radix_inj (a a2 b b2 B : Int) (hb : 0 ≤ b) (hbB : b < B) (hb2 : 0 ≤ b2)
    (hb2B : b2 < B) (h : a * B + b = a2 * B + b2) : a = a2 ∧ b = b2 := by
  have hB : B ≠ 0 := by omega
  have h1 : (b + a * B) / B = a := by
    rw [Int.add_mul_ediv_right _ _ hB, Int.ediv_eq_zero_of_lt hb hbB, Int.zero_add]
  have h2 : (b2 + a2 * B) / B = a2 := by
    rw [Int.add_mul_ediv_right _ _ hB, Int.ediv_eq_zero_of_lt hb2 hb2B, Int.zero_add]
  have h3 : a = a2 := by
    rw [← h1, ← h2, Int.add_comm b, Int.add_comm b2, h]
  subst h3
  exact ⟨rfl, by omega⟩

/-- The offset of a scratch row is its row number, counted over
`(g, b, icb, ih)` in this order, times the row length. -/
theorem src_trans_row_eq (cp : conv2d_param) (sp : kernel_schedule_param) (c : exec_consts)
    (K : Int) (hK : sp.ic_l2_blk = 16 * K) (g b icb ih : Int) :
    src_trans_row (cal_src_trans_strides cp sp c) g b icb ih
      = (((g * sp.mb_l3_blk + b) * K + icb) * c.src_h + ih)
          * ((c.src_w + 2 * cp.pad_w) * 16) := by
  simp only [src_trans_row, cal_src_trans_strides, IC_DATA_BLK, hK]
  ring

/-- The row number of an index tuple is below the number of rows. -/
theorem row_number_bound (gp mb K h g b icb ih : Int)
    (hg : 0 ≤ g ∧ g < gp) (hb : 0 ≤ b ∧ b < mb) (hi : 0 ≤ icb ∧ icb < K)
    (hh : 0 ≤ ih ∧ ih < h) :
    0 ≤ ((g * mb + b) * K + icb) * h + ih ∧
      ((g * mb + b) * K + icb) * h + ih < gp * mb * K * h := by
  obtain ⟨h1, h2⟩ := radix_bound g gp b mb hg.1 hg.2 hb.1 hb.2
  obtain ⟨h3, h4⟩ := radix_bound (g * mb + b) (gp * mb) icb K h1 h2 hi.1 hi.2
  exact radix_bound ((g * mb + b) * K + icb) (gp * mb * K) ih h h3 h4 hh.1 hh.2

/-- Index tuples with the same row number are the same tuple. -/
theorem row_number_inj (mb K h g b icb ih g2 b2 icb2 ih2 : Int)
    (hb : 0 ≤ b ∧ b < mb) (hi : 0 ≤ icb ∧ icb < K) (hh : 0 ≤ ih ∧ ih < h)
    (hb2 : 0 ≤ b2 ∧ b2 < mb) (hi2 : 0 ≤ icb2 ∧ icb2 < K) (hh2 : 0 ≤ ih2 ∧ ih2 < h)
    (heq : ((g * mb + b) * K + icb) * h + ih = ((g2 * mb + b2) * K + icb2) * h + ih2) :
    g = g2 ∧ b = b2 ∧ icb = icb2 ∧ ih = ih2 := by
  obtain ⟨h1, h2⟩ := radix_inj _ _ ih ih2 h hh.1 hh.2 hh2.1 hh2.2 heq
  obtain ⟨h3, h4⟩ := radix_inj _ _ icb icb2 K hi.1 hi.2 hi2.1 hi2.2 h1
  obtain ⟨h5, h6⟩ := radix_inj _ _ b b2 mb hb.1 hb.2 hb2.1 hb2.2 h3
  exact ⟨h5, h6, h4, h2⟩

/-- Rows of length `L` with different row numbers do not overlap. -/
theorem rows_disjoint (r r2 L : Int) (hL : 0 ≤ L) (hne : r ≠ r2) :
    r * L + L ≤ r2 * L ∨ r2 * L + L ≤ r * L := by
  rcases lt_or_gt_of_ne hne with h | h
  · left
    have := Int.mul_le_mul_of_nonneg_right (show r + 1 ≤ r2 by omega) hL
    rw [Int.add_mul, Int.one_mul] at this
    exact this
  · right
    have := Int.mul_le_mul_of_nonneg_right (show r2 + 1 ≤ r by omega) hL
    rw [Int.add_mul, Int.one_mul] at this
    exact this

/-- The number of 16-channel blocks of an input-channel outer block is at most
`ic_l2_blk / 16`. -/
theorem icb_lt_of_le (x K icb : Int) (hx : x ≤ 16 * K) (h0 : 0 ≤ icb)
    (hlt : icb < Int.tdiv (x + IC_DATA_BLK - 1) IC_DATA_BLK) : icb < K := by
  unfold IC_DATA_BLK at hlt
  rcases lt_or_le (x + 16 - 1) 0 with h | h
  · have := tdiv_nonpos_of_lt (x + 16 - 1) 16 (by decide) (by omega)
    omega
  · rw [Int.tdiv_eq_ediv h (by decide)] at hlt
    omega

/-- The scratch rows of a tile: each lies inside the first
`src_h * (src_w + 2 * pad_w) * mb_l3_blk * gp_l3_blk * ic_l2_blk` elements of
the scratch buffer, and two of them overlap only when they are the row of the
same index tuple. -/
theorem scratch_row_facts (cp : conv2d_param) (sp : kernel_schedule_param) (c : exec_consts)
    (K : Int) (hK : sp.ic_l2_blk = 16 * K) (hW : 0 ≤ c.src_w + 2 * cp.pad_w)
    (g b icb ih : Int) (hg : 0 ≤ g ∧ g < sp.gp_l3_blk) (hb : 0 ≤ b ∧ b < sp.mb_l3_blk)
    (hi : 0 ≤ icb ∧ icb < K) (hh : 0 ≤ ih ∧ ih < c.src_h) :
    0 ≤ src_trans_row (cal_src_trans_strides cp sp c) g b icb ih ∧
    src_trans_row (cal_src_trans_strides cp sp c) g b icb ih
        + (c.src_w + 2 * cp.pad_w) * 16
      ≤ c.src_h * (c.src_w + 2 * cp.pad_w) * sp.mb_l3_blk * sp.gp_l3_blk * sp.ic_l2_blk ∧
    ∀ g2 b2 icb2 ih2 : Int, (0 ≤ g2 ∧ g2 < sp.gp_l3_blk) → (0 ≤ b2 ∧ b2 < sp.mb_l3_blk) →
      (0 ≤ icb2 ∧ icb2 < K) → (0 ≤ ih2 ∧ ih2 < c.src_h) →
      (src_trans_row (cal_src_trans_strides cp sp c) g b icb ih
          + (c.src_w + 2 * cp.pad_w) * 16
        ≤ src_trans_row (cal_src_trans_strides cp sp c) g2 b2 icb2 ih2 ∨
       src_trans_row (cal_src_trans_strides cp sp c) g2 b2 icb2 ih2
          + (c.src_w + 2 * cp.pad_w) * 16
        ≤ src_trans_row (cal_src_trans_strides cp sp c) g b icb ih ∨
       (g = g2 ∧ b = b2 ∧ icb = icb2 ∧ ih = ih2)) := by
  have hL : 0 ≤ (c.src_w + 2 * cp.pad_w) * 16 := Int.mul_nonneg hW (by decide)
  obtain ⟨hr0, hr1⟩ := row_number_bound sp.gp_l3_blk sp.mb_l3_blk K c.src_h g b icb ih
    hg hb hi hh
  rw [src_trans_row_eq cp sp c K hK]
  refine ⟨Int.mul_nonneg hr0 hL, ?_, ?_⟩
  · have h1 := Int.mul_le_mul_of_nonneg_right
      (show ((g * sp.mb_l3_blk + b) * K + icb) * c.src_h + ih + 1
        ≤ sp.gp_l3_blk * sp.mb_l3_blk * K * c.src_h by omega) hL
    have h2 : sp.gp_l3_blk * sp.mb_l3_blk * K * c.src_h * ((c.src_w + 2 * cp.pad_w) * 16)
        = c.src_h * (c.src_w + 2 * cp.pad_w) * sp.mb_l3_blk * sp.gp_l3_blk * sp.ic_l2_blk := by
      rw [hK]
      ring
    rw [Int.add_mul, Int.one_mul, h2] at h1
    exact h1
  · intro g2 b2 icb2 ih2 _ hb2 hi2 hh2
    rw [src_trans_row_eq cp sp c K hK]
    by_cases hne : ((g * sp.mb_l3_blk + b) * K + icb) * c.src_h + ih
        = ((g2 * sp.mb_l3_blk + b2) * K + icb2) * c.src_h + ih2
    · exact Or.inr (Or.inr (row_number_inj _ _ _ _ _ _ _ _ _ _ _ hb hi hh hb2 hi2 hh2 hne))
    · rcases rows_disjoint _ _ _ hL hne with h | h
      · exact Or.inl h
      · exact Or.inr (Or.inl h)

/-- C19. On an executor that `prepare` has set up with the pre-pad policy (for
well-formed parameters, a horizontal padding and a source width that are not
negative, and a scratch size that fits `uint64_t`), the padding pre-pass of
every outer tile returns, and its events are exactly the three calls of the
rows `(g, b, icb, ih)`, `0 <= g < gpl3_eff`, `0 <= b < mbl3_eff`,
`0 <= icb < div_up(icl2_eff, IC_DATA_BLK)`, `0 <= ih < src_h`: a zero fill of
`pad_w * IC_DATA_BLK` elements at the offset
`src_trans_row = g * g_stride + b * b_stride + icb * icb_stride + ih * h_stride`
of the scratch buffer, a copy of `src_w * IC_DATA_BLK` elements behind it and a
zero fill of `pad_w * IC_DATA_BLK` elements behind that, which together span
`(src_w + 2 * pad_w) * IC_DATA_BLK` elements. Every row starts at a
non-negative offset and ends within the `cal_temp_buffer_size()` bytes of the
buffer, and the rows of two different index tuples do not overlap. -/
theorem scratch_rows (m : machine) (e0 e : executor) (cp : conv2d_param)
    (src_shape_ dst_shape_ : TensorShape) (c : exec_consts)
    (hprep : prepare m e0 = some (RetCode.RC_SUCCESS, e))
    (hcp : e.conv_param_ = some cp) (hsrc : e.src_shape_ = some src_shape_)
    (hg : 1 ≤ cp.group) (hc : 1 ≤ Int.tdiv cp.channels cp.group)
    (hk : 1 ≤ cp.kernel_h * cp.kernel_w)
    (hpol : e.schedule_param_.padding_policy = PADDING_POLICY_PREPAD)
    (hconsts : mk_exec_consts cp e.schedule_param_ src_shape_ dst_shape_ e.sum_src_shape_
      = some c)
    (hpad : 0 ≤ cp.pad_w) (hsw : 0 ≤ src_shape_.GetDim 3)
    (hfit : src_shape_.GetDim 2 * (src_shape_.GetDim 3 + 2 * cp.pad_w)
      * e.schedule_param_.mb_l3_blk * e.schedule_param_.gp_l3_blk
      * e.schedule_param_.ic_l2_blk * 4 < 2 ^ 64) :
    ∃ bytes, cal_temp_buffer_size e = some bytes ∧
      ∀ (base_src src_trans : pointer) (mbl3 gpl3 icl2 : Int),
        ∃ evs icb_cnt,
          prepad_pass cp e.schedule_param_ c base_src src_trans
            (min (e.schedule_param_.ic_per_gp - icl2) e.schedule_param_.ic_l2_blk)
            (min (cp.group - gpl3) e.schedule_param_.gp_l3_blk)
            (min (c.batch - mbl3) e.schedule_param_.mb_l3_blk) = some evs ∧
          div_up (min (e.schedule_param_.ic_per_gp - icl2) e.schedule_param_.ic_l2_blk)
            IC_DATA_BLK = some icb_cnt ∧
          (∀ ev, ev ∈ evs ↔ ∃ g b icb ih,
            (0 ≤ g ∧ g < min (cp.group - gpl3) e.schedule_param_.gp_l3_blk) ∧
            (0 ≤ b ∧ b < min (c.batch - mbl3) e.schedule_param_.mb_l3_blk) ∧
            (0 ≤ icb ∧ icb < icb_cnt) ∧ (0 ≤ ih ∧ ih < c.src_h) ∧
            ev ∈ [event.memset32_avx
                    (src_trans.add (src_trans_row
                      (cal_src_trans_strides cp e.schedule_param_ c) g b icb ih))
                    (cp.pad_w * IC_DATA_BLK),
                  event.memcpy32_avx
                    ((src_trans.add (src_trans_row
                      (cal_src_trans_strides cp e.schedule_param_ c) g b icb ih)).add
                      (cp.pad_w * IC_DATA_BLK))
                    (base_src.add (base_src_row c g b icb ih)) (c.src_w * IC_DATA_BLK),
                  event.memset32_avx
                    (((src_trans.add (src_trans_row
                      (cal_src_trans_strides cp e.schedule_param_ c) g b icb ih)).add
                      (cp.pad_w * IC_DATA_BLK)).add (c.src_w * IC_DATA_BLK))
                    (cp.pad_w * IC_DATA_BLK)]) ∧
          (∀ g b icb ih : Int,
            (0 ≤ g ∧ g < min (cp.group - gpl3) e.schedule_param_.gp_l3_blk) →
            (0 ≤ b ∧ b < min (c.batch - mbl3) e.schedule_param_.mb_l3_blk) →
            (0 ≤ icb ∧ icb < icb_cnt) → (0 ≤ ih ∧ ih < c.src_h) →
            0 ≤ src_trans_row (cal_src_trans_strides cp e.schedule_param_ c) g b icb ih ∧
            (src_trans_row (cal_src_trans_strides cp e.schedule_param_ c) g b icb ih
              + (c.src_w + 2 * cp.pad_w) * IC_DATA_BLK) * 4 ≤ bytes ∧
            ∀ g2 b2 icb2 ih2 : Int,
              (0 ≤ g2 ∧ g2 < min (cp.group - gpl3) e.schedule_param_.gp_l3_blk) →
              (0 ≤ b2 ∧ b2 < min (c.batch - mbl3) e.schedule_param_.mb_l3_blk) →
              (0 ≤ icb2 ∧ icb2 < icb_cnt) → (0 ≤ ih2 ∧ ih2 < c.src_h) →
              ¬ (g = g2 ∧ b = b2 ∧ icb = icb2 ∧ ih = ih2) →
              (src_trans_row (cal_src_trans_strides cp e.schedule_param_ c) g b icb ih
                  + (c.src_w + 2 * cp.pad_w) * IC_DATA_BLK
                ≤ src_trans_row (cal_src_trans_strides cp e.schedule_param_ c)
                    g2 b2 icb2 ih2 ∨
               src_trans_row (cal_src_trans_strides cp e.schedule_param_ c) g2 b2 icb2 ih2
                  + (c.src_w + 2 * cp.pad_w) * IC_DATA_BLK
                ≤ src_trans_row (cal_src_trans_strides cp e.schedule_param_ c)
                    g b icb ih)) := by
  obtain ⟨_, _, _, _, _, ⟨K, hK⟩, _, _⟩ := prepared_ic_facts m e0 e cp hprep hcp hg hc hk
  obtain ⟨_, hsh, hsw', _, _, _, _, _, _, hstride, _⟩ :=
    mk_exec_consts_fields cp e.schedule_param_ src_shape_ dst_shape_ e.sum_src_shape_ c hconsts
  rw [← hsh, ← hsw'] at hfit
  rw [← hsw'] at hsw hstride
  have hW : 0 ≤ c.src_w + 2 * cp.pad_w := by omega
  have hbytes := cal_temp_buffer_size_prepad e cp src_shape_ hcp hsrc hpol
  rw [← hsh, ← hsw'] at hbytes
  refine ⟨_, hbytes, ?_⟩
  intro base_src src_trans mbl3 gpl3 icl2
  obtain ⟨evs, icb_cnt, hevs, hcnt, hmem⟩ := prepad_pass_events cp e.schedule_param_ c base_src
    src_trans (min (e.schedule_param_.ic_per_gp - icl2) e.schedule_param_.ic_l2_blk)
    (min (cp.group - gpl3) e.schedule_param_.gp_l3_blk)
    (min (c.batch - mbl3) e.schedule_param_.mb_l3_blk)
  refine ⟨evs, icb_cnt, hevs, hcnt, ?_, ?_⟩
  · intro ev
    rw [hmem ev]
    unfold prepad_row
    rw [hstride]
  · intro g b icb ih hg1 hb1 hi1 hh1
    have hcntv := hcnt.symm.trans (div_up_isSome _ IC_DATA_BLK (by decide))
    rw [Option.some.injEq] at hcntv
    have hicb : ∀ x, 0 ≤ x ∧ x < icb_cnt → 0 ≤ x ∧ x < K := by
      intro x hx
      rw [hcntv] at hx
      exact ⟨hx.1, icb_lt_of_le _ K x (by omega) hx.1 hx.2⟩
    obtain ⟨f1, f2, f3⟩ := scratch_row_facts cp e.schedule_param_ c K hK hW g b icb ih
      ⟨hg1.1, by omega⟩ ⟨hb1.1, by omega⟩ (hicb icb hi1) hh1
    have h16 : IC_DATA_BLK = 16 := rfl
    rw [h16]
    refine ⟨f1, ?_, ?_⟩
    · rw [to_uint64_of_fits _ (by omega) hfit]
      omega
    · intro g2 b2 icb2 ih2 hg2 hb2 hi2 hh2 hne
      rcases f3 g2 b2 icb2 ih2 ⟨hg2.1, by omega⟩ ⟨hb2.1, by omega⟩ (hicb icb2 hi2) hh2
        with h | h | h
      · exact Or.inl h
      · exact Or.inr h
      · exact absurd h hne

theorem scratch_rows_witness :
    ∃ bytes,
      cal_temp_buffer_size { example_executor with schedule_param_ := example_schedule }
        = some bytes ∧
      ∀ ih : Int, 0 ≤ ih ∧ ih < example_consts.src_h →
        0 ≤ src_trans_row
          (cal_src_trans_strides example_param example_schedule example_consts) 0 0 0 ih ∧
        (src_trans_row
            (cal_src_trans_strides example_param example_schedule example_consts) 0 0 0 ih
          + (example_consts.src_w + 2 * example_param.pad_w) * IC_DATA_BLK) * 4 ≤ bytes := by
  obtain ⟨bytes, hb, h⟩ := scratch_rows example_machine example_executor
    { example_executor with schedule_param_ := example_schedule } example_param
    example_src_shape example_dst_shape example_consts (by rfl) rfl rfl (by decide)
    (by decide) (by decide) rfl (by rfl) (by decide) (by decide) (by decide)
  refine ⟨bytes, hb, fun ih hih => ?_⟩
  obtain ⟨evs, cnt, _, hcnt, _, hrows⟩ :=
    h { buf := buffer.src, off := 0 } { buf := buffer.temp_buffer, off := 0 } 0 0 0
  have hc1 : some (1 : Int) = some cnt := hcnt
  have h1 := hrows 0 0 0 ih (by decide) (by decide)
    (by rw [← Option.some.inj hc1]; decide) hih
  exact ⟨h1.1, h1.2.1⟩

/-! ## Padding pre-pass: the contents of the scratch buffer -/

/-- A sequence of calls of the copy helpers returns. -/
theorem run_copies_isSome {α : Type} [Zero α] :
    ∀ (evs : List event) (mem : pointer → α),
      (∀ ev ∈ evs, (∃ dst n, ev = event.memset32_avx dst n) ∨
        (∃ dst s n, ev = event.memcpy32_avx dst s n)) →
      ∃ mem1, run_copies mem evs = some mem1 := by
  intro evs
  induction evs with
  | nil =>
    intro mem _
    exact ⟨mem, rfl⟩
  | cons ev rest ih =>
    intro mem h
    have hrest : ∀ ev2 ∈ rest, (∃ dst n, ev2 = event.memset32_avx dst n) ∨
        (∃ dst s n, ev2 = event.memcpy32_avx dst s n) :=
      fun ev2 h2 => h ev2 (List.mem_cons_of_mem _ h2)
    rcases h ev (List.mem_cons_self _ _) with ⟨dst, n, rfl⟩ | ⟨dst, s, n, rfl⟩
    · exact ih _ hrest
    · exact ih _ hrest

/-- The value at `q` after a sequence of calls of the copy helpers that write
only into the memory object `T` and read only outside of it: when every call
that covers `q` stores `v` there, and `q` held `v` before or one of the calls
covers it, `q` holds `v` afterwards. Memory outside of `T` is left alone. -/
theorem run_copies_value {α : Type} [Zero α] (T : buffer) (q : pointer) (v : α)
    (mem0 : pointer → α) (hq : q.buf = T) :
    ∀ (evs : List event) (mem mem1 : pointer → α),
      run_copies mem evs = some mem1 →
      (∀ p, p.buf ≠ T → mem p = mem0 p) →
      (∀ ev ∈ evs,
        (∃ dst n, ev = event.memset32_avx dst n ∧ dst.buf = T ∧
          (dst.off ≤ q.off ∧ q.off < dst.off + n → v = 0)) ∨
        (∃ dst s n, ev = event.memcpy32_avx dst s n ∧ dst.buf = T ∧ s.buf ≠ T ∧
          (dst.off ≤ q.off ∧ q.off < dst.off + n → mem0 (s.add (q.off - dst.off)) = v))) →
      (∀ p, p.buf ≠ T → mem1 p = mem0 p) ∧
      ((mem q = v ∨ ∃ ev ∈ evs,
          (∃ dst n, ev = event.memset32_avx dst n ∧
            dst.off ≤ q.off ∧ q.off < dst.off + n) ∨
          (∃ dst s n, ev = event.memcpy32_avx dst s n ∧
            dst.off ≤ q.off ∧ q.off < dst.off + n)) → mem1 q = v) := by
  intro evs
  induction evs with
  | nil =>
    intro mem mem1 hrun hframe _
    unfold run_copies at hrun
    rw [← Option.some.inj hrun]
    refine ⟨hframe, fun h => ?_⟩
    rcases h with h | ⟨ev, hev, _⟩
    · exact h
    · exact absurd hev (List.not_mem_nil _)
  | cons ev rest ih =>
    intro mem mem1 hrun hframe hall
    have hrest := fun ev2 h2 => hall ev2 (List.mem_cons_of_mem ev h2)
    rcases hall ev (List.mem_cons_self _ _) with ⟨dst, n, rfl, hdst, hv⟩ | ⟨dst, s, n, rfl, hdst, hs, hv⟩
    · simp only [run_copies, apply_copy, Option.some_bind] at hrun
      have hframe2 : ∀ p, p.buf ≠ T →
          (fun p : pointer => if p.buf = dst.buf ∧ dst.off ≤ p.off ∧ p.off < dst.off + n
            then (0 : α) else mem p) p = mem0 p := by
        intro p hp
        have hne : ¬ (p.buf = dst.buf ∧ dst.off ≤ p.off ∧ p.off < dst.off + n) :=
          fun h => hp (h.1.trans hdst)
        simp only [if_neg hne]
        exact hframe p hp
      obtain ⟨g1, g2⟩ := ih _ mem1 hrun hframe2 hrest
      refine ⟨g1, fun h => g2 ?_⟩
      by_cases hin : dst.off ≤ q.off ∧ q.off < dst.off + n
      · left
        simp only [if_pos (show q.buf = dst.buf ∧ dst.off ≤ q.off ∧ q.off < dst.off + n from
          ⟨hq.trans hdst.symm, hin⟩)]
        exact (hv hin).symm
      · have hne : ¬ (q.buf = dst.buf ∧ dst.off ≤ q.off ∧ q.off < dst.off + n) :=
          fun h => hin h.2
        rcases h with h | ⟨ev, hev, hw⟩
        · left
          simp only [if_neg hne]
          exact h
        · rcases List.mem_cons.mp hev with rfl | hev
          · rcases hw with ⟨d2, n2, he, hr⟩ | ⟨d2, s2, n2, he, _⟩
            · obtain ⟨rfl, rfl⟩ := event.memset32_avx.inj he
              exact absurd hr hin
            · exact absurd he (by simp)
          · exact Or.inr ⟨ev, hev, hw⟩
    · simp only [run_copies, apply_copy, Option.some_bind] at hrun
      have hframe2 : ∀ p, p.buf ≠ T →
          (fun p : pointer => if p.buf = dst.buf ∧ dst.off ≤ p.off ∧ p.off < dst.off + n
            then mem (s.add (p.off - dst.off)) else mem p) p = mem0 p := by
        intro p hp
        have hne : ¬ (p.buf = dst.buf ∧ dst.off ≤ p.off ∧ p.off < dst.off + n) :=
          fun h => hp (h.1.trans hdst)
        simp only [if_neg hne]
        exact hframe p hp
      obtain ⟨g1, g2⟩ := ih _ mem1 hrun hframe2 hrest
      refine ⟨g1, fun h => g2 ?_⟩
      by_cases hin : dst.off ≤ q.off ∧ q.off < dst.off + n
      · left
        simp only [if_pos (show q.buf = dst.buf ∧ dst.off ≤ q.off ∧ q.off < dst.off + n from
          ⟨hq.trans hdst.symm, hin⟩)]
        rw [hframe _ (show (s.add (q.off - dst.off)).buf ≠ T from hs)]
        exact hv hin
      · have hne : ¬ (q.buf = dst.buf ∧ dst.off ≤ q.off ∧ q.off < dst.off + n) :=
          fun h => hin h.2
        rcases h with h | ⟨ev, hev, hw⟩
        · left
          simp only [if_neg hne]
          exact h
        · rcases List.mem_cons.mp hev with rfl | hev
          · rcases hw with ⟨d2, n2, he, _⟩ | ⟨d2, s2, n2, he, hr⟩
            · exact absurd he (by simp)
            · obtain ⟨rfl, rfl, rfl⟩ := event.memcpy32_avx.inj he
              exact absurd hr hin
          · exact Or.inr ⟨ev, hev, hw⟩

/-- A sequence of calls of the copy helpers that write only into the memory
object `T` leaves the memory outside of `T` alone. -/
theorem run_copies_frame {α : Type} [Zero α] (T : buffer) :
    ∀ (evs : List event) (mem mem1 : pointer → α),
      run_copies mem evs = some mem1 →
      (∀ ev ∈ evs, (∃ dst n, ev = event.memset32_avx dst n ∧ dst.buf = T) ∨
        (∃ dst s n, ev = event.memcpy32_avx dst s n ∧ dst.buf = T)) →
      ∀ p, p.buf ≠ T → mem1 p = mem p := by
  intro evs
  induction evs with
  | nil =>
    intro mem mem1 hrun _ p _
    unfold run_copies at hrun
    rw [← Option.some.inj hrun]
  | cons ev rest ih =>
    intro mem mem1 hrun hall p hp
    have hrest := fun ev2 h2 => hall ev2 (List.mem_cons_of_mem ev h2)
    rcases hall ev (List.mem_cons_self _ _) with ⟨dst, n, rfl, hdst⟩ | ⟨dst, s, n, rfl, hdst⟩
    · simp only [run_copies, apply_copy, Option.some_bind] at hrun
      rw [ih _ mem1 hrun hrest p hp]
      have hne : ¬ (p.buf = dst.buf ∧ dst.off ≤ p.off ∧ p.off < dst.off + n) :=
        fun h => hp (h.1.trans hdst)
      simp only [if_neg hne]
    · simp only [run_copies, apply_copy, Option.some_bind] at hrun
      rw [ih _ mem1 hrun hrest p hp]
      have hne : ¬ (p.buf = dst.buf ∧ dst.off ≤ p.off ∧ p.off < dst.off + n) :=
        fun h => hp (h.1.trans hdst)
      simp only [if_neg hne]

/-- The three calls of a scratch row, by name. -/
theorem mem_prepad_row (cp : conv2d_param) (c : exec_consts) (s p : pointer) (ev : event) :
    ev ∈ prepad_row cp c s p ↔
      ev = event.memset32_avx p (cp.pad_w * IC_DATA_BLK) ∨
      ev = event.memcpy32_avx (p.add (cp.pad_w * IC_DATA_BLK)) s c.src_h_stride ∨
      ev = event.memset32_avx ((p.add (cp.pad_w * IC_DATA_BLK)).add c.src_h_stride)
        (cp.pad_w * IC_DATA_BLK) := by
  unfold prepad_row
  simp only [List.mem_cons, List.not_mem_nil, or_false]

/-- The scratch buffer after the padding pre-pass of a tile whose block sizes
do not exceed those of the schedule: every row is the source row between two
zero margins of `pad_w` columns, and the memory outside of the scratch buffer
is as before. -/
theorem prepad_pass_contents {α : Type} [Zero α] (cp : conv2d_param)
    (sp : kernel_schedule_param) (c : exec_consts) (K : Int) (hK : sp.ic_l2_blk = 16 * K)
    (hpad : 0 ≤ cp.pad_w) (hsw : 0 ≤ c.src_w)
    (hstride : c.src_h_stride = c.src_w * IC_DATA_BLK)
    (base_src src_trans : pointer) (icl2_eff gpl3_eff mbl3_eff : Int)
    (hic : icl2_eff ≤ sp.ic_l2_blk) (hgp : gpl3_eff ≤ sp.gp_l3_blk)
    (hmb : mbl3_eff ≤ sp.mb_l3_blk) (hbuf : base_src.buf ≠ src_trans.buf)
    (mem0 : pointer → α) :
    ∃ copies icb_cnt mem1,
      prepad_pass cp sp c base_src src_trans icl2_eff gpl3_eff mbl3_eff = some copies ∧
      div_up icl2_eff IC_DATA_BLK = some icb_cnt ∧
      run_copies mem0 copies = some mem1 ∧
      (∀ p, p.buf ≠ src_trans.buf → mem1 p = mem0 p) ∧
      ∀ g b icb ih x lane : Int, (0 ≤ g ∧ g < gpl3_eff) → (0 ≤ b ∧ b < mbl3_eff) →
        (0 ≤ icb ∧ icb < icb_cnt) → (0 ≤ ih ∧ ih < c.src_h) →
        (0 ≤ x ∧ x < c.src_w + 2 * cp.pad_w) → (0 ≤ lane ∧ lane < IC_DATA_BLK) →
        mem1 (src_trans.add (src_trans_row (cal_src_trans_strides cp sp c) g b icb ih
            + x * IC_DATA_BLK + lane))
          = if x < cp.pad_w ∨ cp.pad_w + c.src_w ≤ x then 0
            else mem0 (base_src.add (base_src_row c g b icb ih
              + (x - cp.pad_w) * IC_DATA_BLK + lane)) := by
  have h16 : IC_DATA_BLK = 16 := rfl
  have hW : 0 ≤ c.src_w + 2 * cp.pad_w := by omega
  obtain ⟨copies, icb_cnt, hcopies, hcnt, hmem⟩ :=
    prepad_pass_events cp sp c base_src src_trans icl2_eff gpl3_eff mbl3_eff
  have hcntv := hcnt.symm.trans (div_up_isSome _ IC_DATA_BLK (by decide))
  rw [Option.some.injEq] at hcntv
  have hicb : ∀ x, 0 ≤ x ∧ x < icb_cnt → 0 ≤ x ∧ x < K := by
    intro x hx
    rw [hcntv] at hx
    exact ⟨hx.1, icb_lt_of_le _ K x (by omega) hx.1 hx.2⟩
  have hshape : ∀ ev ∈ copies, ∃ g b icb ih : Int,
      (0 ≤ g ∧ g < sp.gp_l3_blk) ∧ (0 ≤ b ∧ b < sp.mb_l3_blk) ∧ (0 ≤ icb ∧ icb < K) ∧
      (0 ≤ ih ∧ ih < c.src_h) ∧
      (ev = event.memset32_avx
          (src_trans.add (src_trans_row (cal_src_trans_strides cp sp c) g b icb ih))
          (cp.pad_w * 16) ∨
       ev = event.memcpy32_avx
          ((src_trans.add (src_trans_row (cal_src_trans_strides cp sp c) g b icb ih)).add
            (cp.pad_w * 16))
          (base_src.add (base_src_row c g b icb ih)) (c.src_w * 16) ∨
       ev = event.memset32_avx
          (((src_trans.add (src_trans_row (cal_src_trans_strides cp sp c) g b icb ih)).add
            (cp.pad_w * 16)).add (c.src_w * 16))
          (cp.pad_w * 16)) := by
    intro ev hev
    obtain ⟨g, b, icb, ih, hg, hb, hi, hh, hrow⟩ := (hmem ev).mp hev
    rw [mem_prepad_row, hstride, h16] at hrow
    exact ⟨g, b, icb, ih, ⟨hg.1, by omega⟩, ⟨hb.1, by omega⟩, hicb icb hi, hh, hrow⟩
  obtain ⟨mem1, hrun⟩ := run_copies_isSome copies mem0 (fun ev hev => by
    obtain ⟨g, b, icb, ih, _, _, _, _, h | h | h⟩ := hshape ev hev
    · exact Or.inl ⟨_, _, h⟩
    · exact Or.inr ⟨_, _, _, h⟩
    · exact Or.inl ⟨_, _, h⟩)
  refine ⟨copies, icb_cnt, mem1, hcopies, hcnt, hrun, ?_, ?_⟩
  · refine run_copies_frame src_trans.buf copies mem0 mem1 hrun (fun ev hev => ?_)
    obtain ⟨g, b, icb, ih, _, _, _, _, h | h | h⟩ := hshape ev hev
    · exact Or.inl ⟨_, _, h, rfl⟩
    · exact Or.inr ⟨_, _, _, h, rfl⟩
    · exact Or.inl ⟨_, _, h, rfl⟩
  · intro g b icb ih x lane hg hb hi hh hx hl
    rw [h16] at hl ⊢
    obtain ⟨_, _, f3⟩ := scratch_row_facts cp sp c K hK hW g b icb ih
      ⟨hg.1, by omega⟩ ⟨hb.1, by omega⟩ (hicb icb hi) hh
    have hval := run_copies_value src_trans.buf
      (src_trans.add (src_trans_row (cal_src_trans_strides cp sp c) g b icb ih + x * 16 + lane))
      (if x < cp.pad_w ∨ cp.pad_w + c.src_w ≤ x then (0 : α)
        else mem0 (base_src.add (base_src_row c g b icb ih + (x - cp.pad_w) * 16 + lane)))
      mem0 rfl copies mem0 mem1 hrun (fun _ _ => rfl) (by
        intro ev hev
        obtain ⟨g2, b2, icb2, ih2, hg2, hb2, hi2, hh2, hrow⟩ := hshape ev hev
        have hov := f3 g2 b2 icb2 ih2 hg2 hb2 hi2 hh2
        rcases hrow with h | h | h
        · refine Or.inl ⟨_, _, h, rfl, fun hr => ?_⟩
          simp only [pointer.add] at hr
          rcases hov with h1 | h1 | ⟨rfl, rfl, rfl, rfl⟩
          · omega
          · omega
          · rw [if_pos (Or.inl (by omega))]
        · refine Or.inr ⟨_, _, _, h, rfl, hbuf, fun hr => ?_⟩
          simp only [pointer.add] at hr
          rcases hov with h1 | h1 | ⟨rfl, rfl, rfl, rfl⟩
          · omega
          · omega
          · rw [if_neg (by omega)]
            congr 1
            simp only [pointer.add, pointer.mk.injEq, true_and]
            omega
        · refine Or.inl ⟨_, _, h, rfl, fun hr => ?_⟩
          simp only [pointer.add] at hr
          rcases hov with h1 | h1 | ⟨rfl, rfl, rfl, rfl⟩
          · omega
          · omega
          · rw [if_pos (Or.inr (by omega))])
    refine hval.2 (Or.inr ?_)
    have hin : ∀ ev, ev ∈ prepad_row cp c (base_src.add (base_src_row c g b icb ih))
        (src_trans.add (src_trans_row (cal_src_trans_strides cp sp c) g b icb ih)) →
        ev ∈ copies := fun ev h => (hmem ev).mpr ⟨g, b, icb, ih, hg, hb, hi, hh, h⟩
    by_cases hx1 : x < cp.pad_w
    · refine ⟨_, hin _ ((mem_prepad_row _ _ _ _ _).mpr (Or.inl rfl)),
        Or.inl ⟨_, _, rfl, ?_⟩⟩
      simp only [pointer.add, h16]
      omega
    · by_cases hx2 : x < cp.pad_w + c.src_w
      · refine ⟨_, hin _ ((mem_prepad_row _ _ _ _ _).mpr (Or.inr (Or.inl rfl))),
          Or.inr ⟨_, _, _, rfl, ?_⟩⟩
        simp only [pointer.add, h16, hstride]
        omega
      · refine ⟨_, hin _ ((mem_prepad_row _ _ _ _ _).mpr (Or.inr (Or.inr rfl))),
          Or.inl ⟨_, _, rfl, ?_⟩⟩
        simp only [pointer.add, h16, hstride]
        omega

/-- Under the pre-pad policy the events of an input-channel outer block start
with the events of the padding pre-pass, run on the scratch buffer from the
origin of the tile in the source. -/
theorem ic_l2_block_prepad_inv (cp : conv2d_param) (sp : kernel_schedule_param)
    (c : exec_consts) (cvt_filter_ cvt_bias_ src_ dst_ : pointer)
    (sum_src_ temp_buffer_ : Option pointer) (mbl3 mbl3_eff gpl3 gpl3_eff icl2 : Int)
    (evs : List event) (hpol : sp.padding_policy = PADDING_POLICY_PREPAD)
    (h : ic_l2_block cp sp c cvt_filter_ cvt_bias_ src_ dst_ sum_src_ temp_buffer_
      mbl3 mbl3_eff gpl3 gpl3_eff icl2 = some evs) :
    ∃ src_trans copies rest, temp_buffer_ = some src_trans ∧ evs = copies ++ rest ∧
      prepad_pass cp sp c
        (src_.add (mbl3 * c.src_b_stride + gpl3 * c.src_g_stride + icl2 * c.src_h * c.src_w))
        src_trans (min (sp.ic_per_gp - icl2) sp.ic_l2_blk) gpl3_eff mbl3_eff = some copies := by
  simp only [ic_l2_block, if_pos hpol, Option.bind_eq_bind, Option.bind_eq_some,
    Option.pure_def, Option.some.injEq] at h
  obtain ⟨blk0, hblk0, pre, ⟨src_trans, htmp, copies, hcopies, hpre⟩, calls, _, hevs⟩ := h
  obtain ⟨_, heff, hbase, _⟩ := cal_ic_block_inv cp sp c cvt_filter_ src_ dst_ sum_src_
    mbl3 gpl3 icl2 blk0 hblk0
  rw [heff, hbase] at hcopies
  subst hpre
  refine ⟨src_trans, copies,
    [event.pick ker_p_def.SRC_ICB_STRIDE_IDX
        (ker_value.int (cal_src_trans_strides cp sp c).icb_stride),
      event.pick ker_p_def.SRC_DH_STRIDE_IDX
        (ker_value.int (cal_src_trans_strides cp sp c).dh_stride),
      event.pick ker_p_def.CHANNELS_IDX (ker_value.int blk0.icl2_eff),
      event.pick ker_p_def.FLAGS_IDX (ker_value.flags blk0.kernel_flags)] ++ calls,
    htmp, ?_, hcopies⟩
  rw [← hevs]
  exact List.append_assoc _ _ _

/-- C20. On an executor that `prepare` has set up with the pre-pad policy (for
well-formed parameters, a horizontal padding and a source width that are not
negative): the events of every input-channel outer block start with the events
of the padding pre-pass of its tile (batch offset `mbl3`, group offset `gpl3`,
channel offset `icl2`); and when the scratch buffer and the source are
different memory objects, the pre-pass returns, leaves the memory outside of
the scratch buffer alone, and afterwards, for every row `(g, b, icb, ih)` of
the tile, every column `x` in `[0, src_w + 2 * pad_w)` and every lane in
`[0, IC_DATA_BLK)`, the scratch element
`src_trans_row + x * IC_DATA_BLK + lane` is 0 when `x < pad_w` or
`x >= pad_w + src_w`, and otherwise the source element of batch `mbl3 + b`,
group `gpl3 + g`, channel block `icl2 / IC_DATA_BLK + icb`, row `ih`, column
`x - pad_w` and the same lane, as it was before the pre-pass. -/
theorem scratch_contents {α : Type} [Zero α] (m : machine) (e0 e : executor)
    (cp : conv2d_param) (src_shape_ dst_shape_ : TensorShape) (c : exec_consts)
    (hprep : prepare m e0 = some (RetCode.RC_SUCCESS, e))
    (hcp : e.conv_param_ = some cp)
    (hg : 1 ≤ cp.group) (hc : 1 ≤ Int.tdiv cp.channels cp.group)
    (hk : 1 ≤ cp.kernel_h * cp.kernel_w)
    (hpol : e.schedule_param_.padding_policy = PADDING_POLICY_PREPAD)
    (hconsts : mk_exec_consts cp e.schedule_param_ src_shape_ dst_shape_ e.sum_src_shape_
      = some c)
    (hpad : 0 ≤ cp.pad_w) (hsw : 0 ≤ src_shape_.GetDim 3) :
    (∀ (cvt_filter_ cvt_bias_ src_ dst_ : pointer) (sum_src_ temp_buffer_ : Option pointer)
        (mbl3 mbl3_eff gpl3 gpl3_eff icl2 : Int) (evs : List event),
      ic_l2_block cp e.schedule_param_ c cvt_filter_ cvt_bias_ src_ dst_ sum_src_
        temp_buffer_ mbl3 mbl3_eff gpl3 gpl3_eff icl2 = some evs →
      ∃ src_trans copies rest, temp_buffer_ = some src_trans ∧ evs = copies ++ rest ∧
        prepad_pass cp e.schedule_param_ c
          (src_.add (mbl3 * c.src_b_stride + gpl3 * c.src_g_stride
            + icl2 * c.src_h * c.src_w))
          src_trans (min (e.schedule_param_.ic_per_gp - icl2) e.schedule_param_.ic_l2_blk)
          gpl3_eff mbl3_eff = some copies) ∧
    (∀ (src_ src_trans : pointer) (mbl3 gpl3 icl2 : Int) (mem0 : pointer → α),
      icl2 ∈ for_indices 0 e.schedule_param_.padded_ic e.schedule_param_.ic_l2_blk →
      src_.buf ≠ src_trans.buf →
      ∃ copies icb_cnt mem1,
        prepad_pass cp e.schedule_param_ c
          (src_.add (mbl3 * c.src_b_stride + gpl3 * c.src_g_stride
            + icl2 * c.src_h * c.src_w))
          src_trans (min (e.schedule_param_.ic_per_gp - icl2) e.schedule_param_.ic_l2_blk)
          (min (cp.group - gpl3) e.schedule_param_.gp_l3_blk)
          (min (c.batch - mbl3) e.schedule_param_.mb_l3_blk) = some copies ∧
        div_up (min (e.schedule_param_.ic_per_gp - icl2) e.schedule_param_.ic_l2_blk)
          IC_DATA_BLK = some icb_cnt ∧
        run_copies mem0 copies = some mem1 ∧
        (∀ p, p.buf ≠ src_trans.buf → mem1 p = mem0 p) ∧
        ∀ g b icb ih x lane : Int,
          (0 ≤ g ∧ g < min (cp.group - gpl3) e.schedule_param_.gp_l3_blk) →
          (0 ≤ b ∧ b < min (c.batch - mbl3) e.schedule_param_.mb_l3_blk) →
          (0 ≤ icb ∧ icb < icb_cnt) → (0 ≤ ih ∧ ih < c.src_h) →
          (0 ≤ x ∧ x < c.src_w + 2 * cp.pad_w) → (0 ≤ lane ∧ lane < IC_DATA_BLK) →
          mem1 (src_trans.add
              (src_trans_row (cal_src_trans_strides cp e.schedule_param_ c) g b icb ih
                + x * IC_DATA_BLK + lane))
            = if x < cp.pad_w ∨ cp.pad_w + c.src_w ≤ x then 0
              else mem0 (src_.add ((mbl3 + b) * c.src_b_stride + (gpl3 + g) * c.src_g_stride
                + (icl2 / IC_DATA_BLK + icb) * c.src_icb_stride + ih * c.src_h_stride
                + (x - cp.pad_w) * IC_DATA_BLK + lane))) := by
  obtain ⟨_, _, _, _, hb, ⟨K, hK⟩, _, _⟩ := prepared_ic_facts m e0 e cp hprep hcp hg hc hk
  obtain ⟨_, hsh, hsw', _, _, _, _, _, _, hstride, hicb, _⟩ :=
    mk_exec_consts_fields cp e.schedule_param_ src_shape_ dst_shape_ e.sum_src_shape_ c hconsts
  rw [← hsw'] at hsw hstride
  rw [← hsh, ← hsw'] at hicb
  constructor
  · intro cvt_filter_ cvt_bias_ src_ dst_ sum_src_ temp_buffer_ mbl3 mbl3_eff gpl3 gpl3_eff
      icl2 evs hevs
    exact ic_l2_block_prepad_inv cp e.schedule_param_ c cvt_filter_ cvt_bias_ src_ dst_
      sum_src_ temp_buffer_ mbl3 mbl3_eff gpl3 gpl3_eff icl2 evs hpol hevs
  · intro src_ src_trans mbl3 gpl3 icl2 mem0 hicl2 hbuf
    obtain ⟨_, _, hdvd⟩ := (mem_for_indices 0 _ _ icl2 hb).mp hicl2
    rw [Int.sub_zero, hK] at hdvd
    obtain ⟨j, hj⟩ := Int.dvd_trans (Int.dvd_mul_right 16 K) hdvd
    have hoff : icl2 * c.src_h * c.src_w = icl2 / IC_DATA_BLK * c.src_icb_stride := by
      have h16 : IC_DATA_BLK = 16 := rfl
      rw [hicb, h16, hj, Int.mul_ediv_cancel_left j (by decide)]
      ring
    obtain ⟨copies, icb_cnt, mem1, h1, h2, h3, h4, h5⟩ := prepad_pass_contents cp
      e.schedule_param_ c K hK hpad hsw hstride
      (src_.add (mbl3 * c.src_b_stride + gpl3 * c.src_g_stride + icl2 * c.src_h * c.src_w))
      src_trans (min (e.schedule_param_.ic_per_gp - icl2) e.schedule_param_.ic_l2_blk)
      (min (cp.group - gpl3) e.schedule_param_.gp_l3_blk)
      (min (c.batch - mbl3) e.schedule_param_.mb_l3_blk)
      (min_le_right _ _) (min_le_right _ _) (min_le_right _ _) hbuf mem0
    refine ⟨copies, icb_cnt, mem1, h1, h2, h3, h4, ?_⟩
    intro g b icb ih x lane hg1 hb1 hi1 hh1 hx1 hl1
    rw [h5 g b icb ih x lane hg1 hb1 hi1 hh1 hx1 hl1]
    have hptr : (src_.add (mbl3 * c.src_b_stride + gpl3 * c.src_g_stride
          + icl2 * c.src_h * c.src_w)).add
          (base_src_row c g b icb ih + (x - cp.pad_w) * IC_DATA_BLK + lane)
        = src_.add ((mbl3 + b) * c.src_b_stride + (gpl3 + g) * c.src_g_stride
          + (icl2 / IC_DATA_BLK + icb) * c.src_icb_stride + ih * c.src_h_stride
          + (x - cp.pad_w) * IC_DATA_BLK + lane) := by
      simp only [pointer.add, pointer.mk.injEq, true_and, base_src_row]
      rw [hoff]
      ring
    rw [hptr]

theorem scratch_contents_witness :
    ∃ copies mem1,
      prepad_pass example_param example_schedule example_consts
        { buf := buffer.src, off := 0 } { buf := buffer.temp_buffer, off := 0 } 16 1 1
        = some copies ∧
      run_copies (fun p : pointer => p.off) copies = some mem1 ∧
      (∀ p : pointer, p.buf ≠ buffer.temp_buffer → mem1 p = p.off) ∧
      (∀ ih x lane : Int, (0 ≤ ih ∧ ih < 32) → (0 ≤ x ∧ x < 34) → (0 ≤ lane ∧ lane < 16) →
        mem1 { buf := buffer.temp_buffer,
               off := 0 + (src_trans_row
                 (cal_src_trans_strides example_param example_schedule example_consts)
                 0 0 0 ih + x * 16 + lane) }
          = if x < 1 ∨ 1 + 32 ≤ x then 0
            else 0 + ((0 + 0) * 16384 + (0 + 0) * 16384 + (0 / 16 + 0) * 16384 + ih * 512
              + (x - 1) * 16 + lane)) := by
  obtain ⟨copies, cnt, mem1, h1, h2, h3, h4, h5⟩ :=
    (scratch_contents example_machine example_executor
      { example_executor with schedule_param_ := example_schedule } example_param
      example_src_shape example_dst_shape example_consts (by rfl) rfl (by decide)
      (by decide) (by decide) rfl (by rfl) (by decide) (by decide)).2
      { buf := buffer.src, off := 0 } { buf := buffer.temp_buffer, off := 0 } 0 0 0
      (fun p : pointer => p.off) (by decide) (by decide)
  have hc1 : some (1 : Int) = some cnt := h2
  refine ⟨copies, mem1, h1, h3, h4, fun ih x lane hih hx hl => ?_⟩
  exact h5 0 0 0 ih x lane (by decide) (by decide)
    (by rw [← Option.some.inj hc1]; decide) hih hx hl

/-! ## Input-channel outer blocks: count and channel counts -/

/-- What `prepare` stored about the output channels. -/
theorem prepared_oc_facts (m : machine) (e0 e : executor) (cp : conv2d_param)
    (hprep : prepare m e0 = some (RetCode.RC_SUCCESS, e)) (hcp : e.conv_param_ = some cp) :
    cp.group ≠ 0 ∧
    e.schedule_param_.oc_per_gp = Int.tdiv cp.num_output cp.group ∧
    e.schedule_param_.padded_oc = Int.tdiv (Int.tdiv cp.num_output cp.group + 16 - 1) 16 * 16 ∧
    e.schedule_param_.oc_l2_blk = min OC_L2_BLK_MAX e.schedule_param_.padded_oc := by
  obtain ⟨cp2, src, dst, sp0, hcp2, _, _, hinit, hcal⟩ := prepare_schedule m e0 e hprep
  obtain ⟨rfl⟩ : some cp2 = some cp := hcp2.symm.trans hcp
  have hg : cp.group ≠ 0 := by
    intro h0
    unfold init_preproc_param at hinit
    simp [cdiv, h0] at hinit
  have hinit2 := init_preproc_param_ok cp e0.schedule_param_ hg
  obtain ⟨rfl⟩ := hinit2.symm.trans hinit
  obtain ⟨_, _, _, _, _, _, hoc, _, _, h2, _, h4⟩ :=
    cal_kernel_tunning_param_inv m cp src dst _ _ hcal
  refine ⟨hg, h2, h4, ?_⟩
  rw [hoc, h4]

/-- Pointer arithmetic: two advances are one. -/
theorem pointer_add_add (p : pointer) (a b : Int) : (p.add a).add b = p.add (a + b) := by
  simp only [pointer.add, pointer.mk.injEq, true_and]
  ring

theorem pointer_add_zero (p : pointer) : p.add 0 = p := by
  cases p
  simp only [pointer.add, Int.add_zero]

theorem oc_ptrs_at_zero (cp : conv2d_param) (sp : kernel_schedule_param) (c : exec_consts)
    (p : oc_ptrs) : oc_ptrs_at cp sp c p 0 = p := by
  cases p
  simp only [oc_ptrs_at, Int.zero_mul, pointer_add_zero]

/-- The output-channel loop, iteration by iteration: the iteration at `oc`
runs the body with the pointers advanced `(oc - oc0) / 16` times. -/
theorem oc_loop_eq_seq (cp : conv2d_param) (sp : kernel_schedule_param) (c : exec_consts)
    (body : Int → oc_ptrs → Option (List event)) (oc_end oc0 : Int) (p0 : oc_ptrs) :
    ∀ (fuel : Nat) (k : Int), (oc_end - (oc0 + 16 * k)).toNat ≤ fuel →
      oc_loop cp sp c body oc_end fuel (oc0 + 16 * k) (oc_ptrs_at cp sp c p0 k)
        = seq_events (fun oc => body oc (oc_ptrs_at cp sp c p0 ((oc - oc0) / 16)))
            (loop_indices oc_end 16 fuel (oc0 + 16 * k)) := by
  intro fuel
  induction fuel with
  | zero =>
    intro k hf
    unfold oc_loop loop_indices
    rw [if_neg (by omega)]
    rfl
  | succ n ih =>
    intro k hf
    unfold oc_loop loop_indices
    by_cases hlt : oc0 + 16 * k < oc_end
    · rw [if_pos hlt, if_pos hlt]
      have hk : (oc0 + 16 * k - oc0) / 16 = k := by omega
      have hnext : oc0 + 16 * k + OC_DATA_BLK = oc0 + 16 * (k + 1) := by
        unfold OC_DATA_BLK
        ring
      have hnext2 : oc0 + 16 * k + 16 = oc0 + 16 * (k + 1) := by ring
      have hadv : ({ l_his := (oc_ptrs_at cp sp c p0 k).l_his.add
                      (OC_DATA_BLK * c.dst_h * c.dst_w),
                     l_flt := (oc_ptrs_at cp sp c p0 k).l_flt.add
                      (OC_DATA_BLK * sp.ic_l2_blk * cp.kernel_h * cp.kernel_w),
                     l_bias := (oc_ptrs_at cp sp c p0 k).l_bias.add OC_DATA_BLK,
                     l_dst := (oc_ptrs_at cp sp c p0 k).l_dst.add
                      (OC_DATA_BLK * c.dst_h * c.dst_w) } : oc_ptrs)
          = oc_ptrs_at cp sp c p0 (k + 1) := by
        simp only [oc_ptrs_at, pointer_add_add, oc_ptrs.mk.injEq]
        refine ⟨?_, ?_, ?_, ?_⟩ <;> congr 1 <;> ring
      rw [hadv, hnext, hnext2, ih (k + 1) (by omega)]
      simp only [seq_events, hk]
    · rw [if_neg hlt, if_neg hlt]
      rfl

/-- The events of a border loop: stores of the kernel-column window and
`execute_border` calls with the register-group count of the loop. -/
theorem border_loop_events (cp : conv2d_param) (sp : kernel_schedule_param) (c : exec_consts)
    (oc_reg ow_start ow_end : Int) (evs : List event)
    (h : border_loop cp sp c oc_reg ow_start ow_end = some evs) :
    ∀ ev ∈ evs, (∃ v, ev = event.pick ker_p_def.KW_START_IDX v) ∨
      (∃ v, ev = event.pick ker_p_def.KW_END_IDX v) ∨
      ev = event.execute_border sp.use_nt_store oc_reg := by
  refine for_range_forall _ ow_start ow_end 1 _ ?_ evs h
  intro i evs1 h1 ev hev
  simp only [Option.bind_eq_bind, Option.bind_eq_some, Option.pure_def,
    Option.some.injEq] at h1
  obtain ⟨_, _, _, _, h1⟩ := h1
  rw [← h1] at hev
  simp only [List.mem_cons, List.mem_singleton, List.not_mem_nil, or_false] at hev
  rcases hev with rfl | rfl | rfl
  · exact Or.inl ⟨_, rfl⟩
  · exact Or.inr (Or.inl ⟨_, rfl⟩)
  · exact Or.inr (Or.inr rfl)

/-- The events of one 16-channel output block: the register-group count is
`div_up(min(oc_end - oc, OC_DATA_BLK), OC_REG_ELTS)`, the destination pointer
stored is `l_dst`, and every microkernel call carries that count. -/
theorem oc_dispatch_events (cp : conv2d_param) (sp : kernel_schedule_param) (c : exec_consts)
    (owl2 owl2_eff : Int) (w : ow_split) (l_src : pointer) (oc_end oc : Int) (p : oc_ptrs)
    (evs : List event)
    (h : oc_dispatch cp sp c owl2 owl2_eff w l_src oc_end oc p = some evs) :
    ∃ oc_reg, div_up (min (oc_end - oc) OC_DATA_BLK) OC_REG_ELTS = some oc_reg ∧
      event.pick ker_p_def.DST_PTR_IDX (ker_value.ptr p.l_dst) ∈ evs ∧
      (∀ v, event.pick ker_p_def.DST_PTR_IDX v ∈ evs → v = ker_value.ptr p.l_dst) ∧
      (∀ nt r, event.execute_border nt r ∈ evs → r = oc_reg) ∧
      (∀ nt sw r wb, event.execute nt sw r wb ∈ evs → r = oc_reg) := by
  simp only [oc_dispatch, Option.bind_eq_bind, Option.bind_eq_some, Option.pure_def,
    Option.some.injEq] at h
  obtain ⟨oc_reg, hreg, first, hfirst, last, hlast, h⟩ := h
  have hf := border_loop_events cp sp c oc_reg _ _ first hfirst
  have hl := border_loop_events cp sp c oc_reg _ _ last hlast
  have hshape : ∀ ev ∈ evs,
      ev = event.pick ker_p_def.SRC_PTR_IDX (ker_value.ptr l_src) ∨
      ev = event.pick ker_p_def.HIS_PTR_IDX (ker_value.ptr p.l_his) ∨
      ev = event.pick ker_p_def.FLT_PTR_IDX (ker_value.ptr p.l_flt) ∨
      ev = event.pick ker_p_def.BIAS_PTR_IDX (ker_value.ptr p.l_bias) ∨
      ev = event.pick ker_p_def.DST_PTR_IDX (ker_value.ptr p.l_dst) ∨
      (∃ v, ev = event.pick ker_p_def.KW_START_IDX v) ∨
      (∃ v, ev = event.pick ker_p_def.KW_END_IDX v) ∨
      ev = event.execute_border sp.use_nt_store oc_reg ∨
      (∃ v, ev = event.pick ker_p_def.DST_WIDTH_IDX v) ∨
      (∃ wb, ev = event.execute sp.use_nt_store c.spec_stride_w oc_reg wb) := by
    intro ev hev
    rw [← h] at hev
    simp only [List.mem_append] at hev
    rcases hev with (((hA | hf1) | hbody) | htail) | hl1
    · simp only [List.mem_cons, List.not_mem_nil, or_false] at hA
      rcases hA with h1 | h1 | h1 | h1 | h1
      · exact Or.inl h1
      · exact Or.inr (Or.inl h1)
      · exact Or.inr (Or.inr (Or.inl h1))
      · exact Or.inr (Or.inr (Or.inr (Or.inl h1)))
      · exact Or.inr (Or.inr (Or.inr (Or.inr (Or.inl h1))))
    · rcases hf ev hf1 with h1 | h1 | h1
      · exact Or.inr (Or.inr (Or.inr (Or.inr (Or.inr (Or.inl h1)))))
      · exact Or.inr (Or.inr (Or.inr (Or.inr (Or.inr (Or.inr (Or.inl h1))))))
      · exact Or.inr (Or.inr (Or.inr (Or.inr (Or.inr (Or.inr (Or.inr (Or.inl h1)))))))
    · split at hbody
      · simp only [List.mem_cons, List.not_mem_nil, or_false] at hbody
        rcases hbody with h1 | h1
        · exact Or.inr (Or.inr (Or.inr (Or.inr (Or.inr (Or.inr (Or.inr (Or.inr
            (Or.inl ⟨_, h1⟩))))))))
        · exact Or.inr (Or.inr (Or.inr (Or.inr (Or.inr (Or.inr (Or.inr (Or.inr
            (Or.inr ⟨_, h1⟩))))))))
      · exact absurd hbody (List.not_mem_nil _)
    · split at htail
      · simp only [List.mem_cons, List.not_mem_nil, or_false] at htail
        rcases htail with h1 | h1
        · exact Or.inr (Or.inr (Or.inr (Or.inr (Or.inr (Or.inr (Or.inr (Or.inr
            (Or.inl ⟨_, h1⟩))))))))
        · exact Or.inr (Or.inr (Or.inr (Or.inr (Or.inr (Or.inr (Or.inr (Or.inr
            (Or.inr ⟨_, h1⟩))))))))
      · exact absurd htail (List.not_mem_nil _)
    · rcases hl ev hl1 with h1 | h1 | h1
      · exact Or.inr (Or.inr (Or.inr (Or.inr (Or.inr (Or.inl h1)))))
      · exact Or.inr (Or.inr (Or.inr (Or.inr (Or.inr (Or.inr (Or.inl h1))))))
      · exact Or.inr (Or.inr (Or.inr (Or.inr (Or.inr (Or.inr (Or.inr (Or.inl h1)))))))
  refine ⟨oc_reg, hreg, ?_, ?_, ?_, ?_⟩
  · rw [← h]
    simp
  · intro v hv
    rcases hshape _ hv with h1 | h1 | h1 | h1 | h1 | ⟨_, h1⟩ | ⟨_, h1⟩ | h1 | ⟨_, h1⟩ | ⟨_, h1⟩
    all_goals first
      | exact (event.pick.inj h1).2
      | exact absurd (event.pick.inj h1).1 (by decide)
      | exact absurd h1 (by simp)
  · intro nt r hv
    rcases hshape _ hv with h1 | h1 | h1 | h1 | h1 | ⟨_, h1⟩ | ⟨_, h1⟩ | h1 | ⟨_, h1⟩ | ⟨_, h1⟩
    all_goals first
      | exact (event.execute_border.inj h1).2
      | exact absurd h1 (by simp)
  · intro nt sw r wb hv
    rcases hshape _ hv with h1 | h1 | h1 | h1 | h1 | ⟨_, h1⟩ | ⟨_, h1⟩ | h1 | ⟨_, h1⟩ | ⟨_, h1⟩
    all_goals first
      | exact (event.execute.inj h1).2.2.1
      | exact absurd h1 (by simp)

/-- The events of one output-width outer block: the stores of the kernel-row
window, then one dispatch per 16-channel block start `oc` of the loop
`for (oc = ocl2; oc < ocl2 + ocl2_eff; oc += OC_DATA_BLK)`, with the pointers
advanced `(oc - ocl2) / 16` times. -/
theorem ow_block_inv (cp : conv2d_param) (sp : kernel_schedule_param) (c : exec_consts)
    (blk : ic_block) (cvt_bias_ : pointer) (gpl3 g b ocl2 oh owl2 : Int) (evs : List event)
    (h : ow_block cp sp c blk cvt_bias_ gpl3 g b ocl2 oh owl2 = some evs) :
    ∃ kh_start kh_end w l_src p0 calls,
      p0.l_dst = blk.base_dst.add (b * c.dst_b_stride + g * c.dst_g_stride
        + ocl2 * c.dst_h * c.dst_w + oh * c.dst_h_stride + owl2 * OC_DATA_BLK) ∧
      evs = [event.pick ker_p_def.KH_START_IDX (ker_value.int kh_start),
             event.pick ker_p_def.KH_END_IDX (ker_value.int kh_end)] ++ calls ∧
      seq_events (fun oc => oc_dispatch cp sp c owl2 (min (c.dst_w - owl2) sp.ow_l2_blk) w
          l_src (ocl2 + min (c.padded_reg_oc - ocl2) sp.oc_l2_blk) oc
          (oc_ptrs_at cp sp c p0 ((oc - ocl2) / 16)))
        (for_indices ocl2 (ocl2 + min (c.padded_reg_oc - ocl2) sp.oc_l2_blk) 16)
        = some calls := by
  simp only [ow_block, Option.bind_eq_bind, Option.bind_eq_some, Option.pure_def,
    Option.some.injEq] at h
  obtain ⟨ks, _, ke, _, w, _, calls, hcalls, hevs⟩ := h
  have hseq := oc_loop_eq_seq cp sp c
    (oc_dispatch cp sp c owl2 (min (c.dst_w - owl2) sp.ow_l2_blk) w
      (blk.base_src.add (b * blk.base_src_b_stride + g * blk.base_src_g_stride
        + (oh * cp.stride_h - cp.pad_h) * blk.base_src_h_stride
        + (owl2 * cp.stride_w - cp.pad_w) * IC_DATA_BLK))
      (ocl2 + min (c.padded_reg_oc - ocl2) sp.oc_l2_blk))
    (ocl2 + min (c.padded_reg_oc - ocl2) sp.oc_l2_blk) ocl2
    { l_his := blk.base_his.add (b * blk.his_b_stride + g * c.dst_g_stride
        + ocl2 * c.dst_h * c.dst_w + oh * c.dst_h_stride + owl2 * OC_DATA_BLK),
      l_flt := blk.base_flt.add (g * c.flt_g_stride
        + ocl2 * sp.ic_l2_blk * cp.kernel_h * cp.kernel_w),
      l_bias := cvt_bias_.add ((g + gpl3) * sp.padded_oc + ocl2),
      l_dst := blk.base_dst.add (b * c.dst_b_stride + g * c.dst_g_stride
        + ocl2 * c.dst_h * c.dst_w + oh * c.dst_h_stride + owl2 * OC_DATA_BLK) }
    (min (c.padded_reg_oc - ocl2) sp.oc_l2_blk).toNat 0 (by omega)
  rw [Int.mul_zero, Int.add_zero, oc_ptrs_at_zero, hcalls] at hseq
  have hidx : loop_indices (ocl2 + min (c.padded_reg_oc - ocl2) sp.oc_l2_blk) 16
      (min (c.padded_reg_oc - ocl2) sp.oc_l2_blk).toNat ocl2
      = for_indices ocl2 (ocl2 + min (c.padded_reg_oc - ocl2) sp.oc_l2_blk) 16 := by
    unfold for_indices
    rw [add_sub_cancel_left]
  rw [hidx] at hseq
  refine ⟨ks, ke, w, _, _, calls, ?_, hevs.symm, hseq.symm⟩
  rfl

/-! ## Destination slots -/

/-- What a positive answer of `is_supported` says about the parameters. -/
theorem is_supported_true (is_pointwise : conv2d_param → Bool) (param_ : conv2d_param)
    (h : is_supported is_pointwise param_ = some true) :
    param_.group ≠ 0 ∧
    (param_.group = 1 ∨
      (Int.tmod (Int.tdiv param_.channels param_.group) 16 = 0 ∧
        Int.tmod (Int.tdiv param_.num_output param_.group) 16 = 0)) := by
  unfold is_supported at h
  cases hp : is_pointwise param_ with
  | true =>
    rw [hp] at h
    simp at h
  | false =>
    rw [hp] at h
    by_cases hg : param_.group = 0
    · simp [cdiv, hg] at h
    · have h0 : ¬ ((16 : Int) = 0) := by decide
      simp only [cdiv, cmod, if_neg hg, if_neg h0, IC_DATA_BLK, OC_DATA_BLK,
        Option.map_some', Option.bind_eq_bind, Option.some_bind, Option.pure_def,
        Bool.false_eq_true, if_false, Option.some.injEq, Bool.or_eq_true, Bool.and_eq_true,
        decide_eq_true_eq] at h
      exact ⟨hg, h⟩

/-- The destination strides among the locals of `execute`. -/
theorem mk_exec_consts_dst (cp : conv2d_param) (sp : kernel_schedule_param)
    (src_shape_ dst_shape_ : TensorShape) (sum_src_shape_ : Option TensorShape)
    (c : exec_consts)
    (h : mk_exec_consts cp sp src_shape_ dst_shape_ sum_src_shape_ = some c) :
    c.dst_b_stride = Int.tdiv (dst_shape_.GetDim 1 + 16 - 1) 16 * 16 * c.dst_h * c.dst_w ∧
    c.dst_g_stride = sp.padded_oc * c.dst_h * c.dst_w ∧
    c.dst_h_stride = c.dst_w * OC_DATA_BLK ∧
    c.padded_reg_oc = Int.tdiv (sp.oc_per_gp + 8 - 1) 8 * 8 := by
  simp only [mk_exec_consts, Option.bind_eq_bind, Option.pure_def, Option.bind_eq_some,
    Option.some.injEq] at h
  obtain ⟨r1, h1, r2, h2, r3, h3, r4, h4, h5⟩ := h
  rw [round_up_isSome _ _ (by decide)] at h1 h3
  obtain ⟨rfl⟩ := h1
  obtain ⟨rfl⟩ := h3
  rw [← h5]
  exact ⟨rfl, rfl, rfl, rfl⟩

/-- The destination pointer of an input-channel outer block. -/
theorem cal_ic_block_base_dst (cp : conv2d_param) (sp : kernel_schedule_param)
    (c : exec_consts) (cvt_filter_ src_ dst_ : pointer) (sum_src_ : Option pointer)
    (mbl3 gpl3 icl2 : Int) (blk : ic_block)
    (h : cal_ic_block cp sp c cvt_filter_ src_ dst_ sum_src_ mbl3 gpl3 icl2 = some blk) :
    blk.base_dst = dst_.add (mbl3 * c.dst_b_stride + gpl3 * c.dst_g_stride) := by
  simp only [cal_ic_block, Option.bind_eq_bind, Option.bind_eq_some, Option.pure_def,
    Option.some.injEq] at h
  obtain ⟨his, _, h⟩ := h
  rw [← h]

/-- The slot number of an index tuple in a layout of `B` batch elements of
`c16` channel blocks, `G` groups of `p16` channel blocks each, `H` rows and `W`
columns: below the number of slots, and different for different tuples. -/
theorem slot_number_facts (B c16 G p16 H W n g ocb oh ow : Int) (hGp : G * p16 ≤ c16)
    (hn : 0 ≤ n ∧ n < B) (hg : 0 ≤ g ∧ g < G) (ho : 0 ≤ ocb ∧ ocb < p16)
    (hh : 0 ≤ oh ∧ oh < H) (hw : 0 ≤ ow ∧ ow < W) :
    0 ≤ ((n * c16 + (g * p16 + ocb)) * H + oh) * W + ow ∧
    ((n * c16 + (g * p16 + ocb)) * H + oh) * W + ow < B * c16 * H * W ∧
    ∀ n2 g2 ocb2 oh2 ow2 : Int, (0 ≤ n2 ∧ n2 < B) → (0 ≤ g2 ∧ g2 < G) →
      (0 ≤ ocb2 ∧ ocb2 < p16) → (0 ≤ oh2 ∧ oh2 < H) → (0 ≤ ow2 ∧ ow2 < W) →
      ((n * c16 + (g * p16 + ocb)) * H + oh) * W + ow
        = ((n2 * c16 + (g2 * p16 + ocb2)) * H + oh2) * W + ow2 →
      n = n2 ∧ g = g2 ∧ ocb = ocb2 ∧ oh = oh2 ∧ ow = ow2 := by
  have hcb : ∀ g ocb : Int, (0 ≤ g ∧ g < G) → (0 ≤ ocb ∧ ocb < p16) →
      0 ≤ g * p16 + ocb ∧ g * p16 + ocb < c16 := by
    intro g ocb hg ho
    obtain ⟨h1, h2⟩ := radix_bound g G ocb p16 hg.1 hg.2 ho.1 ho.2
    exact ⟨h1, lt_of_lt_of_le h2 hGp⟩
  obtain ⟨c1, c2⟩ := hcb g ocb hg ho
  obtain ⟨x1, x2⟩ := radix_bound n B (g * p16 + ocb) c16 hn.1 hn.2 c1 c2
  obtain ⟨y1, y2⟩ := radix_bound _ (B * c16) oh H x1 x2 hh.1 hh.2
  obtain ⟨z1, z2⟩ := radix_bound _ (B * c16 * H) ow W y1 y2 hw.1 hw.2
  refine ⟨z1, z2, ?_⟩
  intro n2 g2 ocb2 oh2 ow2 hn2 hg2 ho2 hh2 hw2 heq
  obtain ⟨d1, d2⟩ := hcb g2 ocb2 hg2 ho2
  obtain ⟨e1, e2⟩ := radix_inj _ _ ow ow2 W hw.1 hw.2 hw2.1 hw2.2 heq
  obtain ⟨e3, e4⟩ := radix_inj _ _ oh oh2 H hh.1 hh.2 hh2.1 hh2.2 e1
  obtain ⟨e5, e6⟩ := radix_inj _ _ (g * p16 + ocb) (g2 * p16 + ocb2) c16 c1 c2 d1 d2 e3
  obtain ⟨e7, e8⟩ := radix_inj _ _ ocb ocb2 p16 ho.1 ho.2 ho2.1 ho2.2 e6
  exact ⟨e5, e7, e8, e4, e2⟩

/-- In a supported configuration the channel blocks of all groups fit into the
channel blocks of the destination. -/
theorem supported_layout (G O q : Int) (hg1 : 1 ≤ G) (hq : q = Int.tdiv O G) (hq1 : 1 ≤ q)
    (hsup : G = 1 ∨ Int.tmod q 16 = 0) :
    G * ((q + 16 - 1) / 16) ≤ (O + 16 - 1) / 16 := by
  have hO : 0 ≤ O := by
    by_contra hneg
    have := tdiv_nonpos_of_lt O G (by omega) (by omega)
    omega
  rw [Int.tdiv_eq_ediv hO (by omega)] at hq
  have hGq : G * q ≤ O := by
    rw [hq]
    exact Int.mul_ediv_self_le (by omega)
  rcases hsup with h1 | h16
  · subst h1
    rw [Int.ediv_one] at hq
    subst hq
    omega
  · rw [Int.tmod_eq_emod (by omega) (by decide)] at h16
    obtain ⟨t, ht⟩ : ∃ t, q = 16 * t := ⟨q / 16, by omega⟩
    have h2 : (q + 16 - 1) / 16 = t := by omega
    have h3 : G * q = 16 * (G * t) := by
      rw [ht]
      ring
    rw [h2]
    generalize G * t = X at *
    omega

/-- C21. On an executor that `prepare` has set up for a configuration which
`is_supported` accepts and whose destination shape has `num_output` channels:
every destination pointer an output-width outer block stores for the
microkernel is `base_dst + dst_offset(b, g, ocb, oh, owl2)` for a 16-channel
block `ocb` of its range (when `ocl2` is a multiple of 16), where `base_dst`
carries the tile origin, so that the pointer is
`dst_ + dst_offset(mbl3 + b, gpl3 + g, ocb, oh, owl2)`; and for index tuples
`(n, g, ocb, oh, ow)` with `0 <= n < batch`, `0 <= g < group`,
`0 <= ocb * 16 < round_up(oc_per_gp, OC_REG_ELTS)`, `0 <= oh < dst_h`,
`0 <= ow < dst_w`, the 16-float slot at `dst_offset(n, g, ocb, oh, ow)` lies
inside the `batch * round_up(num_output, OC_DATA_BLK) * dst_h * dst_w` elements
of the destination, and the slots of two different tuples do not overlap. -/
theorem dst_slots (is_pointwise : conv2d_param → Bool) (m : machine) (e0 e : executor)
    (cp : conv2d_param) (src_shape_ dst_shape_ : TensorShape) (c : exec_consts)
    (hprep : prepare m e0 = some (RetCode.RC_SUCCESS, e))
    (hcp : e.conv_param_ = some cp)
    (hconsts : mk_exec_consts cp e.schedule_param_ src_shape_ dst_shape_ e.sum_src_shape_
      = some c)
    (hsup : is_supported is_pointwise cp = some true)
    (hdim : dst_shape_.GetDim 1 = cp.num_output) :
    (∀ (cvt_filter_ src_ dst_ : pointer) (sum_src_ : Option pointer) (mbl3 gpl3 icl2 : Int)
        (blk : ic_block),
      cal_ic_block cp e.schedule_param_ c cvt_filter_ src_ dst_ sum_src_ mbl3 gpl3 icl2
        = some blk →
      ∀ b g ocb oh ow : Int, blk.base_dst.add (dst_offset c b g ocb oh ow)
        = dst_.add (dst_offset c (mbl3 + b) (gpl3 + g) ocb oh ow)) ∧
    (∀ (blk : ic_block) (cvt_bias_ : pointer) (gpl3 g b ocl2 oh owl2 : Int)
        (evs : List event),
      (16 : Int) ∣ ocl2 →
      ow_block cp e.schedule_param_ c blk cvt_bias_ gpl3 g b ocl2 oh owl2 = some evs →
      ∀ v, event.pick ker_p_def.DST_PTR_IDX v ∈ evs →
        ∃ ocb, ocl2 ≤ ocb * 16 ∧
          ocb * 16 < ocl2 + min (c.padded_reg_oc - ocl2) e.schedule_param_.oc_l2_blk ∧
          v = ker_value.ptr (blk.base_dst.add (dst_offset c b g ocb oh owl2))) ∧
    (∃ padded_c, round_up cp.num_output OC_DATA_BLK = some padded_c ∧
      ∀ n g ocb oh ow : Int, (0 ≤ n ∧ n < c.batch) → (0 ≤ g ∧ g < cp.group) →
        (0 ≤ ocb ∧ ocb * 16 < c.padded_reg_oc) → (0 ≤ oh ∧ oh < c.dst_h) →
        (0 ≤ ow ∧ ow < c.dst_w) →
        0 ≤ dst_offset c n g ocb oh ow ∧
        dst_offset c n g ocb oh ow + OC_DATA_BLK ≤ c.batch * padded_c * c.dst_h * c.dst_w ∧
        ∀ n2 g2 ocb2 oh2 ow2 : Int, (0 ≤ n2 ∧ n2 < c.batch) → (0 ≤ g2 ∧ g2 < cp.group) →
          (0 ≤ ocb2 ∧ ocb2 * 16 < c.padded_reg_oc) → (0 ≤ oh2 ∧ oh2 < c.dst_h) →
          (0 ≤ ow2 ∧ ow2 < c.dst_w) →
          ¬ (n = n2 ∧ g = g2 ∧ ocb = ocb2 ∧ oh = oh2 ∧ ow = ow2) →
          (dst_offset c n g ocb oh ow + OC_DATA_BLK ≤ dst_offset c n2 g2 ocb2 oh2 ow2 ∨
            dst_offset c n2 g2 ocb2 oh2 ow2 + OC_DATA_BLK ≤ dst_offset c n g ocb oh ow)) := by
  have h16 : OC_DATA_BLK = 16 := rfl
  obtain ⟨_, hq, hP, _⟩ := prepared_oc_facts m e0 e cp hprep hcp
  obtain ⟨hbs, hgs, hhs, hR⟩ :=
    mk_exec_consts_dst cp e.schedule_param_ src_shape_ dst_shape_ e.sum_src_shape_ c hconsts
  obtain ⟨_, hsup2⟩ := is_supported_true is_pointwise cp hsup
  rw [hdim] at hbs
  rw [hq] at hR
  refine ⟨?_, ?_, ?_⟩
  · intro cvt_filter_ src_ dst_ sum_src_ mbl3 gpl3 icl2 blk hblk b g ocb oh ow
    rw [cal_ic_block_base_dst cp e.schedule_param_ c cvt_filter_ src_ dst_ sum_src_
      mbl3 gpl3 icl2 blk hblk, pointer_add_add]
    congr 1
    simp only [dst_offset]
    ring
  · intro blk cvt_bias_ gpl3 g b ocl2 oh owl2 evs hdvd hevs v hv
    obtain ⟨ks, ke, w, l_src, p0, calls, hp0, hevs2, hseq⟩ :=
      ow_block_inv cp e.schedule_param_ c blk cvt_bias_ gpl3 g b ocl2 oh owl2 evs hevs
    rw [hevs2] at hv
    simp only [List.cons_append, List.nil_append, List.mem_cons, event.pick.injEq,
      reduceCtorEq, false_and, false_or] at hv
    obtain ⟨oc, hoc, r, hr, hvr⟩ := (mem_seq_events _ _ _ calls hseq).mp hv
    obtain ⟨ho1, ho2, ho3⟩ := (mem_for_indices ocl2 _ 16 oc (by decide)).mp hoc
    obtain ⟨_, _, _, huniq, _⟩ := oc_dispatch_events cp e.schedule_param_ c owl2 _ w l_src _ oc
      _ r hr
    obtain ⟨t, ht⟩ := hdvd
    obtain ⟨k, hk⟩ := ho3
    have hk2 : (oc - ocl2) / 16 = k := by omega
    refine ⟨t + k, by omega, by omega, ?_⟩
    rw [huniq v hvr, hk2]
    simp only [oc_ptrs_at, hp0, pointer_add_add, dst_offset, h16, hhs]
    congr 2
    rw [ht]
    ring
  · refine ⟨_, round_up_isSome _ _ (by decide), ?_⟩
    rw [h16]
    have hrange : ∀ g ocb : Int, (0 ≤ g ∧ g < cp.group) → (0 ≤ ocb ∧ ocb * 16 < c.padded_reg_oc) →
        1 ≤ Int.tdiv cp.num_output cp.group ∧
        cp.group * ((Int.tdiv cp.num_output cp.group + 16 - 1) / 16)
          ≤ (cp.num_output + 16 - 1) / 16 ∧
        0 ≤ cp.num_output ∧
        ocb < (Int.tdiv cp.num_output cp.group + 16 - 1) / 16 := by
      intro g ocb hg ho
      have hq1 : 1 ≤ Int.tdiv cp.num_output cp.group := by
        by_contra hlt
        have := tdiv_nonpos_of_lt (Int.tdiv cp.num_output cp.group + 8 - 1) 8 (by decide)
          (by omega)
        omega
      have hO : 0 ≤ cp.num_output := by
        by_contra hneg
        have := tdiv_nonpos_of_lt cp.num_output cp.group (by omega) (by omega)
        omega
      have hsup3 : cp.group = 1 ∨ Int.tmod (Int.tdiv cp.num_output cp.group) 16 = 0 :=
        hsup2.imp id (fun h => h.2)
      refine ⟨hq1, supported_layout cp.group cp.num_output _ (by omega) rfl hq1 hsup3, hO, ?_⟩
      rw [Int.tdiv_eq_ediv (by omega) (by decide)] at hR
      omega
    have hoff : ∀ n g ocb oh ow : Int, 1 ≤ Int.tdiv cp.num_output cp.group →
        0 ≤ cp.num_output →
        dst_offset c n g ocb oh ow
          = (((n * ((cp.num_output + 16 - 1) / 16)
              + (g * ((Int.tdiv cp.num_output cp.group + 16 - 1) / 16) + ocb)) * c.dst_h + oh)
              * c.dst_w + ow) * 16 := by
      intro n g ocb oh ow hq1 hO
      simp only [dst_offset, hbs, hgs, hhs, hP, h16]
      rw [Int.tdiv_eq_ediv (by omega) (by decide), Int.tdiv_eq_ediv (by omega) (by decide)]
      ring
    intro n g ocb oh ow hn hg ho hh hw
    obtain ⟨hq1, hGp, hO, hocb⟩ := hrange g ocb hg ho
    obtain ⟨s0, s1, sinj⟩ := slot_number_facts c.batch _ cp.group _ c.dst_h c.dst_w n g ocb oh ow
      hGp hn hg ⟨ho.1, hocb⟩ hh hw
    rw [hoff n g ocb oh ow hq1 hO]
    refine ⟨by omega, ?_, ?_⟩
    · have htot : c.batch * (Int.tdiv (cp.num_output + 16 - 1) 16 * 16) * c.dst_h * c.dst_w
          = c.batch * ((cp.num_output + 16 - 1) / 16) * c.dst_h * c.dst_w * 16 := by
        rw [Int.tdiv_eq_ediv (by omega) (by decide)]
        ring
      rw [htot]
      omega
    · intro n2 g2 ocb2 oh2 ow2 hn2 hg2 ho2 hh2 hw2 hne
      obtain ⟨_, _, _, hocb2⟩ := hrange g2 ocb2 hg2 ho2
      rw [hoff n2 g2 ocb2 oh2 ow2 hq1 hO]
      have hne2 := fun heq => hne (sinj n2 g2 ocb2 oh2 ow2 hn2 hg2 ⟨ho2.1, hocb2⟩ hh2 hw2 heq)
      exact rows_disjoint _ _ 16 (by decide) hne2

theorem dst_slots_witness :
    ∃ padded_c, round_up example_param.num_output OC_DATA_BLK = some padded_c ∧
      0 ≤ dst_offset example_consts 0 0 1 31 31 ∧
      dst_offset example_consts 0 0 1 31 31 + OC_DATA_BLK
        ≤ example_consts.batch * padded_c * example_consts.dst_h * example_consts.dst_w ∧
      (dst_offset example_consts 0 0 1 31 31 + OC_DATA_BLK
          ≤ dst_offset example_consts 0 0 1 31 30 ∨
        dst_offset example_consts 0 0 1 31 30 + OC_DATA_BLK
          ≤ dst_offset example_consts 0 0 1 31 31) := by
  obtain ⟨pc, hpc, h⟩ := (dst_slots (fun _ => false) example_machine example_executor
    { example_executor with schedule_param_ := example_schedule } example_param
    example_src_shape example_dst_shape example_consts (by rfl) rfl (by rfl) (by rfl)
    (by rfl)).2.2
  obtain ⟨h1, h2, h3⟩ := h 0 0 1 31 31 (by decide) (by decide) (by decide) (by decide)
    (by decide)
  exact ⟨pc, hpc, h1, h2, h3 0 0 1 31 30 (by decide) (by decide) (by decide) (by decide)
    (by decide) (by decide)⟩

/-! ## Output-channel blocks and register groups -/

/-- C9, refuted as stated. With `group = 0` the parameters and both shapes are
present and SUM fusion is not set, so the failure condition does not hold; but
`init_preproc_param` divides `channels` by `group`, unchecked, and `prepare`
returns no status at all: neither `RC_INVALID_VALUE` nor `RC_SUCCESS`. The
same holds with `channels = 0` and with `kernel_h = 0`, where `cal_ic_l2_blk`
divides by zero. -/
theorem prepare_status_counterexample :
    ¬ prepare_invalid zero_group_executor ∧
    init_preproc_param { example_param with group := 0 } blank_schedule = none ∧
    prepare example_machine zero_group_executor = none ∧
    ¬ (∃ e, prepare example_machine zero_group_executor = some (RetCode.RC_SUCCESS, e)) ∧
    prepare example_machine
      { example_executor with conv_param_ := some { example_param with channels := 0 } }
      = none ∧
    prepare example_machine
      { example_executor with conv_param_ := some { example_param with kernel_h := 0 } }
      = none := by
  have h : prepare example_machine zero_group_executor = none := by rfl
  refine ⟨by simp [prepare_invalid, zero_group_executor, example_executor, example_param],
    by rfl, h, ?_, by rfl, by rfl⟩
  rintro ⟨e, he⟩
  rw [h] at he
  exact absurd he (by simp)

/-- C10, refuted as stated. The example with `dilation_h = 0`: `prepare`
returns `RC_SUCCESS`, every buffer is set, so the failure condition of
`execute` does not hold; but the store of `KH_START` divides by `dilation_h`,
unchecked, and `execute` returns no status at all. The same holds for the
example executor on which `prepare` was never run: its batch block
`mb_l3_blk` is 0 and the outermost loop does not advance. -/
theorem execute_status_counterexample :
    prepare example_machine zero_dilation_executor
      = some (RetCode.RC_SUCCESS,
          { zero_dilation_executor with schedule_param_ := example_schedule }) ∧
    ¬ execute_invalid { zero_dilation_executor with schedule_param_ := example_schedule } ∧
    execute { zero_dilation_executor with schedule_param_ := example_schedule } = none ∧
    ¬ (∃ t, execute { zero_dilation_executor with schedule_param_ := example_schedule }
      = some (RetCode.RC_SUCCESS, t)) ∧
    ¬ execute_invalid example_executor ∧
    execute example_executor = none := by
  have h : execute { zero_dilation_executor with schedule_param_ := example_schedule }
      = none := by rfl
  refine ⟨by rfl,
    by simp [execute_invalid, zero_dilation_executor, example_executor, example_param,
      example_schedule, PADDING_POLICY_PREPAD],
    h, ?_,
    by simp [execute_invalid, example_executor, example_param, blank_schedule,
      PADDING_POLICY_PREPAD],
    by rfl⟩
  rintro ⟨t, ht⟩
  rw [h] at ht
  exact absurd ht (by simp)

end Conv2dDirect
